import Mathlib

/-!
# The `oll-cli` command shell: embedding and verified properties

A shallow embedding of `cli/oll-cli.go`: the argument decoders, the command
table, the handlers bound in it, and the properties of the specification that
are settled against them.

Modelling conventions.

* A Go `string` is a Lean `String` (valid UTF-8 text).  Where Go works on
  bytes and the byte in question is ASCII (`"`, `\n`, digits, signs) the same
  test is made on characters: a non-ASCII character is encoded with bytes
  `>= 0x80` only, so it never passes a test for an ASCII byte.  `len(s)` is
  the UTF-8 byte size.
* A Go `int` is a 64-bit signed integer, embedded as `Int`; `uint64`
  arithmetic is `Nat` with an explicit `% 2^64`.
* A Go result pair `(v, err)` is a Lean pair whose second component is an
  `Option Error` (`none` is `nil`).
* A Go slice is the list of its elements: the nil slice and the empty slice
  are both the list with no elements.
* The store client (`pkg/client`) and `encoding/json` are outside the file;
  they are parameters of the handlers.  Every client call is recorded in a
  trace, and writes to standard output are recorded in the world state.
  `jsonLib` fills the parameter for `json.Unmarshal` into a `[]string` with
  an embedding of the decoder of the Go standard library.
* Running off the end of `args` is a Go run-time panic and `os.Exit` ends the
  process; both are outcomes of a handler, next to a normal return.
-/

namespace OllCli

/-! ## Errors -/

/-- The two sentinel errors of `strconv`: `ErrSyntax` and `ErrRange`. -/
inductive NumErrKind where
  | ErrSyntax
  | ErrRange
  deriving DecidableEq, Repr

/-- Go `error` values that reach this file.  `ErrNotEnoughArguments` and
`ErrCanNotExit` are declared at lines 16-19; `ErrCommandNotExist` is the
sentinel of `pkg/cmd`; `NumError` is `*strconv.NumError`; `Other` is any
other error value (those of `encoding/json` and of the store client), known
by its message only. -/
inductive Error where
  | ErrNotEnoughArguments
  | ErrCanNotExit
  | ErrCommandNotExist
  | NumError (Func : String) (Num : String) (Err : NumErrKind)
  | Other (msg : String)
  deriving DecidableEq, Repr

/-- The helper `syntaxError(fn, str)` of `strconv`. -/
def syntaxError (fn str : String) : Error := Error.NumError fn str NumErrKind.ErrSyntax

/-- The helper `rangeError(fn, str)` of `strconv`. -/
def rangeError (fn str : String) : Error := Error.NumError fn str NumErrKind.ErrRange

/-! ## `strconv.Atoi` (Go standard library), base 10, 64-bit `int` -/

/-- The constant `strconv.IntSize` on a 64-bit platform. -/
def intSize : Nat := 64

/-- The byte test `'0' <= c && c <= '9'`. -/
def isDigit (c : Char) : Bool := decide (48 ≤ c.toNat ∧ c.toNat ≤ 57)

/-- The value `c - '0'` of a digit. -/
def digitVal (c : Char) : Nat := c.toNat - 48

/-- The function `lower(c)` of `strconv`: `c | ('x' - 'X')`. -/
def lower (c : Char) : Nat := c.toNat ||| 32

/-- The digit switch of `ParseUint`: the value of the byte `c` as a digit, or
`none` for the `default` case (a syntax error).  The underscore case needs
`base == 0` and is never taken for base 10. -/
def digitOf (c : Char) : Option Nat :=
  if isDigit c then some (digitVal c)
  else if 97 ≤ lower c ∧ lower c ≤ 122 then some (lower c - 97 + 10)
  else none

/-- The digit loop of `ParseUint` for `base = 10`, from the accumulator `n`.
`cutoff` is `maxUint64/10 + 1` and `maxVal` is `2^bitSize - 1`.  The result
is `(n, nil)`, `(0, ErrSyntax)` or `(maxVal, ErrRange)`. -/
def parseUintLoop (cutoff maxVal : Nat) : List Char → Nat → Nat × Option NumErrKind
  | [], n => (n, none)
  | c :: cs, n =>
    match digitOf c with
    | none => (0, some NumErrKind.ErrSyntax)
    | some d =>
      if d ≥ 10 then (0, some NumErrKind.ErrSyntax)
      else if n ≥ cutoff then (maxVal, some NumErrKind.ErrRange)
      else
        let n10 := (n * 10) % 2 ^ 64
        let n1 := (n10 + d) % 2 ^ 64
        if n1 < n10 ∨ n1 > maxVal then (maxVal, some NumErrKind.ErrRange)
        else parseUintLoop cutoff maxVal cs n1

/-- The call `strconv.ParseUint(s, 10, 64)` on the characters of `s`. -/
def ParseUint (s : List Char) : Nat × Option NumErrKind :=
  if s = [] then (0, some NumErrKind.ErrSyntax)
  else parseUintLoop ((2 ^ 64 - 1) / 10 + 1) (2 ^ 64 - 1) s 0

/-- The call `strconv.ParseInt(s, 10, 0)`: picks off the sign, converts the
rest unsigned and checks the range against `cutoff = 1 << (IntSize-1)`; a
literal out of range yields the nearest bound together with `ErrRange`. -/
def ParseInt (s : String) : Int × Option Error :=
  match s.data with
  | [] => (0, some (syntaxError "ParseInt" s))
  | c0 :: rest =>
    let neg := decide (c0 = '-')
    let body := if c0 = '+' then rest else if c0 = '-' then rest else c0 :: rest
    let r := ParseUint body
    if r.2 = some NumErrKind.ErrSyntax then (0, some (syntaxError "ParseInt" s))
    else
      let un := r.1
      let cutoff : Nat := 2 ^ (intSize - 1)
      if neg = false ∧ un ≥ cutoff then (((cutoff - 1 : Nat) : Int), some (rangeError "ParseInt" s))
      else if neg = true ∧ un > cutoff then (-(cutoff : Int), some (rangeError "ParseInt" s))
      else (if neg then -(un : Int) else (un : Int), none)

/-- The fast-path loop of `Atoi`: `ch -= '0'; if ch > 9 { syntax error };
n = n*10 + int(ch)`.  `none` is the syntax error. -/
def atoiFastLoop : List Char → Int → Option Int
  | [], n => some n
  | ch :: cs, n =>
    if isDigit ch then atoiFastLoop cs (n * 10 + (digitVal ch : Int)) else none

/-- The function `strconv.Atoi`.  Strings of 1 to 18 bytes take the fast path;
the others go through `ParseInt(s, 10, 0)`, whose error has its `Func` field
rewritten to `"Atoi"`. -/
def Atoi (s : String) : Int × Option Error :=
  let sLen := s.utf8ByteSize
  if 0 < sLen ∧ sLen < 19 then
    match s.data with
    | [] => (0, some (syntaxError "Atoi" s))
    | c0 :: rest =>
      let signed := decide (c0 = '-' ∨ c0 = '+')
      let body := if signed then rest else c0 :: rest
      if signed = true ∧ body.length < 1 then (0, some (syntaxError "Atoi" s))
      else
        match atoiFastLoop body 0 with
        | none => (0, some (syntaxError "Atoi" s))
        | some n => (if c0 = '-' then -n else n, none)
  else
    match ParseInt s with
    | (i64, some (Error.NumError _ num kind)) => (i64, some (Error.NumError "Atoi" num kind))
    | (i64, err) => (i64, err)

/-! ## `strings.Trim` with a one-byte ASCII cutset -/

/-- The function `trimLeftByte(s, c)`: drop `c` from the front while it is there. -/
def trimLeftByte (s : List Char) (c : Char) : List Char := s.dropWhile (fun x => x == c)

/-- The function `trimRightByte(s, c)`: drop `c` from the back while it is there. -/
def trimRightByte (s : List Char) (c : Char) : List Char := s.rdropWhile (fun x => x == c)

/-- The call `strings.Trim(s, cutset)` for a cutset of the single ASCII
character `c`: `trimLeftByte(trimRightByte(s, c), c)`. -/
def Trim (s : String) (c : Char) : String :=
  String.mk (trimLeftByte (trimRightByte s.data c) c)

/-! ## Argument decoders (lines 68-102) -/

/-- A Go `map[string]string`, as its list of entries. -/
abbrev GoMap := List (String × String)

/-- The code outside the file that the handlers use and this file does not
embed: `json.Unmarshal` into a `[]string` and into a `map[string]string`
(the value left in the target, and the error), `strconv.Quote`, which renders
the offending token in the message of a `*strconv.NumError`, and the message
of the sentinel `cmd.ErrCommandNotExist` of `pkg/cmd`. -/
structure Lib where
  unmarshalStrings : String → List String × Option Error
  unmarshalMap : String → GoMap × Option Error
  Quote : String → String
  commandNotExistText : String

/-- The method `Error()` of an error value. -/
def Error.message (lib : Lib) : Error → String
  | Error.ErrNotEnoughArguments => "Not enough arguments"
  | Error.ErrCanNotExit => "Something really went wrong"
  | Error.ErrCommandNotExist => lib.commandNotExistText
  | Error.NumError fn num NumErrKind.ErrSyntax =>
    "strconv." ++ fn ++ ": parsing " ++ lib.Quote num ++ ": invalid syntax"
  | Error.NumError fn num NumErrKind.ErrRange =>
    "strconv." ++ fn ++ ": parsing " ++ lib.Quote num ++ ": value out of range"
  | Error.Other msg => msg

/-- The function `ValidCountArguments` (lines 68-73). -/
def ValidCountArguments (args : List String) (min : Nat) : Option Error :=
  if args.length < min then some Error.ErrNotEnoughArguments else none

/-- The function `ValidInt` (lines 75-81). -/
def ValidInt (s : String) : Int × Option Error :=
  match Atoi s with
  | (_, some err) => (0, some err)
  | (i, none) => (i, none)

/-- The function `ValidName` (lines 83-85). -/
def ValidName (s : String) : String × Option Error := (s, none)

/-- The function `ValidString` (lines 87-90). -/
def ValidString (s : String) : String × Option Error :=
  let res := Trim s '"'
  (res, none)

/-- The function `ValidArray` (lines 92-96). -/
def ValidArray (lib : Lib) (s : String) : List String × Option Error :=
  lib.unmarshalStrings s

/-- The function `ValidHash` (lines 98-102). -/
def ValidHash (lib : Lib) (s : String) : GoMap × Option Error :=
  lib.unmarshalMap s

/-! ## The world: store client, call trace, standard output -/

/-- One invocation of an operation of the store client, with its arguments. -/
inductive Call where
  | ListInstances
  | CreateInstance (name : String)
  | SelectInstance (name : String)
  | Destroy (name : String)
  | Keys
  | Set (name value : String) (ttl : Int)
  | Get (name : String)
  | Del (name : String)
  | SetTTL (name : String) (ttl : Int)
  | DelTTL (name : String)
  | SetArray (name : String) (arr : List String) (ttl : Int)
  | GetArray (name : String)
  | GetArrayElement (name : String) (index : Int)
  | AddArrayElement (name value : String)
  | SetArrayElement (name : String) (index : Int) (value : String)
  | DelArrayElement (name : String) (index : Int)
  | SetHash (name : String) (h : GoMap) (ttl : Int)
  | GetHash (name : String)
  | GetHashElement (name key : String)
  | SetHashElement (name key value : String)
  | DelHashElement (name key : String)
  deriving DecidableEq, Repr

/-- The store client `*client.Client` as the handlers see it: every operation
maps the client's hidden state `σ` to its Go result and the next state.  The
signatures are those of the call sites in this file. -/
structure Client (σ : Type) where
  ListInstances : σ → (List String × Option Error) × σ
  CreateInstance : String → σ → Option Error × σ
  SelectInstance : String → σ → Option Error × σ
  Destroy : String → σ → Option Error × σ
  Keys : σ → (List String × Option Error) × σ
  Set : String → String → Int → σ → Option Error × σ
  Get : String → σ → (String × Option Error) × σ
  Del : String → σ → Option Error × σ
  SetTTL : String → Int → σ → Option Error × σ
  DelTTL : String → σ → Option Error × σ
  SetArray : String → List String → Int → σ → Option Error × σ
  GetArray : String → σ → (List String × Option Error) × σ
  GetArrayElement : String → Int → σ → (String × Option Error) × σ
  AddArrayElement : String → String → σ → Option Error × σ
  SetArrayElement : String → Int → String → σ → Option Error × σ
  DelArrayElement : String → Int → σ → Option Error × σ
  SetHash : String → GoMap → Int → σ → Option Error × σ
  GetHash : String → σ → (GoMap × Option Error) × σ
  GetHashElement : String → String → σ → (String × Option Error) × σ
  SetHashElement : String → String → String → σ → Option Error × σ
  DelHashElement : String → String → σ → Option Error × σ

/-- What a handler can observe and change: the client's state, the trace of
client calls made so far, and the text written to standard output. -/
structure World (σ : Type) where
  store : σ
  trace : List Call
  stdout : String

/-- The world before anything has happened, over the client state `s`. -/
def World.init {σ : Type} (s : σ) : World σ := { store := s, trace := [], stdout := "" }

/-- How a piece of Go code ends: it returns a value, it panics at run time,
or it ends the process with `os.Exit(code)`. -/
inductive Res (α : Type) where
  | ok (a : α)
  | panic (msg : String)
  | exit (code : Int)
  deriving DecidableEq, Repr

/-- A Go computation over the world. -/
def Prog (σ α : Type) : Type := World σ → Res α × World σ

/-- Sequencing: what follows a panic or an exit does not run. -/
def Prog.bind {σ α β : Type} (m : Prog σ α) (f : α → Prog σ β) : Prog σ β :=
  fun w =>
    match m w with
    | (Res.ok a, w1) => f a w1
    | (Res.panic msg, w1) => (Res.panic msg, w1)
    | (Res.exit code, w1) => (Res.exit code, w1)

instance {σ : Type} : Monad (Prog σ) where
  pure a := fun w => (Res.ok a, w)
  bind := Prog.bind

/-- The index expression `args[i]`: a run-time panic when `i` is out of range. -/
def index {σ : Type} (args : List String) (i : Nat) : Prog σ String :=
  fun w =>
    match args.get? i with
    | some a => (Res.ok a, w)
    | none =>
      (Res.panic ("runtime error: index out of range [" ++ toString i ++ "] with length "
        ++ toString args.length), w)

/-- A call of a client operation: runs it on the client's state and records it. -/
def invoke {σ α : Type} (call : Call) (op : σ → α × σ) : Prog σ α :=
  fun w =>
    let r := op w.store
    (Res.ok r.1, { w with store := r.2, trace := w.trace ++ [call] })

/-- A write to standard output. -/
def print {σ : Type} (text : String) : Prog σ Unit :=
  fun w => (Res.ok (), { w with stdout := w.stdout ++ text })

/-- The call `os.Exit(code)`. -/
def osExit {σ α : Type} (code : Int) : Prog σ α := fun w => (Res.exit code, w)

/-! ## Formatting (`fmt`) -/

/-- The verb `%v` on a `[]string`: the elements between brackets, separated by spaces. -/
def fmtSlice (a : List String) : String := "[" ++ " ".intercalate a ++ "]"

/-- The verb `%v` on a `map[string]string`: `map[k:v ...]`, in key order. -/
def fmtMap (h : GoMap) : String :=
  "map[" ++ " ".intercalate ((h.insertionSort (fun a b => a.1 ≤ b.1)).map
    (fun kv => kv.1 ++ ":" ++ kv.2)) ++ "]"

/-- The verb `%v` on an `error`: its message, or `<nil>`. -/
def fmtErr (lib : Lib) : Option Error → String
  | none => "<nil>"
  | some e => e.message lib

/-- The verb `%d` on a non-negative `int`. -/
def fmtInt (n : Nat) : String := toString n

/-! ## The command registry (`pkg/cmd`, as used at lines 104-121 and 594-721) -/

/-- The handler functions of the file, by name: the value of a `Handler` field. -/
inductive HandlerFn where
  | handlerHelp | handlerList | handlerSetTTL | handlerDeleteTTL
  | handleArrayElementGet | handleEcho | handleExit | handleInstanceCreate
  | handleInstanceSelect | handleKeys | handleInstanceSet | handlerHashSet
  | handleInstanceArraySet | handleArrayGet | handleHashGet | handleInstanceDel
  | handleInstanceGet | handleArrayElementAdd | handleArrayElementSet
  | handleArrayElementDel | handleHashElementGet | handleHashElementSet
  | handleHashElementDel | handleDestroy
  deriving DecidableEq, Repr

/-- The struct `cmd.Command`: a descriptor with its three fields. -/
structure Command where
  Title : String
  Description : String
  Handler : HandlerFn
  deriving DecidableEq, Repr

/-- The struct `cmd.Cmd`, of which the handlers read the field
`Commands map[string]*Command`.  The map is the list of its entries (a
descriptor is never a nil pointer); a `range` over the map visits the entries
in the order of the list, so that every iteration order of a map is some
arrangement of the list. -/
structure Cmd where
  Commands : List (String × Command)

/-- The map read `c.Commands[key]` with its `ok` flag. -/
def Cmd.lookup (c : Cmd) (key : String) : Option Command := c.Commands.lookup key

/-- The result of a handler: the Go pair `(string, error)`. -/
abbrev Result := String × Option Error

/-! ## Handlers (lines 104-592) -/

/-- The function `handlerHelp` (lines 104-121).  Reading a field of the
descriptor found under `args[0]` is a nil dereference when there is none. -/
def handlerHelp {σ : Type} (c : Cmd) (args : List String) (_line : String) : Prog σ Result := do
  if args.length > 1 then
    match c.lookup (← index args 1) with
    | none => return ("", some Error.ErrCommandNotExist)
    | some command => return (command.Title ++ "\n" ++ command.Description, none)
  match c.lookup (← index args 0) with
  | none => fun w => (Res.panic "runtime error: invalid memory address or nil pointer dereference", w)
  | some command =>
    let result := command.Title ++ "\n" ++ command.Description ++ "\n\nList of commands:"
    let result := c.Commands.foldl
      (fun result entry => result ++ ("\n" ++ entry.1 ++ " - " ++ entry.2.Title)) result
    return (result, none)

/-- The function `handlerList` (lines 123-133). -/
def handlerList {σ : Type} (cl : Client σ) (_c : Cmd) (_args : List String) (_line : String) :
    Prog σ Result := do
  let (list, err) ← invoke Call.ListInstances cl.ListInstances
  if err ≠ none then return ("", err)
  let result := list.enum.foldl
    (fun result ie => result ++ (fmtInt (ie.1 + 1) ++ ") " ++ ie.2 ++ "\n")) ""
  return (Trim result '\n', none)

/-- The function `handlerSetTTL` (lines 135-157). -/
def handlerSetTTL {σ : Type} (cl : Client σ) (_c : Cmd) (args : List String) (_line : String) :
    Prog σ Result := do
  let err := ValidCountArguments args 3
  if err ≠ none then return ("", err)
  let (name, err) := ValidName (← index args 1)
  if err ≠ none then return ("", err)
  let (ttl, err) := ValidInt (← index args 2)
  if err ≠ none then return ("", err)
  let err ← invoke (Call.SetTTL name ttl) (cl.SetTTL name ttl)
  if err ≠ none then return ("", err)
  return ("OK", none)

/-- The function `handlerDeleteTTL` (lines 159-176). -/
def handlerDeleteTTL {σ : Type} (cl : Client σ) (_c : Cmd) (args : List String) (_line : String) :
    Prog σ Result := do
  let err := ValidCountArguments args 2
  if err ≠ none then return ("", err)
  let (name, err) := ValidName (← index args 1)
  if err ≠ none then return ("", err)
  let err ← invoke (Call.DelTTL name) (cl.DelTTL name)
  if err ≠ none then return ("", err)
  return ("OK", none)

/-- The function `handleArrayElementGet` (lines 178-195). -/
def handleArrayElementGet {σ : Type} (cl : Client σ) (_c : Cmd) (args : List String)
    (_line : String) : Prog σ Result := do
  let err := ValidCountArguments args 3
  if err ≠ none then return ("", err)
  let (name, err) := ValidName (← index args 1)
  if err ≠ none then return ("", err)
  let (idx, err) := ValidInt (← index args 2)
  if err ≠ none then return ("", err)
  invoke (Call.GetArrayElement name idx) (cl.GetArrayElement name idx)

/-- The function `handleEcho` (lines 197-204). -/
def handleEcho {σ : Type} (_c : Cmd) (args : List String) (_line : String) : Prog σ Result := do
  let err := ValidCountArguments args 2
  if err ≠ none then return ("", err)
  return ValidString (← index args 1)

/-- The function `handleExit` (lines 206-210). -/
def handleExit {σ : Type} (_c : Cmd) (_args : List String) (_line : String) : Prog σ Result := do
  print "Bye!\n"
  osExit 0
  return ("", some Error.ErrCanNotExit)

/-- The function `handleInstanceCreate` (lines 212-229). -/
def handleInstanceCreate {σ : Type} (cl : Client σ) (_c : Cmd) (args : List String)
    (_line : String) : Prog σ Result := do
  let err := ValidCountArguments args 2
  if err ≠ none then return ("", err)
  let (name, err) := ValidName (← index args 1)
  if err ≠ none then return ("", err)
  let err ← invoke (Call.CreateInstance name) (cl.CreateInstance name)
  if err ≠ none then return ("", err)
  return ("OK", none)

/-- The function `handleInstanceSelect` (lines 231-248). -/
def handleInstanceSelect {σ : Type} (cl : Client σ) (_c : Cmd) (args : List String)
    (_line : String) : Prog σ Result := do
  let err := ValidCountArguments args 2
  if err ≠ none then return ("", err)
  let (name, err) := ValidName (← index args 1)
  if err ≠ none then return ("", err)
  let err ← invoke (Call.SelectInstance name) (cl.SelectInstance name)
  if err ≠ none then return ("", err)
  return ("OK", none)

/-- The function `handleKeys` (lines 250-262). -/
def handleKeys {σ : Type} (cl : Client σ) (_c : Cmd) (_args : List String) (_line : String) :
    Prog σ Result := do
  let (list, err) ← invoke Call.Keys cl.Keys
  if err ≠ none then return ("", err)
  let result := list.enum.foldl
    (fun result ik => result ++ (fmtInt (ik.1 + 1) ++ ") " ++ ik.2 ++ "\n")) ""
  return (result, none)

/-- The function `handleInstanceSet` (lines 264-291). -/
def handleInstanceSet {σ : Type} (cl : Client σ) (_c : Cmd) (args : List String)
    (_line : String) : Prog σ Result := do
  let err := ValidCountArguments args 3
  if err ≠ none then return ("", err)
  let (name, err) := ValidName (← index args 1)
  if err ≠ none then return ("", err)
  let (str, err) := ValidString (← index args 2)
  if err ≠ none then return ("", err)
  let mut ttl : Int := 0
  if args.length > 3 then
    ttl := (Atoi (← index args 3)).1
  let err ← invoke (Call.Set name str ttl) (cl.Set name str ttl)
  if err ≠ none then return ("", err)
  return ("OK", none)

/-- The function `handlerHashSet` (lines 293-320). -/
def handlerHashSet {σ : Type} (lib : Lib) (cl : Client σ) (_c : Cmd) (args : List String)
    (_line : String) : Prog σ Result := do
  let err := ValidCountArguments args 3
  if err ≠ none then return ("", err)
  let (name, err) := ValidName (← index args 1)
  if err ≠ none then return ("", err)
  let (h, err) := ValidHash lib (← index args 2)
  if err ≠ none then return ("", err)
  let mut ttl : Int := 0
  if args.length > 3 then
    ttl := (Atoi (← index args 3)).1
  let err ← invoke (Call.SetHash name h ttl) (cl.SetHash name h ttl)
  if err ≠ none then return ("", err)
  return ("OK", none)

/-- The function `handleInstanceArraySet` (lines 322-352), with its three
`fmt.Println` calls. -/
def handleInstanceArraySet {σ : Type} (lib : Lib) (cl : Client σ) (_c : Cmd)
    (args : List String) (_line : String) : Prog σ Result := do
  let err := ValidCountArguments args 3
  if err ≠ none then return ("", err)
  let (name, err) := ValidName (← index args 1)
  if err ≠ none then return ("", err)
  print ((← index args 2) ++ "\n")
  let (arr, err) := ValidArray lib (← index args 2)
  if err ≠ none then
    print (fmtSlice arr ++ " " ++ fmtErr lib err ++ "\n")
    return ("", err)
  print (fmtSlice arr ++ " " ++ fmtErr lib err ++ "\n")
  let mut ttl : Int := 0
  if args.length > 3 then
    ttl := (Atoi (← index args 3)).1
  let err ← invoke (Call.SetArray name arr ttl) (cl.SetArray name arr ttl)
  if err ≠ none then return ("", err)
  return ("OK", none)

/-- The function `handleArrayGet` (lines 354-367). -/
def handleArrayGet {σ : Type} (cl : Client σ) (_c : Cmd) (args : List String) (_line : String) :
    Prog σ Result := do
  let err := ValidCountArguments args 2
  if err ≠ none then return ("", err)
  let (name, err) := ValidName (← index args 1)
  if err ≠ none then return ("", err)
  let (a, err) ← invoke (Call.GetArray name) (cl.GetArray name)
  return (fmtSlice a, err)

/-- The function `handleHashGet` (lines 369-382). -/
def handleHashGet {σ : Type} (cl : Client σ) (_c : Cmd) (args : List String) (_line : String) :
    Prog σ Result := do
  let err := ValidCountArguments args 2
  if err ≠ none then return ("", err)
  let (name, err) := ValidName (← index args 1)
  if err ≠ none then return ("", err)
  let (h, err) ← invoke (Call.GetHash name) (cl.GetHash name)
  return (fmtMap h, err)

/-- The function `handleInstanceDel` (lines 384-401). -/
def handleInstanceDel {σ : Type} (cl : Client σ) (_c : Cmd) (args : List String) (_line : String) :
    Prog σ Result := do
  let err := ValidCountArguments args 2
  if err ≠ none then return ("", err)
  let (name, err) := ValidName (← index args 1)
  if err ≠ none then return ("", err)
  let err ← invoke (Call.Del name) (cl.Del name)
  if err ≠ none then return ("", err)
  return ("OK", none)

/-- The function `handleInstanceGet` (lines 403-420). -/
def handleInstanceGet {σ : Type} (cl : Client σ) (_c : Cmd) (args : List String)
    (_line : String) : Prog σ Result := do
  let err := ValidCountArguments args 2
  if err ≠ none then return ("", err)
  let (name, err) := ValidName (← index args 1)
  if err ≠ none then return ("", err)
  let (value, err) ← invoke (Call.Get name) (cl.Get name)
  if err ≠ none then return ("", err)
  return (value, none)

/-- The function `handleArrayElementAdd` (lines 422-444). -/
def handleArrayElementAdd {σ : Type} (cl : Client σ) (_c : Cmd) (args : List String)
    (_line : String) : Prog σ Result := do
  let err := ValidCountArguments args 2
  if err ≠ none then return ("", err)
  let (name, err) := ValidName (← index args 1)
  if err ≠ none then return ("", err)
  let (s, err) := ValidString (← index args 2)
  if err ≠ none then return ("", err)
  let err ← invoke (Call.AddArrayElement name s) (cl.AddArrayElement name s)
  if err ≠ none then return ("", err)
  return ("OK", none)

/-- The function `handleArrayElementSet` (lines 446-473). -/
def handleArrayElementSet {σ : Type} (cl : Client σ) (_c : Cmd) (args : List String)
    (_line : String) : Prog σ Result := do
  let err := ValidCountArguments args 4
  if err ≠ none then return ("", err)
  let (name, err) := ValidName (← index args 1)
  if err ≠ none then return ("", err)
  let (idx, err) := ValidInt (← index args 2)
  if err ≠ none then return ("", err)
  let (value, err) := ValidString (← index args 3)
  if err ≠ none then return ("", err)
  let err ← invoke (Call.SetArrayElement name idx value) (cl.SetArrayElement name idx value)
  if err ≠ none then return ("", err)
  return ("OK", none)

/-- The function `handleArrayElementDel` (lines 475-497). -/
def handleArrayElementDel {σ : Type} (cl : Client σ) (_c : Cmd) (args : List String)
    (_line : String) : Prog σ Result := do
  let err := ValidCountArguments args 3
  if err ≠ none then return ("", err)
  let (name, err) := ValidName (← index args 1)
  if err ≠ none then return ("", err)
  let (idx, err) := ValidInt (← index args 2)
  if err ≠ none then return ("", err)
  let err ← invoke (Call.DelArrayElement name idx) (cl.DelArrayElement name idx)
  if err ≠ none then return ("", err)
  return ("OK", none)

/-- The function `handleHashElementGet` (lines 499-521). -/
def handleHashElementGet {σ : Type} (cl : Client σ) (_c : Cmd) (args : List String)
    (_line : String) : Prog σ Result := do
  let err := ValidCountArguments args 3
  if err ≠ none then return ("", err)
  let (name, err) := ValidName (← index args 1)
  if err ≠ none then return ("", err)
  let (key, err) := ValidName (← index args 2)
  if err ≠ none then return ("", err)
  let (res, err) ← invoke (Call.GetHashElement name key) (cl.GetHashElement name key)
  if err ≠ none then return ("", err)
  return (res, none)

/-- The function `handleHashElementSet` (lines 523-550). -/
def handleHashElementSet {σ : Type} (cl : Client σ) (_c : Cmd) (args : List String)
    (_line : String) : Prog σ Result := do
  let err := ValidCountArguments args 4
  if err ≠ none then return ("", err)
  let (name, err) := ValidName (← index args 1)
  if err ≠ none then return ("", err)
  let (key, err) := ValidName (← index args 2)
  if err ≠ none then return ("", err)
  let (val, err) := ValidString (← index args 3)
  if err ≠ none then return ("", err)
  let err ← invoke (Call.SetHashElement name key val) (cl.SetHashElement name key val)
  if err ≠ none then return ("", err)
  return ("OK", none)

/-- The function `handleHashElementDel` (lines 552-574). -/
def handleHashElementDel {σ : Type} (cl : Client σ) (_c : Cmd) (args : List String)
    (_line : String) : Prog σ Result := do
  let err := ValidCountArguments args 3
  if err ≠ none then return ("", err)
  let (name, err) := ValidName (← index args 1)
  if err ≠ none then return ("", err)
  let (key, err) := ValidName (← index args 2)
  if err ≠ none then return ("", err)
  let err ← invoke (Call.DelHashElement name key) (cl.DelHashElement name key)
  if err ≠ none then return ("", err)
  return ("OK", none)

/-- The function `handleDestroy` (lines 575-592). -/
def handleDestroy {σ : Type} (cl : Client σ) (_c : Cmd) (args : List String) (_line : String) :
    Prog σ Result := do
  let err := ValidCountArguments args 2
  if err ≠ none then return ("", err)
  let (name, err) := ValidName (← index args 1)
  if err ≠ none then return ("", err)
  let err ← invoke (Call.Destroy name) (cl.Destroy name)
  if err ≠ none then return ("", err)
  return ("OK", none)

/-! ## The command table (lines 594-721) and the call of a bound handler -/

/-- The table `commands`, in the order of the source. -/
def commands : List (String × Command) :=
  [("HELP", ⟨"Function show information about other functions", "Example: HELP <FUNCTION_NAME>", HandlerFn.handlerHelp⟩),
   ("ECHO", ⟨"Prints string", "Example: ECHO \"Hello World!\"", HandlerFn.handleEcho⟩),
   ("EXIT", ⟨"Exit from the program", "", HandlerFn.handleExit⟩),
   ("CREATE", ⟨"Create an instance", "Example: CREATE dbname", HandlerFn.handleInstanceCreate⟩),
   ("LIST", ⟨"Show list of instance", "Example: LIST", HandlerFn.handlerList⟩),
   ("SELECT", ⟨"Select an instance", "Example: SELECT instance_name", HandlerFn.handleInstanceSelect⟩),
   ("KEYS", ⟨"Show all keys", "Example: KEYS", HandlerFn.handleKeys⟩),
   ("SET", ⟨"Set value", "Example: SET name \"value\" ttl", HandlerFn.handleInstanceSet⟩),
   ("GET", ⟨"Get value", "Example: GET name", HandlerFn.handleInstanceGet⟩),
   ("DEL", ⟨"Delete value", "Example: DEL name", HandlerFn.handleInstanceDel⟩),
   ("TTL/SET", ⟨"Set time to live", "Example: TTL/SET mayfly 86400", HandlerFn.handlerSetTTL⟩),
   ("TTL/DEL", ⟨"Remove time to live", "Example: TTL/DEL mayfly", HandlerFn.handlerDeleteTTL⟩),
   ("ARR/SET", ⟨"Set array", "Example: ARR/SET name [] ttl", HandlerFn.handleInstanceArraySet⟩),
   ("ARR/GET", ⟨"Get array", "Example: ARR/GET name", HandlerFn.handleArrayGet⟩),
   ("ARR/EL/GET", ⟨"Returns the element associated with index", "Example: ARR/EL/GET name index", HandlerFn.handleArrayElementGet⟩),
   ("ARR/EL/ADD", ⟨"Add the element to an array", "Example: ", HandlerFn.handleArrayElementAdd⟩),
   ("ARR/EL/SET", ⟨"Set the element of an array", "Example: ", HandlerFn.handleArrayElementSet⟩),
   ("ARR/EL/DEL", ⟨"Delete the element of an array", "Example:", HandlerFn.handleArrayElementDel⟩),
   ("HASH/GET", ⟨"Get a hash", "Example: HASH/GET name", HandlerFn.handleHashGet⟩),
   ("HASH/SET", ⟨"Set a hash", "Example: HASH/SET name \x7b\x7d", HandlerFn.handlerHashSet⟩),
   ("HASH/EL/GET", ⟨"Get the element of a hash", "Example:", HandlerFn.handleHashElementGet⟩),
   ("HASH/EL/SET", ⟨"Set the element of a hash", "Example:", HandlerFn.handleHashElementSet⟩),
   ("HASH/EL/DEL", ⟨"Delete the element of a hash", "Example:", HandlerFn.handleHashElementDel⟩),
   ("DESTROY", ⟨"Remove instance", "Example: DESTROY instance_name", HandlerFn.handleDestroy⟩)]

/-- The registry after `init` (lines 723-731) has added every entry of
`commands`, iterated in the order of the table. -/
def registry : Cmd := { Commands := commands }

/-- The call `command.Handler(c, args, line)` of the handler a descriptor holds. -/
def runHandler {σ : Type} (lib : Lib) (cl : Client σ) :
    HandlerFn → Cmd → List String → String → Prog σ Result
  | HandlerFn.handlerHelp => handlerHelp
  | HandlerFn.handlerList => handlerList cl
  | HandlerFn.handlerSetTTL => handlerSetTTL cl
  | HandlerFn.handlerDeleteTTL => handlerDeleteTTL cl
  | HandlerFn.handleArrayElementGet => handleArrayElementGet cl
  | HandlerFn.handleEcho => handleEcho
  | HandlerFn.handleExit => handleExit
  | HandlerFn.handleInstanceCreate => handleInstanceCreate cl
  | HandlerFn.handleInstanceSelect => handleInstanceSelect cl
  | HandlerFn.handleKeys => handleKeys cl
  | HandlerFn.handleInstanceSet => handleInstanceSet cl
  | HandlerFn.handlerHashSet => handlerHashSet lib cl
  | HandlerFn.handleInstanceArraySet => handleInstanceArraySet lib cl
  | HandlerFn.handleArrayGet => handleArrayGet cl
  | HandlerFn.handleHashGet => handleHashGet cl
  | HandlerFn.handleInstanceDel => handleInstanceDel cl
  | HandlerFn.handleInstanceGet => handleInstanceGet cl
  | HandlerFn.handleArrayElementAdd => handleArrayElementAdd cl
  | HandlerFn.handleArrayElementSet => handleArrayElementSet cl
  | HandlerFn.handleArrayElementDel => handleArrayElementDel cl
  | HandlerFn.handleHashElementGet => handleHashElementGet cl
  | HandlerFn.handleHashElementSet => handleHashElementSet cl
  | HandlerFn.handleHashElementDel => handleHashElementDel cl
  | HandlerFn.handleDestroy => handleDestroy cl

/-! ## Stub collaborators, for evaluating the handlers on concrete inputs -/

/-- A store client without state: every read returns `names` (or the empty
string, or the empty map) and every operation returns the error `err`. -/
def stubClient (names : List String) (err : Option Error) : Client Unit where
  ListInstances := fun s => ((names, err), s)
  CreateInstance := fun _ s => (err, s)
  SelectInstance := fun _ s => (err, s)
  Destroy := fun _ s => (err, s)
  Keys := fun s => ((names, err), s)
  Set := fun _ _ _ s => (err, s)
  Get := fun _ s => (("", err), s)
  Del := fun _ s => (err, s)
  SetTTL := fun _ _ s => (err, s)
  DelTTL := fun _ s => (err, s)
  SetArray := fun _ _ _ s => (err, s)
  GetArray := fun _ s => ((names, err), s)
  GetArrayElement := fun _ _ s => (("", err), s)
  AddArrayElement := fun _ _ s => (err, s)
  SetArrayElement := fun _ _ _ s => (err, s)
  DelArrayElement := fun _ _ s => (err, s)
  SetHash := fun _ _ _ s => (err, s)
  GetHash := fun _ s => (([], err), s)
  GetHashElement := fun _ _ s => (("", err), s)
  SetHashElement := fun _ _ _ s => (err, s)
  DelHashElement := fun _ _ s => (err, s)

/-- A library stub whose JSON decoders reject every token. -/
def stubLib : Lib where
  unmarshalStrings := fun _ => ([], some (Error.Other "invalid character"))
  unmarshalMap := fun _ => ([], some (Error.Other "invalid character"))
  Quote := fun s => "\"" ++ s ++ "\""
  commandNotExistText := "Command not exist"

/-! ## Specification-side definitions -/

/-- The handlers that decode an argument with a decoder that can fail: the
integer token of `TTL/SET`, `ARR/EL/GET`, `ARR/EL/SET`, `ARR/EL/DEL` and the
JSON token of `ARR/SET` and `HASH/SET`. -/
inductive DecodingHandler where
  | TTLSet | ArrElGet | ArrElSet | ArrElDel | ArrSet | HashSet
  deriving DecidableEq, Repr

/-- The handler function bound to the keyword. -/
def DecodingHandler.fn : DecodingHandler → HandlerFn
  | DecodingHandler.TTLSet => HandlerFn.handlerSetTTL
  | DecodingHandler.ArrElGet => HandlerFn.handleArrayElementGet
  | DecodingHandler.ArrElSet => HandlerFn.handleArrayElementSet
  | DecodingHandler.ArrElDel => HandlerFn.handleArrayElementDel
  | DecodingHandler.ArrSet => HandlerFn.handleInstanceArraySet
  | DecodingHandler.HashSet => HandlerFn.handlerHashSet

/-- The minimum the handler passes to `ValidCountArguments`. -/
def DecodingHandler.minArgs : DecodingHandler → Nat
  | DecodingHandler.ArrElSet => 4
  | _ => 3

/-- The error of the handler's decoder on the token `args[2]`. -/
def DecodingHandler.decodeError (lib : Lib) : DecodingHandler → String → Option Error
  | DecodingHandler.ArrSet, tok => (ValidArray lib tok).2
  | DecodingHandler.HashSet, tok => (ValidHash lib tok).2
  | _, tok => (ValidInt tok).2

/-- The handlers that take an optional trailing TTL: `SET`, `HASH/SET`, `ARR/SET`. -/
inductive TtlHandler where
  | Set | HashSet | ArrSet
  deriving DecidableEq, Repr

/-- The handler function bound to the keyword. -/
def TtlHandler.fn : TtlHandler → HandlerFn
  | TtlHandler.Set => HandlerFn.handleInstanceSet
  | TtlHandler.HashSet => HandlerFn.handlerHashSet
  | TtlHandler.ArrSet => HandlerFn.handleInstanceArraySet

/-- The error of the handler's decoder on the value token `args[2]`. -/
def TtlHandler.decodeError (lib : Lib) : TtlHandler → String → Option Error
  | TtlHandler.Set, tok => (ValidString tok).2
  | TtlHandler.HashSet, tok => (ValidHash lib tok).2
  | TtlHandler.ArrSet, tok => (ValidArray lib tok).2

/-- The client call the keyword stands for, on the name, the decoded value
token and a TTL. -/
def TtlHandler.call (lib : Lib) : TtlHandler → String → String → Int → Call
  | TtlHandler.Set, name, tok, ttl => Call.Set name (ValidString tok).1 ttl
  | TtlHandler.HashSet, name, tok, ttl => Call.SetHash name (ValidHash lib tok).1 ttl
  | TtlHandler.ArrSet, name, tok, ttl => Call.SetArray name (ValidArray lib tok).1 ttl

/-- The error the client returns for that call in the client state `s`. -/
def TtlHandler.clientError {σ : Type} (lib : Lib) (cl : Client σ) :
    TtlHandler → String → String → Int → σ → Option Error
  | TtlHandler.Set, name, tok, ttl, s => (cl.Set name (ValidString tok).1 ttl s).1
  | TtlHandler.HashSet, name, tok, ttl, s => (cl.SetHash name (ValidHash lib tok).1 ttl s).1
  | TtlHandler.ArrSet, name, tok, ttl, s => (cl.SetArray name (ValidArray lib tok).1 ttl s).1

/-- One layer of quoting stripped, in the words of the specification: at most
one leading and at most one trailing double quote is removed. -/
def stripOneLayer (s : String) : String :=
  let t := match s.data with
    | '"' :: r => r
    | cs => cs
  String.mk (if t.getLast? = some '"' then t.dropLast else t)

/-- The rendering of a list in the words of the specification: the
concatenation of `<i>) <element>\n` over the elements, numbered from `i`. -/
def renderFrom : Nat → List String → String
  | _, [] => ""
  | i, e :: es => (toString i ++ ") " ++ e ++ "\n") ++ renderFrom (i + 1) es

/-- The rendering with 1-based indices. -/
def renderIndexed (names : List String) : String := renderFrom 1 names

/-- A text with one single trailing newline removed, when there is one. -/
def dropOneTrailingNewline (s : String) : String :=
  if s.data.getLast? = some '\n' then String.mk s.data.dropLast else s

/-- A base-10 integer literal in the words of the specification: an optional
`+` or `-` sign followed by one or more decimal digits, and nothing else. -/
def isIntLiteral (s : List Char) : Bool :=
  match s with
  | '+' :: ds => !ds.isEmpty && ds.all Char.isDigit
  | '-' :: ds => !ds.isEmpty && ds.all Char.isDigit
  | ds => !ds.isEmpty && ds.all Char.isDigit

/-- The number a run of decimal digits denotes, continuing from `n`. -/
def digitsFrom (n : Nat) (ds : List Char) : Nat :=
  ds.foldl (fun acc c => 10 * acc + (c.toNat - '0'.toNat)) n

/-- The number a run of decimal digits denotes. -/
def digitsValue (ds : List Char) : Nat := digitsFrom 0 ds

/-- The value of an integer literal. -/
def literalValue (s : List Char) : Int :=
  match s with
  | '+' :: ds => (digitsValue ds : Int)
  | '-' :: ds => -(digitsValue ds : Int)
  | ds => (digitsValue ds : Int)

/-- The value fits the 64-bit signed range of the platform `int`. -/
def fitsInt (v : Int) : Prop := -(2 ^ 63) ≤ v ∧ v ≤ 2 ^ 63 - 1

/-- The number of positions of the text `s` at which the pattern `p` begins. -/
def occurrencesIn (p : List Char) : List Char → Nat
  | [] => if p.isPrefixOf [] then 1 else 0
  | c :: cs => (if p.isPrefixOf (c :: cs) then 1 else 0) + occurrencesIn p cs

/-- How many times `p` occurs as a substring of `s`. -/
def occurrences (p s : String) : Nat := occurrencesIn p.data s.data

/-- The heading of the `HELP` text: title and description of `HELP` itself. -/
def helpHeading (command : Command) : String :=
  command.Title ++ "\n" ++ command.Description ++ "\n\nList of commands:"

/-- One line of the `HELP` listing, without the newline in front of it. -/
def helpLine (entry : String × Command) : String := entry.1 ++ " - " ++ entry.2.Title

/-- The mutating handlers: those that render success as `OK`. -/
inductive MutatingHandler where
  | Create | Select | Destroy | Set | Del | TTLSet | TTLDel | ArrSet | HashSet
  | ArrElAdd | ArrElSet | ArrElDel | HashElSet | HashElDel
  deriving DecidableEq, Repr

/-- The handler function bound to the keyword in the table `commands`. -/
def MutatingHandler.fn : MutatingHandler → HandlerFn
  | MutatingHandler.Create => HandlerFn.handleInstanceCreate
  | MutatingHandler.Select => HandlerFn.handleInstanceSelect
  | MutatingHandler.Destroy => HandlerFn.handleDestroy
  | MutatingHandler.Set => HandlerFn.handleInstanceSet
  | MutatingHandler.Del => HandlerFn.handleInstanceDel
  | MutatingHandler.TTLSet => HandlerFn.handlerSetTTL
  | MutatingHandler.TTLDel => HandlerFn.handlerDeleteTTL
  | MutatingHandler.ArrSet => HandlerFn.handleInstanceArraySet
  | MutatingHandler.HashSet => HandlerFn.handlerHashSet
  | MutatingHandler.ArrElAdd => HandlerFn.handleArrayElementAdd
  | MutatingHandler.ArrElSet => HandlerFn.handleArrayElementSet
  | MutatingHandler.ArrElDel => HandlerFn.handleArrayElementDel
  | MutatingHandler.HashElSet => HandlerFn.handleHashElementSet
  | MutatingHandler.HashElDel => HandlerFn.handleHashElementDel

/-- The TTL a `SET`-like handler passes on: 0 without a fourth token, else the
value `strconv.Atoi` returns for it. -/
def ttlOf : List String → Int
  | [] => 0
  | a3 :: _ => (Atoi a3).1

/-- The client call a keyword stands for on a token list, in the words of the
specification: the operation matching the keyword with the decoded arguments
in positional order.  `none` when a token the handler decodes is missing or
does not decode. -/
def MutatingHandler.expectedCall (lib : Lib) : MutatingHandler → List String → Option Call
  | MutatingHandler.Create, _ :: a1 :: _ => some (Call.CreateInstance a1)
  | MutatingHandler.Select, _ :: a1 :: _ => some (Call.SelectInstance a1)
  | MutatingHandler.Destroy, _ :: a1 :: _ => some (Call.Destroy a1)
  | MutatingHandler.Del, _ :: a1 :: _ => some (Call.Del a1)
  | MutatingHandler.TTLDel, _ :: a1 :: _ => some (Call.DelTTL a1)
  | MutatingHandler.Set, _ :: a1 :: a2 :: rest =>
    some (Call.Set a1 (ValidString a2).1 (ttlOf rest))
  | MutatingHandler.TTLSet, _ :: a1 :: a2 :: _ =>
    if (ValidInt a2).2 = none then some (Call.SetTTL a1 (ValidInt a2).1) else none
  | MutatingHandler.ArrSet, _ :: a1 :: a2 :: rest =>
    if (ValidArray lib a2).2 = none
    then some (Call.SetArray a1 (ValidArray lib a2).1 (ttlOf rest)) else none
  | MutatingHandler.HashSet, _ :: a1 :: a2 :: rest =>
    if (ValidHash lib a2).2 = none
    then some (Call.SetHash a1 (ValidHash lib a2).1 (ttlOf rest)) else none
  | MutatingHandler.ArrElAdd, _ :: a1 :: a2 :: _ =>
    some (Call.AddArrayElement a1 (ValidString a2).1)
  | MutatingHandler.ArrElSet, _ :: a1 :: a2 :: a3 :: _ =>
    if (ValidInt a2).2 = none
    then some (Call.SetArrayElement a1 (ValidInt a2).1 (ValidString a3).1) else none
  | MutatingHandler.ArrElDel, _ :: a1 :: a2 :: _ =>
    if (ValidInt a2).2 = none then some (Call.DelArrayElement a1 (ValidInt a2).1) else none
  | MutatingHandler.HashElSet, _ :: a1 :: a2 :: a3 :: _ =>
    some (Call.SetHashElement a1 a2 (ValidString a3).1)
  | MutatingHandler.HashElDel, _ :: a1 :: a2 :: _ => some (Call.DelHashElement a1 a2)
  | _, _ => none

/-- The client's answer to a call in the client state `s`: the error it
returns (the value of a read is left out) and the next state. -/
def Client.answer {σ : Type} (cl : Client σ) : Call → σ → Option Error × σ
  | Call.ListInstances, s => ((cl.ListInstances s).1.2, (cl.ListInstances s).2)
  | Call.CreateInstance name, s => cl.CreateInstance name s
  | Call.SelectInstance name, s => cl.SelectInstance name s
  | Call.Destroy name, s => cl.Destroy name s
  | Call.Keys, s => ((cl.Keys s).1.2, (cl.Keys s).2)
  | Call.Set name value ttl, s => cl.Set name value ttl s
  | Call.Get name, s => ((cl.Get name s).1.2, (cl.Get name s).2)
  | Call.Del name, s => cl.Del name s
  | Call.SetTTL name ttl, s => cl.SetTTL name ttl s
  | Call.DelTTL name, s => cl.DelTTL name s
  | Call.SetArray name arr ttl, s => cl.SetArray name arr ttl s
  | Call.GetArray name, s => ((cl.GetArray name s).1.2, (cl.GetArray name s).2)
  | Call.GetArrayElement name i, s =>
    ((cl.GetArrayElement name i s).1.2, (cl.GetArrayElement name i s).2)
  | Call.AddArrayElement name value, s => cl.AddArrayElement name value s
  | Call.SetArrayElement name i value, s => cl.SetArrayElement name i value s
  | Call.DelArrayElement name i, s => cl.DelArrayElement name i s
  | Call.SetHash name h ttl, s => cl.SetHash name h ttl s
  | Call.GetHash name, s => ((cl.GetHash name s).1.2, (cl.GetHash name s).2)
  | Call.GetHashElement name key, s =>
    ((cl.GetHashElement name key s).1.2, (cl.GetHashElement name key s).2)
  | Call.SetHashElement name key value, s => cl.SetHashElement name key value s
  | Call.DelHashElement name key, s => cl.DelHashElement name key s

/-- The state of a mock store: the scalar values and the arrays set so far,
latest first. -/
structure MockStore where
  values : List (String × String)
  arrays : List (String × List String)
  deriving DecidableEq, Repr

/-- The empty mock store. -/
def MockStore.empty : MockStore := { values := [], arrays := [] }

/-- A mock store client backed by name-to-value maps, as the round-trip
properties of the specification use it: `Set` stores and `Get` returns the
stored value, `SetArray` stores and `GetArrayElement` reads by 0-based index;
the other operations do nothing. -/
def mockClient : Client MockStore where
  ListInstances := fun s => (([], none), s)
  CreateInstance := fun _ s => (none, s)
  SelectInstance := fun _ s => (none, s)
  Destroy := fun _ s => (none, s)
  Keys := fun s => ((s.values.map Prod.fst, none), s)
  Set := fun name value _ s => (none, { s with values := (name, value) :: s.values })
  Get := fun name s =>
    match s.values.lookup name with
    | some v => ((v, none), s)
    | none => (("", some (Error.Other "key not found")), s)
  Del := fun _ s => (none, s)
  SetTTL := fun _ _ s => (none, s)
  DelTTL := fun _ s => (none, s)
  SetArray := fun name arr _ s => (none, { s with arrays := (name, arr) :: s.arrays })
  GetArray := fun name s =>
    match s.arrays.lookup name with
    | some arr => ((arr, none), s)
    | none => (([], some (Error.Other "key not found")), s)
  GetArrayElement := fun name i s =>
    match s.arrays.lookup name with
    | some arr =>
      match (if 0 ≤ i then arr.get? i.toNat else none) with
      | some v => ((v, none), s)
      | none => (("", some (Error.Other "index out of range")), s)
    | none => (("", some (Error.Other "key not found")), s)
  AddArrayElement := fun _ _ s => (none, s)
  SetArrayElement := fun _ _ _ s => (none, s)
  DelArrayElement := fun _ _ s => (none, s)
  SetHash := fun _ _ _ s => (none, s)
  GetHash := fun _ s => (([], none), s)
  GetHashElement := fun _ _ s => (("", some (Error.Other "key not found")), s)
  SetHashElement := fun _ _ _ s => (none, s)
  DelHashElement := fun _ _ s => (none, s)

/-- A client that stores values: `Set` succeeds, and a `Get` of the name right
after it returns the value that was set, without error. -/
def StoresValues {σ : Type} (cl : Client σ) : Prop :=
  ∀ (name value : String) (ttl : Int) (s : σ),
    (cl.Set name value ttl s).1 = none
      ∧ (cl.Get name (cl.Set name value ttl s).2).1 = (value, none)

/-- The indexed element handlers: array and hash elements by index or key. -/
inductive ElementHandler where
  | ArrElGet | ArrElSet | ArrElDel | HashElGet | HashElSet | HashElDel
  deriving DecidableEq, Repr

/-- The handler function bound to the keyword in the table `commands`. -/
def ElementHandler.fn : ElementHandler → HandlerFn
  | ElementHandler.ArrElGet => HandlerFn.handleArrayElementGet
  | ElementHandler.ArrElSet => HandlerFn.handleArrayElementSet
  | ElementHandler.ArrElDel => HandlerFn.handleArrayElementDel
  | ElementHandler.HashElGet => HandlerFn.handleHashElementGet
  | ElementHandler.HashElSet => HandlerFn.handleHashElementSet
  | ElementHandler.HashElDel => HandlerFn.handleHashElementDel

/-- The documented arity of the keyword: 4 tokens for the two `SET`s, else 3. -/
def ElementHandler.arity : ElementHandler → Nat
  | ElementHandler.ArrElSet => 4
  | ElementHandler.HashElSet => 4
  | _ => 3

/-! ## The REPL loop (lines 26-30 and 38-66) -/

/-- The constant `HelpInformation` (lines 26-30), a raw string over three lines. -/
def HelpInformation : String :=
  "Command is not exist.\n\t\tRun 'HELP' for usage or read more on https://github.com/dzyanis/olyalya\n\t"

/-- What the loop uses from outside the file: `Client.CurrentInstanceName()`
of the store client, read from the client's state, and `Cmd.Run` of
`pkg/cmd`, which runs a line and returns the result of the handler. -/
structure Shell (σ : Type) where
  CurrentInstanceName : σ → String
  Run : String → Prog σ Result

/-- Lines 56-64: what the loop body does with the outcome of `Cmd.Run`.  The
format `HelpInformation` holds no `%`, so `fmt.Printf` writes it as it is.
Returning is going on to the next iteration (`continue`, or the end of the
body). -/
def report {σ : Type} (lib : Lib) (outcome : Result) : Prog σ Unit :=
  match outcome.2 with
  | some err =>
    if Error.ErrCommandNotExist = err then print HelpInformation
    else print ("ERROR: " ++ err.message lib ++ "\n")
  | none => print (outcome.1 ++ "\n")

/-- Lines 48-64: one iteration of the loop, on the outcome `read` of
`reader.ReadString`. -/
def loopBody {σ : Type} (lib : Lib) (sh : Shell σ) (read : String × Option Error) :
    Prog σ Unit := do
  (fun w => print (sh.CurrentInstanceName w.store ++ "> ") w)
  match read.2 with
  | some err => print ("ERROR: " ++ err.message lib ++ "\n")
  | none =>
    let outcome ← sh.Run read.1
    report lib outcome

/-- Lines 47-65: the loop `for { ... }`, observed on the reads it is given;
it has no exit of its own. -/
def mainLoop {σ : Type} (lib : Lib) (sh : Shell σ) : List (String × Option Error) → Prog σ Unit
  | [] => pure ()
  | read :: reads => do
    loopBody lib sh read
    mainLoop lib sh reads

/-- The function `main` (lines 38-66) on the value of the flag `-version`,
the build name and the reads of standard input. -/
def main {σ : Type} (lib : Lib) (sh : Shell σ) (version : Bool) (buildName : String)
    (reads : List (String × Option Error)) : Prog σ Unit := do
  if version then
    print ("O(lya-lya) client build: " ++ buildName ++ "\n")
    osExit 0
  print "O(lya-lya) greets you\n"
  mainLoop lib sh reads

/-- A shell for evaluation: no instance is selected and `Cmd.Run` answers
every line with the given outcome. -/
def stubShell (outcome : Result) : Shell Unit where
  CurrentInstanceName := fun _ => ""
  Run := fun _ => pure outcome

/-- The scalar read handlers: `GET`, `ARR/EL/GET`, `HASH/EL/GET`. -/
inductive ReadHandler where
  | Get | ArrElGet | HashElGet
  deriving DecidableEq, Repr

/-- The handler function bound to the keyword in the table `commands`. -/
def ReadHandler.fn : ReadHandler → HandlerFn
  | ReadHandler.Get => HandlerFn.handleInstanceGet
  | ReadHandler.ArrElGet => HandlerFn.handleArrayElementGet
  | ReadHandler.HashElGet => HandlerFn.handleHashElementGet

/-- The client read a keyword stands for on a token list: `args[1]` is the
name and the decoded `args[2]` the index or key.  `none` when a token the
handler decodes is missing or does not decode. -/
def ReadHandler.expectedCall : ReadHandler → List String → Option Call
  | ReadHandler.Get, _ :: a1 :: _ => some (Call.Get a1)
  | ReadHandler.ArrElGet, _ :: a1 :: a2 :: _ =>
    if (ValidInt a2).2 = none then some (Call.GetArrayElement a1 (ValidInt a2).1) else none
  | ReadHandler.HashElGet, _ :: a1 :: a2 :: _ => some (Call.GetHashElement a1 a2)
  | _, _ => none

/-- The Go result `(string, error)` of a scalar read of the client in the
state `s`; the other calls return no string. -/
def Client.readString {σ : Type} (cl : Client σ) : Call → σ → String × Option Error
  | Call.Get name, s => (cl.Get name s).1
  | Call.GetArrayElement name i, s => (cl.GetArrayElement name i s).1
  | Call.GetHashElement name key, s => (cl.GetHashElement name key s).1
  | call, s => ("", (cl.answer call s).1)

/-- The string a call hands to the store client as the value to store. -/
def Call.value? : Call → Option String
  | Call.Set _ value _ => some value
  | Call.AddArrayElement _ value => some value
  | Call.SetArrayElement _ _ value => some value
  | Call.SetHashElement _ _ value => some value
  | _ => none

/-- The handlers that decode a value with `ValidString` for the client:
`SET`, `ARR/EL/ADD`, `ARR/EL/SET`, `HASH/EL/SET`. -/
def valueHandlers : List HandlerFn :=
  [HandlerFn.handleInstanceSet, HandlerFn.handleArrayElementAdd,
   HandlerFn.handleArrayElementSet, HandlerFn.handleHashElementSet]

/-! ## `json.Unmarshal` into a `[]string` (Go standard library)

The decoder first checks that the whole input is one JSON value between
white space, and then stores the value: `null` sets the slice to nil, an
array stores its elements one by one, anything else is a type error.  In an
array a string is stored unquoted, `null` leaves the element at its zero
value, and any other element is a type error that is kept while decoding goes
on.  The grammar is the one of the scanner, with its limit of 10000 on the
depth of nesting. -/

/-- The kind of a JSON value, with the raw body of a string. -/
inductive JKind where
  | null | bool | number | string (raw : List Char) | array | object
  deriving DecidableEq, Repr

/-- The white space of JSON: space, tab, carriage return, line feed. -/
def isSpace (c : Char) : Bool := c == ' ' || c == '\t' || c == '\r' || c == '\n'

/-- Skip white space. -/
def skipSpace : List Char → List Char
  | [] => []
  | c :: cs => if isSpace c then skipSpace cs else c :: cs

/-- The test for a hexadecimal digit. -/
def isHex (c : Char) : Bool :=
  (48 ≤ c.toNat && c.toNat ≤ 57) || (97 ≤ c.toNat && c.toNat ≤ 102)
    || (65 ≤ c.toNat && c.toNat ≤ 70)

/-- The characters that may follow a backslash, `u` apart. -/
def isEscape (c : Char) : Bool :=
  c == '"' || c == '\\' || c == '/' || c == 'b' || c == 'f' || c == 'n' || c == 'r'
    || c == 't'

/-- Scan a string after its opening quote: the raw body up to the closing
quote, and what follows the closing quote.  Control characters below 0x20
and malformed escapes are syntax errors. -/
def scanString : List Char → Option (List Char × List Char)
  | [] => none
  | '"' :: rest => some ([], rest)
  | '\\' :: 'u' :: h1 :: h2 :: h3 :: h4 :: rest =>
    if isHex h1 && isHex h2 && isHex h3 && isHex h4 then
      match scanString rest with
      | some (b, r) => some ('\\' :: 'u' :: h1 :: h2 :: h3 :: h4 :: b, r)
      | none => none
    else none
  | '\\' :: e :: rest =>
    if isEscape e then
      match scanString rest with
      | some (b, r) => some ('\\' :: e :: b, r)
      | none => none
    else none
  | c :: rest =>
    if c.toNat < 32 || c == '\\' then none
    else
      match scanString rest with
      | some (b, r) => some (c :: b, r)
      | none => none

/-- Skip a run of decimal digits. -/
def skipDigits : List Char → List Char
  | [] => []
  | c :: cs => if isDigit c then skipDigits cs else c :: cs

/-- Scan a number: `-? (0 | [1-9][0-9]*) (. [0-9]+)? ([eE] [+-]? [0-9]+)?`;
what follows it, or `none` for a syntax error. -/
def scanNumber (inp : List Char) : Option (List Char) :=
  let afterSign := match inp with
    | '-' :: r => r
    | r => r
  let afterInt : Option (List Char) := match afterSign with
    | '0' :: r => some r
    | c :: r => if isDigit c then some (skipDigits r) else none
    | [] => none
  let afterFrac : Option (List Char) := match afterInt with
    | some ('.' :: c :: r) => if isDigit c then some (skipDigits r) else none
    | some ['.'] => none
    | other => other
  match afterFrac with
  | some (e :: r) =>
    if e == 'e' || e == 'E' then
      match (match r with
        | '+' :: r1 => r1
        | '-' :: r1 => r1
        | r1 => r1) with
      | c :: r2 => if isDigit c then some (skipDigits r2) else none
      | [] => none
    else some (e :: r)
  | other => other

/-- The elements of an array after the first value has begun: values
separated by commas up to the closing bracket.  `pv` scans one value; `k`
bounds the number of elements. -/
def parseElems (pv : List Char → Option (JKind × List Char)) :
    Nat → List Char → Option (List JKind × List Char)
  | 0, _ => none
  | k + 1, inp =>
    match pv inp with
    | none => none
    | some (v, r1) =>
      match skipSpace r1 with
      | ',' :: r2 =>
        match parseElems pv k (skipSpace r2) with
        | some (vs, r3) => some (v :: vs, r3)
        | none => none
      | ']' :: r2 => some ([v], r2)
      | _ => none

/-- An array after its opening bracket: the kinds of its elements and what
follows the closing bracket. -/
def parseArrayBody (pv : List Char → Option (JKind × List Char)) (inp : List Char) :
    Option (List JKind × List Char) :=
  match skipSpace inp with
  | ']' :: rest => some ([], rest)
  | inp1 => parseElems pv (inp1.length + 1) inp1

/-- The members of an object after the first key has begun: `"key" : value`
separated by commas up to the closing brace. -/
def parseMembers (pv : List Char → Option (JKind × List Char)) :
    Nat → List Char → Option (List Char)
  | 0, _ => none
  | k + 1, inp =>
    match inp with
    | '"' :: r0 =>
      match scanString r0 with
      | none => none
      | some (_, r1) =>
        match skipSpace r1 with
        | ':' :: r2 =>
          match pv (skipSpace r2) with
          | none => none
          | some (_, r3) =>
            match skipSpace r3 with
            | ',' :: r4 => parseMembers pv k (skipSpace r4)
            | '}' :: r4 => some r4
            | _ => none
        | _ => none
    | _ => none

/-- Scan one JSON value at the head of the input (no white space in front):
its kind and what follows it.  `depth` is how many more levels of arrays and
objects may be opened. -/
def parseValue : Nat → List Char → Option (JKind × List Char)
  | depth, inp =>
    match inp with
    | '"' :: r =>
      match scanString r with
      | some (b, rest) => some (JKind.string b, rest)
      | none => none
    | 'n' :: 'u' :: 'l' :: 'l' :: rest => some (JKind.null, rest)
    | 't' :: 'r' :: 'u' :: 'e' :: rest => some (JKind.bool, rest)
    | 'f' :: 'a' :: 'l' :: 's' :: 'e' :: rest => some (JKind.bool, rest)
    | '[' :: r =>
      match depth with
      | 0 => none
      | d + 1 =>
        match parseArrayBody (parseValue d) r with
        | some (_, rest) => some (JKind.array, rest)
        | none => none
    | '{' :: r =>
      match depth with
      | 0 => none
      | d + 1 =>
        match skipSpace r with
        | '}' :: rest => some (JKind.object, rest)
        | r1 =>
          match parseMembers (parseValue d) (r1.length + 1) r1 with
          | some rest => some (JKind.object, rest)
          | none => none
    | c :: r =>
      if c == '-' || isDigit c then
        match scanNumber (c :: r) with
        | some rest => some (JKind.number, rest)
        | none => none
      else none
    | [] => none
/-- The value of a hexadecimal digit. -/
def hexVal (c : Char) : Nat :=
  if 48 ≤ c.toNat ∧ c.toNat ≤ 57 then c.toNat - 48
  else if 97 ≤ c.toNat ∧ c.toNat ≤ 102 then c.toNat - 97 + 10
  else c.toNat - 65 + 10

/-- The function `getu4` on the four digits after `\u`. -/
def getu4 (h1 h2 h3 h4 : Char) : Nat :=
  ((hexVal h1 * 16 + hexVal h2) * 16 + hexVal h3) * 16 + hexVal h4

/-- The character a simple escape stands for. -/
def unescape (e : Char) : Char :=
  if e == 'b' then Char.ofNat 8
  else if e == 'f' then Char.ofNat 12
  else if e == 'n' then '\n'
  else if e == 'r' then '\r'
  else if e == 't' then '\t'
  else e

/-- The value of a `\u` escape at the head of the input, if there is one. -/
def nextEscape : List Char → Option Nat
  | '\\' :: 'u' :: g1 :: g2 :: g3 :: g4 :: _ => some (getu4 g1 g2 g3 g4)
  | _ => none

/-- The loop of `unquote`, which first drops `skip` characters (the six of
the low half of a surrogate pair that has been joined with its high half). -/
def unquoteFrom : Nat → List Char → List Char
  | _, [] => []
  | skip + 1, _ :: rest => unquoteFrom skip rest
  | 0, '\\' :: 'u' :: h1 :: h2 :: h3 :: h4 :: rest =>
    let rr := getu4 h1 h2 h3 h4
    if 0xd800 ≤ rr ∧ rr < 0xe000 then
      match nextEscape rest with
      | some rr1 =>
        if rr < 0xdc00 ∧ 0xdc00 ≤ rr1 ∧ rr1 < 0xe000 then
          Char.ofNat ((((rr - 0xd800) <<< 10) ||| (rr1 - 0xdc00)) + 0x10000)
            :: unquoteFrom 6 rest
        else Char.ofNat 0xfffd :: unquoteFrom 0 rest
      | none => Char.ofNat 0xfffd :: unquoteFrom 0 rest
    else Char.ofNat rr :: unquoteFrom 0 rest
  | 0, '\\' :: e :: rest => unescape e :: unquoteFrom 0 rest
  | 0, c :: rest => c :: unquoteFrom 0 rest

/-- The function `unquote` of the decoder on the raw body of a scanned
string: escapes are replaced by what they stand for; a `\u` escape of a
surrogate half is joined with a following low half when the two form a pair,
and is the replacement character U+FFFD otherwise. -/
def unquote (raw : List Char) : List Char := unquoteFrom 0 raw

/-- How `json.Unmarshal` fails: a syntax error of the input, or a value that
does not fit the target (`*json.UnmarshalTypeError`, with the kind of the
value and the Go type it was to be stored in). -/
inductive JsonFailure where
  | invalid
  | type (value : String) (target : String)
  deriving DecidableEq, Repr

/-- The string an element of the array is stored as: a JSON string unquoted;
`null` and every element that does not fit leave the zero value. -/
def elemValue : JKind → String
  | JKind.string raw => String.mk (unquote raw)
  | _ => ""

/-- The type error of an element that is neither a string nor `null`. -/
def elemFailure : JKind → Option JsonFailure
  | JKind.string _ => none
  | JKind.null => none
  | JKind.bool => some (JsonFailure.type "bool" "string")
  | JKind.number => some (JsonFailure.type "number" "string")
  | JKind.array => some (JsonFailure.type "array" "string")
  | JKind.object => some (JsonFailure.type "object" "string")

/-- The type error of a top-level value that is neither an array nor `null`. -/
def topFailure : JKind → Option JsonFailure
  | JKind.null => none
  | JKind.bool => some (JsonFailure.type "bool" "[]string")
  | JKind.number => some (JsonFailure.type "number" "[]string")
  | JKind.string _ => some (JsonFailure.type "string" "[]string")
  | JKind.array => none
  | JKind.object => some (JsonFailure.type "object" "[]string")

/-- The call `json.Unmarshal([]byte(s), &arr)` for a nil `arr []string`: the
value left in `arr`, and how the call failed if it did.  A type error of an
element is kept (the first one) while the other elements are still stored.
A slice is the list of its elements: the nil slice, which `null`, a syntax
error and a type error of the whole value leave in `arr`, and the empty slice
of `[]` are both the list with no elements. -/
def decodeStrings (s : String) : List String × Option JsonFailure :=
  match skipSpace s.data with
  | '[' :: r =>
    match parseArrayBody (parseValue 9999) r with
    | none => ([], some JsonFailure.invalid)
    | some (kinds, rest) =>
      if skipSpace rest ≠ [] then ([], some JsonFailure.invalid)
      else (kinds.map elemValue, kinds.findSome? elemFailure)
  | inp =>
    match parseValue 10000 inp with
    | none => ([], some JsonFailure.invalid)
    | some (kind, rest) =>
      if skipSpace rest ≠ [] then ([], some JsonFailure.invalid)
      else ([], topFailure kind)

/-- The library with `json.Unmarshal` into a `[]string` as embedded above;
`text` gives the message of a failure, and the other parts are those of
`base`. -/
def jsonLib (base : Lib) (text : JsonFailure → String) : Lib :=
  { base with
    unmarshalStrings := fun s =>
      ((decodeStrings s).1, (decodeStrings s).2.map (fun f => Error.Other (text f))) }

/-- A message text for evaluation. -/
def stubJsonText : JsonFailure → String
  | JsonFailure.invalid => "invalid character"
  | JsonFailure.type value target =>
    "json: cannot unmarshal " ++ value ++ " into Go value of type " ++ target
/-! ## JSON literals, in the words of the specification -/

/-- A run of JSON white space. -/
def AllSpace (ws : List Char) : Prop := ∀ c ∈ ws, c = ' ' ∨ c = '\t' ∨ c = '\r' ∨ c = '\n'

/-- The body of a JSON string literal, between its quotes: characters from
U+0020 on other than the quote and the backslash, simple escapes, and `\u`
escapes of four hexadecimal digits. -/
inductive StringBody : List Char → Prop where
  | nil : StringBody []
  | plain (c : Char) (b : List Char) :
      32 ≤ c.toNat → c ≠ '"' → c ≠ '\\' → StringBody b → StringBody (c :: b)
  | escape (e : Char) (b : List Char) :
      e ∈ ['"', '\\', '/', 'b', 'f', 'n', 'r', 't'] → StringBody b →
      StringBody ('\\' :: e :: b)
  | unicode (h1 h2 h3 h4 : Char) (b : List Char) :
      (∀ h ∈ [h1, h2, h3, h4], h.isDigit ∨ h ∈ ['a', 'b', 'c', 'd', 'e', 'f']
        ∨ h ∈ ['A', 'B', 'C', 'D', 'E', 'F']) →
      StringBody b → StringBody ('\\' :: 'u' :: h1 :: h2 :: h3 :: h4 :: b)

/-- The value of a hexadecimal digit: its position among the sixteen digits,
in either case of the letters. -/
def hexDigitValue (h : Char) : Nat :=
  if h ∈ ['0', '1', '2', '3', '4', '5', '6', '7', '8', '9', 'a', 'b', 'c', 'd', 'e', 'f']
  then ['0', '1', '2', '3', '4', '5', '6', '7', '8', '9', 'a', 'b', 'c', 'd', 'e', 'f'].indexOf h
  else ['0', '1', '2', '3', '4', '5', '6', '7', '8', '9', 'A', 'B', 'C', 'D', 'E', 'F'].indexOf h

/-- The number that the four hexadecimal digits of a `\u` escape denote. -/
def codeUnit (h1 h2 h3 h4 : Char) : Nat :=
  hexDigitValue h1 * 16 ^ 3 + hexDigitValue h2 * 16 ^ 2 + hexDigitValue h3 * 16
    + hexDigitValue h4

/-- The two-character escapes of JSON and the characters they stand for. -/
def escapeTable : List (Char × Char) :=
  [('"', '"'), ('\\', '\\'), ('/', '/'), ('b', Char.ofNat 0x08), ('f', Char.ofNat 0x0C),
    ('n', Char.ofNat 0x0A), ('r', Char.ofNat 0x0D), ('t', Char.ofNat 0x09)]

/-- The number is the high half of a UTF-16 surrogate pair. -/
def IsHighSurrogate (n : Nat) : Prop := 0xD800 ≤ n ∧ n ≤ 0xDBFF

/-- The number is the low half of a UTF-16 surrogate pair. -/
def IsLowSurrogate (n : Nat) : Prop := 0xDC00 ≤ n ∧ n ≤ 0xDFFF

/-- The body begins with a `\u` escape of a low half. -/
def BeginsWithLow (b : List Char) : Prop :=
  ∃ l1 l2 l3 l4 r, b = '\\' :: 'u' :: l1 :: l2 :: l3 :: l4 :: r
    ∧ IsLowSurrogate (codeUnit l1 l2 l3 l4)

/-- The body of a JSON string literal, between its quotes, and the string it
stands for.  A character from U+0020 on other than the quote and the
backslash stands for itself; a two-character escape stands for the character
of the table; a `\u` escape of four hexadecimal digits stands for the
character with that number; the escape of a high half followed by the escape
of a low half stands for the one character of the pair, number
`0x10000 + (high - 0xD800) * 0x400 + (low - 0xDC00)`; and the escape of any
other half of a pair stands for the replacement character U+FFFD. -/
inductive StringValue : List Char → List Char → Prop where
  | nil : StringValue [] []
  | plain (c : Char) (b v : List Char) :
      32 ≤ c.toNat → c ≠ '"' → c ≠ '\\' → StringValue b v → StringValue (c :: b) (c :: v)
  | escape (e x : Char) (b v : List Char) :
      (e, x) ∈ escapeTable → StringValue b v → StringValue ('\\' :: e :: b) (x :: v)
  | unicode (h1 h2 h3 h4 : Char) (b v : List Char) :
      (∀ h ∈ [h1, h2, h3, h4], h.isDigit ∨ h ∈ ['a', 'b', 'c', 'd', 'e', 'f']
        ∨ h ∈ ['A', 'B', 'C', 'D', 'E', 'F']) →
      ¬ IsHighSurrogate (codeUnit h1 h2 h3 h4) → ¬ IsLowSurrogate (codeUnit h1 h2 h3 h4) →
      StringValue b v →
      StringValue ('\\' :: 'u' :: h1 :: h2 :: h3 :: h4 :: b)
        (Char.ofNat (codeUnit h1 h2 h3 h4) :: v)
  | pair (h1 h2 h3 h4 l1 l2 l3 l4 : Char) (b v : List Char) :
      (∀ h ∈ [h1, h2, h3, h4, l1, l2, l3, l4], h.isDigit ∨ h ∈ ['a', 'b', 'c', 'd', 'e', 'f']
        ∨ h ∈ ['A', 'B', 'C', 'D', 'E', 'F']) →
      IsHighSurrogate (codeUnit h1 h2 h3 h4) → IsLowSurrogate (codeUnit l1 l2 l3 l4) →
      StringValue b v →
      StringValue ('\\' :: 'u' :: h1 :: h2 :: h3 :: h4 :: '\\' :: 'u' :: l1 :: l2 :: l3 :: l4 :: b)
        (Char.ofNat (0x10000 + (codeUnit h1 h2 h3 h4 - 0xD800) * 0x400
          + (codeUnit l1 l2 l3 l4 - 0xDC00)) :: v)
  | lone (h1 h2 h3 h4 : Char) (b v : List Char) :
      (∀ h ∈ [h1, h2, h3, h4], h.isDigit ∨ h ∈ ['a', 'b', 'c', 'd', 'e', 'f']
        ∨ h ∈ ['A', 'B', 'C', 'D', 'E', 'F']) →
      IsHighSurrogate (codeUnit h1 h2 h3 h4) ∨ IsLowSurrogate (codeUnit h1 h2 h3 h4) →
      ¬ (IsHighSurrogate (codeUnit h1 h2 h3 h4) ∧ BeginsWithLow b) →
      StringValue b v →
      StringValue ('\\' :: 'u' :: h1 :: h2 :: h3 :: h4 :: b) (Char.ofNat 0xFFFD :: v)

/-- An element that `ValidArray` accepts, with the string it is stored as: a
JSON string literal, stored as the string it stands for, or `null`, stored as
the empty string. -/
inductive Element : List Char → String → Prop where
  | string (b v : List Char) : StringValue b v →
      Element ('"' :: b ++ ['"']) (String.mk v)
  | null : Element ['n', 'u', 'l', 'l'] ""

/-- One or more elements separated by commas, with white space allowed
around the commas and after the last element, and the strings they are
stored as, in order. -/
inductive Elements : List Char → List String → Prop where
  | last (e : List Char) (v : String) (ws : List Char) :
      Element e v → AllSpace ws → Elements (e ++ ws) [v]
  | cons (e : List Char) (v : String) (ws1 ws2 rest : List Char) (vs : List String) :
      Element e v → AllSpace ws1 → AllSpace ws2 → Elements rest vs →
      Elements (e ++ ws1 ++ ',' :: ws2 ++ rest) (v :: vs)

/-- The token is a JSON array literal whose elements are JSON strings or
`null`, standing for the strings `vals`. -/
def IsArrayLiteral (s : List Char) (vals : List String) : Prop :=
  ∃ ws0 ws1 inner ws2, AllSpace ws0 ∧ AllSpace ws1 ∧ AllSpace ws2
    ∧ s = ws0 ++ '[' :: ws1 ++ inner ++ ']' :: ws2
    ∧ ((inner = [] ∧ vals = []) ∨ Elements inner vals)

/-- The token is the JSON literal `null`. -/
def IsNullLiteral (s : List Char) : Prop :=
  ∃ ws0 ws1, AllSpace ws0 ∧ AllSpace ws1 ∧ s = ws0 ++ ['n', 'u', 'l', 'l'] ++ ws1

/-! # Theorems -/

/-! ## Running a `Prog` -/

theorem bind_apply {σ α β : Type} (m : Prog σ α) (f : α → Prog σ β) (w : World σ) :
    (m >>= f) w = match m w with
      | (Res.ok a, w1) => f a w1
      | (Res.panic msg, w1) => (Res.panic msg, w1)
      | (Res.exit code, w1) => (Res.exit code, w1) := rfl

theorem pure_apply {σ α : Type} (a : α) (w : World σ) :
    (pure a : Prog σ α) w = (Res.ok a, w) := rfl

/-! ## `strconv.Atoi` on decimal literals -/

theorem isDigit_eq (c : Char) : isDigit c = c.isDigit := by
  have h1 : (c.val ≥ 48) ↔ 48 ≤ c.toNat := by
    show (48 : UInt32) ≤ c.val ↔ _
    rw [UInt32.le_def]
    rfl
  have h2 : (c.val ≤ 57) ↔ c.toNat ≤ 57 := by
    rw [UInt32.le_def]
    rfl
  unfold isDigit Char.isDigit
  by_cases a : 48 ≤ c.toNat <;> by_cases b : c.toNat ≤ 57 <;> simp [a, b, h1, h2]

theorem digitOf_of_isDigit (c : Char) (h : c.isDigit = true) :
    digitOf c = some (c.toNat - 48) ∧ c.toNat - 48 ≤ 9 := by
  rw [← isDigit_eq] at h
  have h' := h
  simp only [isDigit, decide_eq_true_eq] at h'
  refine ⟨by simp [digitOf, h, digitVal], by omega⟩

theorem digitOf_of_not_isDigit (c : Char) (h : c.isDigit = false) :
    digitOf c = none ∨ ∃ d, digitOf c = some d ∧ 10 ≤ d := by
  rw [← isDigit_eq] at h
  unfold digitOf
  rw [h]
  simp only [Bool.false_eq_true, if_false]
  split
  · right; exact ⟨_, rfl, by omega⟩
  · left; rfl

theorem le_digitsFrom (ds : List Char) (n : Nat) : n ≤ digitsFrom n ds := by
  induction ds generalizing n with
  | nil => simp [digitsFrom]
  | cons c cs ih =>
    have := ih (10 * n + (c.toNat - '0'.toNat))
    simp only [digitsFrom, List.foldl_cons] at this ⊢
    omega

theorem digitsFrom_lt (ds : List Char) (n : Nat) (h : ds.all Char.isDigit = true) :
    digitsFrom n ds < (n + 1) * 10 ^ ds.length := by
  induction ds generalizing n with
  | nil => simp [digitsFrom]
  | cons c cs ih =>
    simp only [List.all_cons, Bool.and_eq_true] at h
    have hd := (digitOf_of_isDigit c h.1).2
    have h0 : '0'.toNat = 48 := rfl
    have := ih (10 * n + (c.toNat - '0'.toNat)) h.2
    simp only [digitsFrom, List.foldl_cons, List.length_cons] at this ⊢
    calc List.foldl (fun acc c => 10 * acc + (c.toNat - '0'.toNat))
            (10 * n + (c.toNat - '0'.toNat)) cs
        < (10 * n + (c.toNat - '0'.toNat) + 1) * 10 ^ cs.length := this
      _ ≤ ((n + 1) * 10) * 10 ^ cs.length := by
          apply Nat.mul_le_mul_right
          omega
      _ = (n + 1) * 10 ^ (cs.length + 1) := by ring

/-- The fast-path loop of `Atoi` computes the value of a run of digits, and
reports a syntax error on anything else. -/
theorem atoiFastLoop_eq (ds : List Char) (n : Nat) :
    atoiFastLoop ds (n : Int)
      = if ds.all Char.isDigit = true then some ((digitsFrom n ds : Nat) : Int) else none := by
  induction ds generalizing n with
  | nil => simp [atoiFastLoop, digitsFrom]
  | cons c cs ih =>
    unfold atoiFastLoop
    rw [isDigit_eq]
    cases hc : c.isDigit with
    | false => simp [hc]
    | true =>
      have h0 : '0'.toNat = 48 := rfl
      have hstep : (n : Int) * 10 + ((digitVal c : Nat) : Int)
          = ((10 * n + (c.toNat - '0'.toNat) : Nat) : Int) := by
        simp only [digitVal, h0]; push_cast; ring
      simp only [if_true, hstep, ih, List.all_cons, hc, Bool.true_and, digitsFrom,
        List.foldl_cons]

/-- The digit loop of `ParseUint` returns the value of a run of digits that
stays within `uint64`, and an error on anything else. -/
theorem parseUintLoop_spec (ds : List Char) (n : Nat) (hn : n < 2 ^ 64) :
    (ds.all Char.isDigit = true ∧ digitsFrom n ds < 2 ^ 64 →
        parseUintLoop ((2 ^ 64 - 1) / 10 + 1) (2 ^ 64 - 1) ds n = (digitsFrom n ds, none))
      ∧ (¬(ds.all Char.isDigit = true ∧ digitsFrom n ds < 2 ^ 64) →
        (parseUintLoop ((2 ^ 64 - 1) / 10 + 1) (2 ^ 64 - 1) ds n).2 ≠ none) := by
  induction ds generalizing n with
  | nil =>
    refine ⟨fun _ => by simp [parseUintLoop, digitsFrom], fun h => ?_⟩
    exact absurd ⟨by simp, by simpa [digitsFrom] using hn⟩ h
  | cons c cs ih =>
    have h0 : '0'.toNat = 48 := rfl
    cases hc : c.isDigit with
    | false =>
      refine ⟨fun h => ?_, fun _ => ?_⟩
      · simp [hc] at h
      · unfold parseUintLoop
        rcases digitOf_of_not_isDigit c hc with hd | ⟨d, hd, hd10⟩
        · rw [hd]; simp
        · rw [hd]; simp [hd10]
    | true =>
      obtain ⟨hd, hd9⟩ := digitOf_of_isDigit c hc
      have hstep : digitsFrom n (c :: cs) = digitsFrom (10 * n + (c.toNat - 48)) cs := by
        simp [digitsFrom, h0]
      have hmono := le_digitsFrom cs (10 * n + (c.toNat - 48))
      unfold parseUintLoop
      rw [hd]
      simp only [List.all_cons, hc, Bool.true_and, hstep]
      have hnot10 : ¬ (c.toNat - 48 ≥ 10) := by omega
      rw [if_neg hnot10]
      by_cases hcut : n ≥ (2 ^ 64 - 1) / 10 + 1
      · rw [if_pos hcut]
        refine ⟨fun h => ?_, fun _ => by simp⟩
        exfalso
        have := h.2
        omega
      · rw [if_neg hcut]
        have hn10 : n * 10 % 2 ^ 64 = n * 10 := Nat.mod_eq_of_lt (by omega)
        simp only [hn10]
        by_cases hov : n * 10 + (c.toNat - 48) < 2 ^ 64
        · have hn1 : (n * 10 + (c.toNat - 48)) % 2 ^ 64 = n * 10 + (c.toNat - 48) :=
            Nat.mod_eq_of_lt hov
          simp only [hn1]
          have hcond : ¬ (n * 10 + (c.toNat - 48) < n * 10
              ∨ n * 10 + (c.toNat - 48) > 2 ^ 64 - 1) := by omega
          rw [if_neg hcond]
          have hre : n * 10 + (c.toNat - 48) = 10 * n + (c.toNat - 48) := by ring
          rw [hre]
          exact ih (10 * n + (c.toNat - 48)) (by omega)
        · have hwrap : (n * 10 + (c.toNat - 48)) % 2 ^ 64 < n * 10 := by
            have : (n * 10 + (c.toNat - 48)) % 2 ^ 64
                = n * 10 + (c.toNat - 48) - 2 ^ 64 := by
              rw [Nat.mod_eq_sub_mod (by omega)]
              exact Nat.mod_eq_of_lt (by omega)
            omega
          rw [if_pos (Or.inl hwrap)]
          refine ⟨fun h => ?_, fun _ => by simp⟩
          exfalso
          have := h.2
          omega

/-- A range error of the digit loop comes with the value `maxVal`. -/
theorem parseUintLoop_range (cutoff maxVal : Nat) (ds : List Char) (n : Nat)
    (h : (parseUintLoop cutoff maxVal ds n).2 = some NumErrKind.ErrRange) :
    (parseUintLoop cutoff maxVal ds n).1 = maxVal := by
  induction ds generalizing n with
  | nil => simp [parseUintLoop] at h
  | cons c cs ih =>
    unfold parseUintLoop at h ⊢
    split at h
    · simp at h
    · rename_i d hd
      simp only [hd]
      split at h
      · simp at h
      · rename_i h10
        rw [if_neg h10]
        split at h
        · rename_i hcut
          rw [if_pos hcut]
        · rename_i hcut
          rw [if_neg hcut]
          simp only at h ⊢
          split at h
          · rename_i hov
            rw [if_pos hov]
          · rename_i hov
            rw [if_neg hov]
            exact ih _ h

/-- The call `ParseUint(body, 10, 64)` returns the value of a non-empty run
of digits below `2^64`; on anything else it returns an error, and with a
range error the value `2^64 - 1`. -/
theorem ParseUint_spec (body : List Char) :
    ((!body.isEmpty && body.all Char.isDigit) = true ∧ digitsValue body < 2 ^ 64 →
        ParseUint body = (digitsValue body, none))
      ∧ (¬((!body.isEmpty && body.all Char.isDigit) = true ∧ digitsValue body < 2 ^ 64) →
        (ParseUint body).2 ≠ none)
      ∧ ((ParseUint body).2 = some NumErrKind.ErrRange → (ParseUint body).1 = 2 ^ 64 - 1) := by
  unfold ParseUint
  cases body with
  | nil => simp
  | cons c cs =>
    have hne : ¬ (c :: cs = []) := by simp
    simp only [if_neg hne, List.isEmpty_cons, Bool.not_false, Bool.true_and]
    have hs := parseUintLoop_spec (c :: cs) 0 (by norm_num)
    exact ⟨hs.1, hs.2, parseUintLoop_range _ _ _ _⟩

/-- Sign and digits of a token, as `ParseInt` and `Atoi` split them, against
the literal of the specification. -/
theorem literal_split (c0 : Char) (rest : List Char) :
    isIntLiteral (c0 :: rest)
        = (!(if c0 = '+' then rest else if c0 = '-' then rest else c0 :: rest).isEmpty
            && (if c0 = '+' then rest else if c0 = '-' then rest else c0 :: rest).all
              Char.isDigit)
      ∧ literalValue (c0 :: rest)
        = if c0 = '-'
          then -((digitsValue
            (if c0 = '+' then rest else if c0 = '-' then rest else c0 :: rest) : Nat) : Int)
          else ((digitsValue
            (if c0 = '+' then rest else if c0 = '-' then rest else c0 :: rest) : Nat) : Int) := by
  by_cases hp : c0 = '+'
  · subst hp
    simp [isIntLiteral, literalValue]
  · by_cases hm : c0 = '-'
    · subst hm
      simp [isIntLiteral, literalValue]
    · simp only [if_neg hp, if_neg hm]
      constructor
      · unfold isIntLiteral
        split
        · rename_i heq; exact absurd (List.cons.inj heq).1 hp
        · rename_i heq; exact absurd (List.cons.inj heq).1 hm
        · rfl
      · unfold literalValue
        split
        · rename_i heq; exact absurd (List.cons.inj heq).1 hp
        · rename_i heq; exact absurd (List.cons.inj heq).1 hm
        · rfl

/-- The call `ParseInt(s, 10, 0)` succeeds exactly on the integer literals
that fit 64 bits, with their value. -/
theorem ParseInt_spec (s : String) (n : Int) :
    ParseInt s = (n, none)
      ↔ isIntLiteral s.data = true ∧ fitsInt (literalValue s.data)
          ∧ n = literalValue s.data := by
  unfold ParseInt
  cases hs : s.data with
  | nil => simp [isIntLiteral]
  | cons c0 rest =>
    obtain ⟨hlit, hval⟩ := literal_split c0 rest
    simp only [intSize]
    rw [hlit, hval]
    generalize (if c0 = '+' then rest else if c0 = '-' then rest else c0 :: rest) = body
    obtain ⟨hok, herr, hrange⟩ := ParseUint_spec body
    by_cases hbody : (!body.isEmpty && body.all Char.isDigit) = true ∧ digitsValue body < 2 ^ 64
    · have hr := hok hbody
      rw [hr]
      simp only [reduceCtorEq, if_false]
      unfold fitsInt
      by_cases hneg : c0 = '-'
      · simp only [hneg, decide_True, Bool.true_eq_false, false_and, if_false, true_and,
          if_true, hbody.1]
        by_cases hbig : digitsValue body > 2 ^ (64 - 1)
        · rw [if_pos hbig]
          simp only [Prod.mk.injEq, reduceCtorEq, and_false, false_iff, not_and]
          intro h1 _
          omega
        · rw [if_neg hbig]
          simp only [Prod.mk.injEq, and_true]
          constructor
          · intro h
            refine ⟨⟨by omega, by omega⟩, h.symm⟩
          · intro h
            exact h.2.symm
      · simp only [hneg, decide_False, true_and, Bool.false_eq_true, false_and, if_false,
          hbody.1]
        by_cases hbig : digitsValue body ≥ 2 ^ (64 - 1)
        · rw [if_pos hbig]
          simp only [Prod.mk.injEq, reduceCtorEq, and_false, false_iff, not_and]
          intro h1 _
          omega
        · rw [if_neg hbig]
          simp only [Prod.mk.injEq, and_true]
          constructor
          · intro h
            refine ⟨⟨by omega, by omega⟩, h.symm⟩
          · intro h
            exact h.2.symm
    · have hr := herr hbody
      have hrhs : ¬ ((!body.isEmpty && body.all Char.isDigit) = true
          ∧ fitsInt (if c0 = '-' then -((digitsValue body : Nat) : Int)
              else ((digitsValue body : Nat) : Int))
          ∧ n = (if c0 = '-' then -((digitsValue body : Nat) : Int)
              else ((digitsValue body : Nat) : Int))) := by
        rintro ⟨h1, h2, _⟩
        apply hbody
        refine ⟨h1, ?_⟩
        unfold fitsInt at h2
        split at h2 <;> omega
      simp only [hrhs, iff_false]
      by_cases hsyn : (ParseUint body).2 = some NumErrKind.ErrSyntax
      · rw [if_pos hsyn]; simp
      · rw [if_neg hsyn]
        have hrg : (ParseUint body).2 = some NumErrKind.ErrRange := by
          cases hk : (ParseUint body).2 with
          | none => exact absurd hk hr
          | some k =>
            cases k with
            | ErrSyntax => exact absurd hk hsyn
            | ErrRange => rfl
        have hmax := hrange hrg
        rw [hmax]
        by_cases hneg : c0 = '-'
        · simp [hneg]
        · simp [hneg]

theorem length_le_utf8ByteSize (s : String) : s.data.length ≤ s.utf8ByteSize := by
  have h : ∀ l : List Char, l.length ≤ String.utf8ByteSize.go l := by
    intro l
    induction l with
    | nil => simp [String.utf8ByteSize.go]
    | cons c cs ih =>
      have := Char.utf8Size_pos c
      simp only [String.utf8ByteSize.go, List.length_cons]
      omega
  cases s with
  | mk l => exact h l

/-- The function `strconv.Atoi` succeeds exactly on the integer literals that
fit 64 bits, with their value. -/
theorem Atoi_spec (s : String) (n : Int) :
    Atoi s = (n, none)
      ↔ isIntLiteral s.data = true ∧ fitsInt (literalValue s.data)
          ∧ n = literalValue s.data := by
  unfold Atoi
  simp only
  by_cases hfast : 0 < s.utf8ByteSize ∧ s.utf8ByteSize < 19
  · rw [if_pos hfast]
    have hlen := length_le_utf8ByteSize s
    cases hs : s.data with
    | nil => simp [isIntLiteral]
    | cons c0 rest =>
      obtain ⟨hlit, hval⟩ := literal_split c0 rest
      rw [hlit, hval]
      have hbody : (if decide (c0 = '-' ∨ c0 = '+') = true then rest else c0 :: rest)
          = (if c0 = '+' then rest else if c0 = '-' then rest else c0 :: rest) := by
        by_cases hp : c0 = '+'
        · simp [hp]
        · by_cases hm : c0 = '-'
          · simp [hm]
          · simp [hp, hm]
      simp only [hbody]
      have hblen : (if c0 = '+' then rest else if c0 = '-' then rest else c0 :: rest).length
          ≤ 18 := by
        rw [hs] at hlen
        simp only [List.length_cons] at hlen
        split
        · omega
        · split
          · omega
          · simp only [List.length_cons]; omega
      have hbne : ¬(c0 = '-' ∨ c0 = '+') →
          (if c0 = '+' then rest else if c0 = '-' then rest else c0 :: rest) ≠ [] := by
        intro hsg
        have hp : ¬ c0 = '+' := fun h => hsg (Or.inr h)
        have hm : ¬ c0 = '-' := fun h => hsg (Or.inl h)
        simp [hp, hm]
      generalize (if c0 = '+' then rest else if c0 = '-' then rest else c0 :: rest) = body
        at hblen hbne ⊢
      by_cases hempty : decide (c0 = '-' ∨ c0 = '+') = true ∧ body.length < 1
      · rw [if_pos hempty]
        have : body = [] := by
          cases body with
          | nil => rfl
          | cons x xs => simp at hempty
        subst this
        simp
      · rw [if_neg hempty]
        have hloop := atoiFastLoop_eq body 0
        simp only [Nat.cast_zero] at hloop
        rw [hloop]
        cases hall : body.all Char.isDigit with
        | false => simp
        | true =>
          simp only [if_true, Bool.and_true]
          have hv : digitsValue body < 10 ^ 18 := by
            have h1 := digitsFrom_lt body 0 hall
            have h2 : 10 ^ body.length ≤ 10 ^ 18 := Nat.pow_le_pow_right (by norm_num) hblen
            unfold digitsValue
            omega
          constructor
          · intro h
            simp only [Prod.mk.injEq, and_true] at h
            refine ⟨?_, ?_, ?_⟩
            · cases body with
              | nil =>
                exfalso
                by_cases hsg : c0 = '-' ∨ c0 = '+'
                · exact hempty ⟨by simpa using hsg, by simp⟩
                · exact hbne hsg rfl
              | cons x xs => simp
            · unfold fitsInt digitsValue at *
              split <;> omega
            · rw [← h]; rfl
          · rintro ⟨_, _, h3⟩
            rw [h3]; rfl
  · rw [if_neg hfast]
    rw [← ParseInt_spec s n]
    rcases hp : ParseInt s with ⟨i, _ | e⟩
    · simp
    · cases e <;> simp

/-- The digit loop of `ParseUint` reports no syntax error on a run of digits. -/
theorem parseUintLoop_digits (cutoff maxVal : Nat) (ds : List Char) (n : Nat)
    (h : ds.all Char.isDigit = true) :
    (parseUintLoop cutoff maxVal ds n).2 ≠ some NumErrKind.ErrSyntax := by
  induction ds generalizing n with
  | nil => simp [parseUintLoop]
  | cons c cs ih =>
    simp only [List.all_cons, Bool.and_eq_true] at h
    obtain ⟨hd, hle⟩ := digitOf_of_isDigit c h.1
    unfold parseUintLoop
    rw [hd]
    simp only
    rw [if_neg (by omega)]
    split
    · simp
    · split
      · simp
      · exact ih _ h.2

/-- A run of more than 18 digits is needed to leave the 64-bit range. -/
theorem literal_long (s : String) (hlit : isIntLiteral s.data = true)
    (hfit : ¬ fitsInt (literalValue s.data)) : ¬ (0 < s.utf8ByteSize ∧ s.utf8ByteSize < 19) := by
  have hlen := length_le_utf8ByteSize s
  intro hfast
  apply hfit
  cases hs : s.data with
  | nil => rw [hs] at hlit; simp [isIntLiteral] at hlit
  | cons c0 rest =>
    rw [hs] at hlit hlen
    obtain ⟨hl, hval⟩ := literal_split c0 rest
    rw [hl] at hlit
    rw [hval]
    have hblen : (if c0 = '+' then rest else if c0 = '-' then rest else c0 :: rest).length
        ≤ 18 := by
      simp only [List.length_cons] at hlen
      split
      · omega
      · split
        · omega
        · simp only [List.length_cons]; omega
    generalize (if c0 = '+' then rest else if c0 = '-' then rest else c0 :: rest) = body
      at hlit hblen ⊢
    simp only [Bool.and_eq_true] at hlit
    have hlt := digitsFrom_lt body 0 hlit.2
    have hpow : 10 ^ body.length ≤ 10 ^ 18 := Nat.pow_le_pow_right (by norm_num) hblen
    unfold fitsInt digitsValue
    split <;> omega

/-- The call `ParseInt(s, 10, 0)` on an integer literal outside the 64-bit
range returns the nearest bound of the range together with a range error. -/
theorem ParseInt_out_of_range (s : String) (hlit : isIntLiteral s.data = true)
    (hfit : ¬ fitsInt (literalValue s.data)) :
    ParseInt s = (if literalValue s.data < 0 then -(2 ^ 63) else 2 ^ 63 - 1,
      some (rangeError "ParseInt" s)) := by
  unfold ParseInt
  cases hs : s.data with
  | nil => rw [hs] at hlit; simp [isIntLiteral] at hlit
  | cons c0 rest =>
    rw [hs] at hlit hfit
    obtain ⟨hl, hval⟩ := literal_split c0 rest
    rw [hl] at hlit
    rw [hval] at hfit
    simp only [intSize]
    rw [hval]
    generalize (if c0 = '+' then rest else if c0 = '-' then rest else c0 :: rest) = body
      at hlit hfit ⊢
    obtain ⟨hok, herr, hrange⟩ := ParseUint_spec body
    have hbody := hlit
    simp only [Bool.and_eq_true, Bool.not_eq_true', List.isEmpty_eq_false] at hbody
    have hnosyn : (ParseUint body).2 ≠ some NumErrKind.ErrSyntax := by
      unfold ParseUint
      cases body with
      | nil => simp at hlit
      | cons x xs =>
        rw [if_neg (by simp)]
        exact parseUintLoop_digits _ _ _ 0 hbody.2
    rw [if_neg hnosyn]
    have hun : (ParseUint body).1 = digitsValue body ∨ (ParseUint body).1 = 2 ^ 64 - 1 := by
      by_cases hb : digitsValue body < 2 ^ 64
      · left; rw [hok ⟨hlit, hb⟩]
      · right
        have hne := herr (fun h => hb h.2)
        apply hrange
        cases hk : (ParseUint body).2 with
        | none => exact absurd hk hne
        | some k =>
          cases k with
          | ErrSyntax => exact absurd hk hnosyn
          | ErrRange => rfl
    have hle : (ParseUint body).1 = digitsValue body ∨ 2 ^ 64 ≤ digitsValue body := by
      by_cases hb : digitsValue body < 2 ^ 64
      · left; rw [hok ⟨hlit, hb⟩]
      · right; omega
    unfold fitsInt at hfit
    by_cases hneg : c0 = '-'
    · simp only [hneg, if_true] at hfit ⊢
      have hbig : (ParseUint body).1 > 2 ^ (64 - 1) := by
        rcases hun with h | h <;> rcases hle with h2 | h2 <;> omega
      simp only [decide_True, Bool.true_eq_false, false_and, if_false, true_and, if_pos hbig]
      have : -((digitsValue body : Nat) : Int) < 0 := by omega
      rw [if_pos this]
      norm_num
    · simp only [hneg, if_false] at hfit ⊢
      have hbig : (ParseUint body).1 ≥ 2 ^ (64 - 1) := by
        rcases hun with h | h <;> rcases hle with h2 | h2 <;> omega
      simp only [decide_False, true_and, if_pos hbig]
      have : ¬ ((digitsValue body : Nat) : Int) < 0 := by omega
      rw [if_neg this]
      norm_num

/-- The function `strconv.Atoi` on an integer literal outside the 64-bit range
returns the nearest bound of the range together with a range error. -/
theorem Atoi_out_of_range (s : String) (hlit : isIntLiteral s.data = true)
    (hfit : ¬ fitsInt (literalValue s.data)) :
    Atoi s = (if literalValue s.data < 0 then -(2 ^ 63) else 2 ^ 63 - 1,
      some (Error.NumError "Atoi" s NumErrKind.ErrRange)) := by
  unfold Atoi
  simp only
  rw [if_neg (literal_long s hlit hfit), ParseInt_out_of_range s hlit hfit]
  rfl

/-! ## C1: arity checks and the positions a handler reads -/

/-- C1 (code evaluated at the failing input): `ARR/EL/ADD` checks for two
tokens and then reads `args[2]`; on every token list of length 2 it panics
with an index out of range instead of returning `ErrNotEnoughArguments`, for
every client and in every world, and no client call is made. -/
theorem handleArrayElementAdd_two_tokens_panics {σ : Type} (cl : Client σ) (c : Cmd)
    (a0 a1 line : String) (w : World σ) :
    handleArrayElementAdd cl c [a0, a1] line w
      = (Res.panic "runtime error: index out of range [2] with length 2", w) := by
  simp [handleArrayElementAdd, bind_apply, pure_apply, ValidCountArguments, index, ValidName]
  rfl

/-! ## C2: a decoding failure is returned as it is, before any client call -/

/-- C2: for each of `TTL/SET`, `ARR/EL/GET`, `ARR/EL/SET`, `ARR/EL/DEL`,
`ARR/SET`, `HASH/SET`, every client, and every token list that passes the
handler's arity check and whose token `args[2]` makes the handler's decoder
fail with `e`: the handler returns the empty string together with exactly
`e`, the trace of client calls is still empty and the client's state is
untouched. -/
theorem decode_failure_returned_before_any_client_call {σ : Type} (lib : Lib)
    (cl : Client σ) (c : Cmd) (h : DecodingHandler) (args : List String) (line : String)
    (s : σ) (a2 : String) (e : Error)
    (harity : ValidCountArguments args h.minArgs = none)
    (h2 : args.get? 2 = some a2)
    (hdec : h.decodeError lib a2 = some e) :
    (runHandler lib cl h.fn c args line (World.init s)).1 = Res.ok ("", some e)
      ∧ (runHandler lib cl h.fn c args line (World.init s)).2.trace = []
      ∧ (runHandler lib cl h.fn c args line (World.init s)).2.store = s := by
  rcases args with _ | ⟨a0, _ | ⟨a1, _ | ⟨a2x, rest⟩⟩⟩ <;> simp at h2
  subst h2
  cases h <;>
    simp [DecodingHandler.decodeError] at hdec <;>
    simp [DecodingHandler.minArgs, ValidCountArguments] at harity <;>
    simp [DecodingHandler.fn, runHandler, handlerSetTTL, handleArrayElementGet,
      handleArrayElementSet, handleArrayElementDel, handleInstanceArraySet, handlerHashSet,
      bind_apply, pure_apply, ValidCountArguments, index, ValidName, hdec, harity, World.init,
      print]

/-- C2, witness: `TTL/SET name abc` over a client that would accept the call. -/
theorem decode_failure_returned_before_any_client_call_witness :
    (runHandler stubLib (stubClient [] none) DecodingHandler.TTLSet.fn registry
        ["TTL/SET", "name", "abc"] "TTL/SET name abc" (World.init ())).1
        = Res.ok ("", some (Error.NumError "Atoi" "abc" NumErrKind.ErrSyntax))
      ∧ (runHandler stubLib (stubClient [] none) DecodingHandler.TTLSet.fn registry
        ["TTL/SET", "name", "abc"] "TTL/SET name abc" (World.init ())).2.trace = []
      ∧ (runHandler stubLib (stubClient [] none) DecodingHandler.TTLSet.fn registry
        ["TTL/SET", "name", "abc"] "TTL/SET name abc" (World.init ())).2.store = () :=
  decode_failure_returned_before_any_client_call stubLib (stubClient [] none) registry
    DecodingHandler.TTLSet ["TTL/SET", "name", "abc"] "TTL/SET name abc" () "abc"
    (Error.NumError "Atoi" "abc" NumErrKind.ErrSyntax) (by decide) (by decide) (by decide)

/-! ## C3: a result is a text or an error, never both -/

/-- C3 (code evaluated at the failing input): when `Client.GetArray` and
`Client.GetHash` return an error, `ARR/GET` and `HASH/GET` return that error
together with the non-empty texts `[]` and `map[]`. -/
theorem handleArrayGet_handleHashGet_text_with_error :
    (handleArrayGet (stubClient [] (some (Error.Other "boom"))) registry
        ["ARR/GET", "x"] "ARR/GET x" (World.init ())).1
        = Res.ok ("[]", some (Error.Other "boom"))
      ∧ (handleHashGet (stubClient [] (some (Error.Other "boom"))) registry
        ["HASH/GET", "x"] "HASH/GET x" (World.init ())).1
        = Res.ok ("map[]", some (Error.Other "boom")) := by
  decide

/-! ## C4: a trailing TTL that does not decode -/

/-- The shapes of a result of `ParseInt`: a syntax error with 0, a range error
with the upper bound of the 64-bit range when the token does not begin with
`-` and with the lower bound when it does, or a value without error. -/
theorem ParseInt_shape (s : String) (P : Int × Option Error → Prop)
    (hsyn : P (0, some (syntaxError "ParseInt" s)))
    (hmax : s.data.head? ≠ some '-' → P (2 ^ 63 - 1, some (rangeError "ParseInt" s)))
    (hmin : s.data.head? = some '-' → P (-(2 ^ 63), some (rangeError "ParseInt" s)))
    (hok : ∀ n, P (n, none)) : P (ParseInt s) := by
  unfold ParseInt
  split
  · exact hsyn
  · rename_i c0 rest hs
    simp only [intSize]
    generalize ParseUint _ = r
    by_cases h1 : r.2 = some NumErrKind.ErrSyntax
    · rw [if_pos h1]; exact hsyn
    · rw [if_neg h1]
      split
      · rename_i hc
        refine hmax ?_
        rw [hs]
        simpa using hc.1
      · split
        · rename_i hc
          refine hmin ?_
          rw [hs]
          simpa using hc.1
        · exact hok _

/-- The shapes of a result of `Atoi`, as for `ParseInt`. -/
theorem Atoi_shape (s : String) (P : Int × Option Error → Prop)
    (hsyn : P (0, some (syntaxError "Atoi" s)))
    (hmax : s.data.head? ≠ some '-' → P (2 ^ 63 - 1, some (rangeError "Atoi" s)))
    (hmin : s.data.head? = some '-' → P (-(2 ^ 63), some (rangeError "Atoi" s)))
    (hok : ∀ n, P (n, none)) : P (Atoi s) := by
  unfold Atoi
  simp only
  split
  · split
    · exact hsyn
    · rename_i c0 rest _
      generalize (if decide (c0 = '-' ∨ c0 = '+') = true then rest else c0 :: rest) = body
      split
      · exact hsyn
      · split
        · exact hsyn
        · exact hok _
  · refine ParseInt_shape s (fun r => P (match r with
      | (i64, some (Error.NumError _ num kind)) => (i64, some (Error.NumError "Atoi" num kind))
      | (i64, err) => (i64, err))) ?_ ?_ ?_ ?_
    · exact hsyn
    · exact hmax
    · exact hmin
    · intro n; exact hok n

/-- An error of `Atoi` is a syntax error with the value 0, or a range error
with the value saturated at the bound of the 64-bit range on the side of the
sign: `-2^63` when the token begins with `-`, and `2^63 - 1` otherwise. -/
theorem Atoi_error_cases (s : String) (e : Error) (h : (Atoi s).2 = some e) :
    (e = Error.NumError "Atoi" s NumErrKind.ErrSyntax ∧ (Atoi s).1 = 0)
      ∨ (e = Error.NumError "Atoi" s NumErrKind.ErrRange
          ∧ (Atoi s).1 = if s.data.head? = some '-' then -(2 ^ 63) else 2 ^ 63 - 1) := by
  revert h
  refine Atoi_shape s (fun r => r.2 = some e →
    (e = Error.NumError "Atoi" s NumErrKind.ErrSyntax ∧ r.1 = 0)
      ∨ (e = Error.NumError "Atoi" s NumErrKind.ErrRange
          ∧ r.1 = if s.data.head? = some '-' then -(2 ^ 63) else 2 ^ 63 - 1)) ?_ ?_ ?_ ?_
  · intro h; left; simp [syntaxError] at h; exact ⟨h.symm, rfl⟩
  · intro hs h; right; simp [rangeError] at h; exact ⟨h.symm, by simp only [if_neg hs]⟩
  · intro hs h; right; simp [rangeError] at h; exact ⟨h.symm, by simp only [if_pos hs]⟩
  · intro n h; simp at h

/-- C4 (counterexample): on `SET name "v" 99999999999999999999` the fourth
token makes `strconv.Atoi` fail, and the client is called with the TTL
9223372036854775807, not 0. -/
theorem ttl_out_of_range_not_zero :
    (Atoi "99999999999999999999").2
        = some (Error.NumError "Atoi" "99999999999999999999" NumErrKind.ErrRange)
      ∧ (handleInstanceSet (stubClient [] none) registry
          ["SET", "name", "\"v\"", "99999999999999999999"] "" (World.init ())).1
        = Res.ok ("OK", none)
      ∧ (handleInstanceSet (stubClient [] none) registry
          ["SET", "name", "\"v\"", "99999999999999999999"] "" (World.init ())).2.trace
        = [Call.Set "name" "v" 9223372036854775807]
      ∧ (9223372036854775807 : Int) ≠ 0 := by
  decide

/-- C4 (amended): for `SET`, `HASH/SET` and `ARR/SET`, every client and every
token list of at least four tokens whose value token decodes and whose fourth
token makes `strconv.Atoi` fail with `e`: the handler makes exactly one more
client call, the one of its keyword with the TTL that `Atoi` returned next to
the error, and returns `OK` when the client returns no error.  That TTL is 0
when `e` is a syntax error; when `e` is a range error it is `-2^63` if the
token begins with `-` and `2^63 - 1` otherwise.  When the token is a decimal
literal, `e` is a range error and the TTL is the bound of the 64-bit range
nearest to the value of the literal: `-2^63` for a value below the range and
`2^63 - 1` for a value above it. -/
theorem ttl_decoding_failure_ignored {σ : Type} (lib : Lib) (cl : Client σ) (c : Cmd)
    (h : TtlHandler) (a0 a1 a2 a3 : String) (rest : List String) (line : String)
    (w : World σ) (e : Error)
    (hdec : h.decodeError lib a2 = none) (hatoi : (Atoi a3).2 = some e) :
    (runHandler lib cl h.fn c (a0 :: a1 :: a2 :: a3 :: rest) line w).2.trace
        = w.trace ++ [h.call lib a1 a2 (Atoi a3).1]
      ∧ (h.clientError lib cl a1 a2 (Atoi a3).1 w.store = none →
          (runHandler lib cl h.fn c (a0 :: a1 :: a2 :: a3 :: rest) line w).1
            = Res.ok ("OK", none))
      ∧ ((e = Error.NumError "Atoi" a3 NumErrKind.ErrSyntax ∧ (Atoi a3).1 = 0)
          ∨ (e = Error.NumError "Atoi" a3 NumErrKind.ErrRange
              ∧ (Atoi a3).1 = if a3.data.head? = some '-' then -(2 ^ 63) else 2 ^ 63 - 1))
      ∧ (isIntLiteral a3.data = true →
          e = Error.NumError "Atoi" a3 NumErrKind.ErrRange
            ∧ ((literalValue a3.data < -(2 ^ 63) ∧ (Atoi a3).1 = -(2 ^ 63))
              ∨ (literalValue a3.data > 2 ^ 63 - 1 ∧ (Atoi a3).1 = 2 ^ 63 - 1))) := by
  refine ⟨?_, ?_, Atoi_error_cases a3 e hatoi, ?_⟩
  · cases h <;>
      simp [TtlHandler.decodeError] at hdec <;>
      simp [TtlHandler.fn, TtlHandler.call, runHandler, handleInstanceSet, handlerHashSet,
        handleInstanceArraySet, bind_apply, pure_apply, ValidCountArguments, index, ValidName,
        hdec, print, invoke] <;>
      split <;> simp [pure_apply, bind_apply]
  · intro hcl
    cases h <;>
      simp [TtlHandler.decodeError] at hdec <;>
      simp [TtlHandler.clientError] at hcl <;>
      simp [TtlHandler.fn, runHandler, handleInstanceSet, handlerHashSet,
        handleInstanceArraySet, bind_apply, pure_apply, ValidCountArguments, index, ValidName,
        hdec, print, invoke, hcl]
  · intro hlit
    have hfit : ¬ fitsInt (literalValue a3.data) := by
      intro hf
      have hok := (Atoi_spec a3 (literalValue a3.data)).mpr ⟨hlit, hf, rfl⟩
      rw [hok] at hatoi
      simp at hatoi
    have hval := Atoi_out_of_range a3 hlit hfit
    rw [hval] at hatoi ⊢
    simp only [Option.some.injEq] at hatoi
    refine ⟨hatoi.symm, ?_⟩
    unfold fitsInt at hfit
    by_cases hneg : literalValue a3.data < 0
    · left
      simp only [if_pos hneg]
      exact ⟨by omega, trivial⟩
    · right
      simp only [if_neg hneg]
      exact ⟨by omega, trivial⟩

/-- C4, witness: `SET name "v" -99999999999999999999` over a client that
accepts the call; the TTL of the call is `-2^63`. -/
theorem ttl_decoding_failure_ignored_witness :
    (runHandler stubLib (stubClient [] none) TtlHandler.Set.fn registry
        ("SET" :: "name" :: "\"v\"" :: "-99999999999999999999" :: []) ""
          (World.init ())).2.trace
        = (World.init ()).trace
          ++ [TtlHandler.Set.call stubLib "name" "\"v\"" (Atoi "-99999999999999999999").1]
      ∧ (TtlHandler.Set.clientError stubLib (stubClient [] none) "name" "\"v\""
            (Atoi "-99999999999999999999").1 (World.init ()).store = none →
          (runHandler stubLib (stubClient [] none) TtlHandler.Set.fn registry
            ("SET" :: "name" :: "\"v\"" :: "-99999999999999999999" :: []) ""
              (World.init ())).1
            = Res.ok ("OK", none))
      ∧ ((Error.NumError "Atoi" "-99999999999999999999" NumErrKind.ErrRange
            = Error.NumError "Atoi" "-99999999999999999999" NumErrKind.ErrSyntax
              ∧ (Atoi "-99999999999999999999").1 = 0)
          ∨ (Error.NumError "Atoi" "-99999999999999999999" NumErrKind.ErrRange
              = Error.NumError "Atoi" "-99999999999999999999" NumErrKind.ErrRange
              ∧ (Atoi "-99999999999999999999").1
                = if "-99999999999999999999".data.head? = some '-' then -(2 ^ 63)
                  else 2 ^ 63 - 1))
      ∧ (isIntLiteral "-99999999999999999999".data = true →
          Error.NumError "Atoi" "-99999999999999999999" NumErrKind.ErrRange
              = Error.NumError "Atoi" "-99999999999999999999" NumErrKind.ErrRange
            ∧ ((literalValue "-99999999999999999999".data < -(2 ^ 63)
                ∧ (Atoi "-99999999999999999999").1 = -(2 ^ 63))
              ∨ (literalValue "-99999999999999999999".data > 2 ^ 63 - 1
                ∧ (Atoi "-99999999999999999999").1 = 2 ^ 63 - 1))) :=
  ttl_decoding_failure_ignored stubLib (stubClient [] none) registry TtlHandler.Set
    "SET" "name" "\"v\"" "-99999999999999999999" [] "" (World.init ())
    (Error.NumError "Atoi" "-99999999999999999999" NumErrKind.ErrRange) (by decide) (by decide)

/-! ## C5: the rendering of `KEYS` -/

/-- C5 (code evaluated at the failing input): for the keys `a`, `b` the
`KEYS` handler returns the text with the newline after the last element
still in place. -/
theorem handleKeys_keeps_trailing_newline :
    (handleKeys (stubClient ["a", "b"] none) registry ["KEYS"] "KEYS" (World.init ())).1
      = Res.ok ("1) a\n2) b\n", none) := by
  decide

/-! ## C6: the rendering of `LIST` -/

/-- The loop of `handlerList` and `handleKeys`, which appends one line per
element to `result`, computes the rendering of the specification. -/
theorem foldl_enumFrom_eq_renderFrom (l : List String) (k : Nat) (init : String) :
    (l.enumFrom k).foldl
        (fun result ie => result ++ (fmtInt (ie.1 + 1) ++ ") " ++ ie.2 ++ "\n")) init
      = init ++ renderFrom (k + 1) l := by
  induction l generalizing k init with
  | nil => simp [renderFrom]
  | cons e es ih =>
    simp only [List.enumFrom_cons, List.foldl_cons, renderFrom]
    rw [ih]
    simp [fmtInt, String.append_assoc]

/-- A rendering is empty or begins with a character that is not a newline. -/
theorem renderFrom_one_head (names : List String) :
    (renderFrom 1 names).data = [] ∨ ∃ t, (renderFrom 1 names).data = '1' :: t := by
  cases names with
  | nil => left; rfl
  | cons e es =>
    right
    refine ⟨(") " ++ e ++ "\n" ++ renderFrom 2 es).data, ?_⟩
    simp only [renderFrom, String.data_append]
    have h : (toString 1 : String).data = ['1'] := by decide
    rw [h]
    simp

/-- A non-empty rendering ends with a space, the last element and a newline. -/
theorem renderFrom_last (names : List String) (i : Nat) (last : String)
    (h : names.getLast? = some last) :
    ∃ pre, (renderFrom i names).data = pre ++ ' ' :: last.data ++ ['\n'] := by
  induction names generalizing i with
  | nil => simp at h
  | cons e es ih =>
    cases es with
    | nil =>
      simp at h
      subst h
      refine ⟨(toString i).data ++ [')'], ?_⟩
      simp [renderFrom]
    | cons e2 es2 =>
      have h2 : (e2 :: es2).getLast? = some last := by
        simpa [List.getLast?_cons_cons] using h
      obtain ⟨pre, hpre⟩ := ih (i + 1) h2
      refine ⟨(toString i ++ ") " ++ e ++ "\n").data ++ pre, ?_⟩
      rw [renderFrom, String.data_append, hpre]
      simp

/-- Trimming newlines from a text that is empty or begins with another
character removes the trailing newlines only. -/
theorem Trim_newline_of_head (s : String) (x : Char) (hx : x ≠ '\n')
    (h : s.data = [] ∨ ∃ t, s.data = x :: t) :
    Trim s '\n' = String.mk (s.data.rdropWhile (fun c => c == '\n')) := by
  unfold Trim trimLeftByte trimRightByte
  congr 1
  rcases h with h | ⟨t, h⟩
  · rw [h]; simp
  · have hpre := List.rdropWhile_prefix (fun c => c == '\n') s.data
    have hne : s.data.rdropWhile (fun c => c == '\n') ≠ [] := by
      intro hnil
      rw [List.rdropWhile_eq_nil_iff] at hnil
      have := hnil x (by rw [h]; simp)
      simp [hx] at this
    obtain ⟨u, hu⟩ := hpre
    cases hd : s.data.rdropWhile (fun c => c == '\n') with
    | nil => exact absurd hd hne
    | cons y ys =>
      rw [hd, h] at hu
      simp at hu
      rw [hu.1]
      simp [hx]

/-- C6 (counterexample): for the single name `a\n` the `LIST` handler returns
`1) a`, while the concatenation `1) a\n\n` with one single trailing newline
removed is `1) a\n`. -/
theorem handlerList_trims_every_trailing_newline :
    (handlerList (stubClient ["a\n"] none) registry ["LIST"] "LIST" (World.init ())).1
        = Res.ok ("1) a", none)
      ∧ dropOneTrailingNewline (renderIndexed ["a\n"]) = "1) a\n"
      ∧ (handlerList (stubClient ["a\n"] none) registry ["LIST"] "LIST" (World.init ())).1
        ≠ Res.ok (dropOneTrailingNewline (renderIndexed ["a\n"]), none) := by
  decide

/-- C6 (amended): for every list of names that `Client.ListInstances`
returns without error, the `LIST` handler returns the concatenation of
`<i>) <name>\n` over the names, with 1-based index, with every trailing
newline removed and nothing else removed; when the last name does not end in
a newline (and when the list is empty) that is exactly the concatenation with
one single trailing newline removed. -/
theorem handlerList_renders_names {σ : Type} (cl : Client σ) (c : Cmd) (args : List String)
    (line : String) (w : World σ) (names : List String) (s1 : σ)
    (hcl : cl.ListInstances w.store = ((names, none), s1)) :
    (handlerList cl c args line w).1
        = Res.ok (String.mk ((renderIndexed names).data.rdropWhile (fun x => x == '\n')), none)
      ∧ ((∀ last, names.getLast? = some last → last.data.getLast? ≠ some '\n') →
          (handlerList cl c args line w).1
            = Res.ok (dropOneTrailingNewline (renderIndexed names), none)) := by
  have hrun : (handlerList cl c args line w).1
      = Res.ok (Trim (renderIndexed names) '\n', none) := by
    simp [handlerList, bind_apply, pure_apply, invoke, hcl, List.enum,
      foldl_enumFrom_eq_renderFrom, renderIndexed]
  have htrim := Trim_newline_of_head (renderIndexed names) '1' (by decide)
    (renderFrom_one_head names)
  refine ⟨by rw [hrun, htrim], ?_⟩
  intro hlast
  rw [hrun, htrim]
  congr 1
  cases hn : names.getLast? with
  | none =>
    have : names = [] := List.getLast?_eq_none_iff.mp hn
    subst this
    decide
  | some last =>
    obtain ⟨pre, hpre⟩ := renderFrom_last names 1 last hn
    have hl := hlast last hn
    have hdata : (renderIndexed names).data = (pre ++ ' ' :: last.data) ++ ['\n'] := by
      rw [renderIndexed, hpre]
    have hkeep : (pre ++ ' ' :: last.data).rdropWhile (fun x => x == '\n')
        = pre ++ ' ' :: last.data := by
      rw [List.rdropWhile_eq_self_iff]
      intro hne hp
      have h1 : (pre ++ ' ' :: last.data).getLast? = some '\n' := by
        rw [List.getLast?_eq_getLast _ hne]
        simpa using hp
      rcases List.eq_nil_or_concat last.data with h0 | ⟨ys, y, h0⟩
      · rw [h0] at h1
        simp at h1
      · rw [h0, List.concat_eq_append] at h1 hl
        have hre : pre ++ ' ' :: (ys ++ [y]) = (pre ++ ' ' :: ys) ++ [y] := by simp
        rw [hre, List.getLast?_concat] at h1
        rw [List.getLast?_concat] at hl
        exact hl h1
    have hdrop : dropOneTrailingNewline (renderIndexed names)
        = String.mk (pre ++ ' ' :: last.data) := by
      unfold dropOneTrailingNewline
      rw [hdata, if_pos (List.getLast?_concat _), List.dropLast_concat]
    rw [hdrop, hdata, List.rdropWhile_concat_pos _ _ _ (by simp), hkeep]

/-- C6, witness: the instances `a`, `b` render as `1) a\n2) b`. -/
theorem handlerList_renders_names_witness :
    ((handlerList (stubClient ["a", "b"] none) registry ["LIST"] "LIST" (World.init ())).1
        = Res.ok (String.mk ((renderIndexed ["a", "b"]).data.rdropWhile
            (fun x => x == '\n')), none)
      ∧ ((∀ last, ["a", "b"].getLast? = some last → last.data.getLast? ≠ some '\n') →
          (handlerList (stubClient ["a", "b"] none) registry ["LIST"] "LIST"
              (World.init ())).1
            = Res.ok (dropOneTrailingNewline (renderIndexed ["a", "b"]), none)))
      ∧ dropOneTrailingNewline (renderIndexed ["a", "b"]) = "1) a\n2) b"
      ∧ (∀ last, ["a", "b"].getLast? = some last → last.data.getLast? ≠ some '\n') :=
  ⟨handlerList_renders_names (stubClient ["a", "b"] none) registry ["LIST"] "LIST"
      (World.init ()) ["a", "b"] () rfl,
    by decide,
    by intro last h; simp at h; subst h; decide⟩

/-! ## C7: the titles in the `HELP` listing -/

theorem isPrefixOf_append_newline (p x b : List Char) (hp : '\n' ∉ p) :
    p.isPrefixOf (x ++ '\n' :: b) = p.isPrefixOf x := by
  induction p generalizing x with
  | nil => simp [List.isPrefixOf]
  | cons q ps ih =>
    have hq : q ≠ '\n' := fun h => hp (by simp [h])
    have hps : '\n' ∉ ps := fun h => hp (List.mem_cons_of_mem _ h)
    cases x with
    | nil => simp [List.isPrefixOf, hq]
    | cons y ys =>
      show (q == y && ps.isPrefixOf (ys ++ '\n' :: b)) = (q == y && ps.isPrefixOf ys)
      rw [ih ys hps]

/-- A pattern without a newline occurs in `a`, newline, `b` as often as in `a`
and in `b` together. -/
theorem occurrencesIn_append_newline (p a b : List Char) (hne : p ≠ []) (hp : '\n' ∉ p) :
    occurrencesIn p (a ++ '\n' :: b) = occurrencesIn p a + occurrencesIn p b := by
  obtain ⟨q, ps, rfl⟩ := List.exists_cons_of_ne_nil hne
  have hq : q ≠ '\n' := fun h => hp (by simp [h])
  induction a with
  | nil => simp [occurrencesIn, List.isPrefixOf, hq]
  | cons c cs ih =>
    have h := isPrefixOf_append_newline (q :: ps) (c :: cs) b hp
    show (if (q :: ps).isPrefixOf (c :: cs ++ '\n' :: b) then 1 else 0)
        + occurrencesIn (q :: ps) (cs ++ '\n' :: b)
      = (if (q :: ps).isPrefixOf (c :: cs) then 1 else 0) + occurrencesIn (q :: ps) cs
        + occurrencesIn (q :: ps) b
    rw [h, ih]
    omega

/-- The listing loop of `handlerHelp` appends a newline and a line per entry. -/
theorem help_foldl_data (reg : List (String × Command)) (init : String) :
    (reg.foldl (fun result entry => result ++ ("\n" ++ entry.1 ++ " - " ++ entry.2.Title))
        init).data
      = init.data ++ (reg.map (fun e => '\n' :: (helpLine e).data)).flatten := by
  induction reg generalizing init with
  | nil => simp
  | cons e es ih =>
    simp only [List.foldl_cons, List.map_cons, List.flatten_cons]
    rw [ih]
    simp [helpLine, String.data_append]

/-- Occurrences of a pattern without a newline in a text followed by listing
lines: those in the text plus those in each line. -/
theorem occurrencesIn_lines (p : List Char) (hne : p ≠ []) (hp : '\n' ∉ p)
    (reg : List (String × Command)) (a : List Char) :
    occurrencesIn p (a ++ (reg.map (fun e => '\n' :: (helpLine e).data)).flatten)
      = occurrencesIn p a + (reg.map (fun e => occurrencesIn p (helpLine e).data)).sum := by
  induction reg generalizing a with
  | nil => simp
  | cons e es ih =>
    simp only [List.map_cons, List.flatten_cons, List.cons_append, List.sum_cons]
    rw [occurrencesIn_append_newline p a _ hne hp, ih]

/-- In a list without repeated keys, an entry is what `lookup` finds. -/
theorem lookup_of_mem_nodup (l : List (String × Command)) (k : String) (v : Command)
    (hnd : (l.map Prod.fst).Nodup) (hmem : (k, v) ∈ l) : l.lookup k = some v := by
  induction l with
  | nil => simp at hmem
  | cons e es ih =>
    obtain ⟨k1, v1⟩ := e
    simp only [List.map_cons, List.nodup_cons] at hnd
    rcases List.mem_cons.mp hmem with h | h
    · cases h
      simp
    · have hk : k ≠ k1 := by
        intro hk
        subst hk
        exact hnd.1 (List.mem_map.mpr ⟨(k, v), h, rfl⟩)
      rw [List.lookup_cons]
      have : (k == k1) = false := by simpa using hk
      rw [this]
      exact ih hnd.2 h

/-- The text of `HELP` without argument, over any arrangement of the table,
and the number of times a pattern without a newline occurs in it. -/
theorem handlerHelp_listing {σ : Type} (reg : List (String × Command))
    (hperm : reg.Perm commands) (line : String) (w : World σ) :
    ∃ text, handlerHelp { Commands := reg } ["HELP"] line w = (Res.ok (text, none), w)
      ∧ ∀ p : String, p.data ≠ [] → '\n' ∉ p.data →
          occurrences p text
            = occurrences p (helpHeading ⟨"Function show information about other functions",
                "Example: HELP <FUNCTION_NAME>", HandlerFn.handlerHelp⟩)
              + (commands.map (fun e => occurrences p (helpLine e))).sum := by
  have hnd : (reg.map Prod.fst).Nodup := by
    have h1 : (commands.map Prod.fst).Nodup := by decide
    exact (List.Perm.nodup_iff (List.Perm.map Prod.fst hperm)).mpr h1
  have hmem : (("HELP", ⟨"Function show information about other functions",
      "Example: HELP <FUNCTION_NAME>", HandlerFn.handlerHelp⟩) : String × Command) ∈ reg :=
    (List.Perm.mem_iff hperm).mpr (by decide)
  have hlook := lookup_of_mem_nodup reg _ _ hnd hmem
  refine ⟨reg.foldl (fun result entry => result ++ ("\n" ++ entry.1 ++ " - " ++ entry.2.Title))
    (helpHeading ⟨"Function show information about other functions",
      "Example: HELP <FUNCTION_NAME>", HandlerFn.handlerHelp⟩), ?_, ?_⟩
  · simp [handlerHelp, bind_apply, pure_apply, index, Cmd.lookup, hlook, helpHeading]
  · intro p hne hp
    unfold occurrences
    have hsum : (reg.map (fun e => occurrencesIn p.data (helpLine e).data)).sum
        = (commands.map (fun e => occurrencesIn p.data (helpLine e).data)).sum :=
      List.Perm.sum_eq (List.Perm.map _ hperm)
    rw [help_foldl_data, occurrencesIn_lines p.data hne hp, hsum]

/-- The counts on the table of the file: every title is non-empty and has no
newline; the title of `HELP` occurs once in the heading and once in the
listing lines, every other title once in the listing lines only. -/
theorem title_counts_in_table :
    ∀ entry ∈ commands,
      entry.2.Title.data ≠ [] ∧ '\n' ∉ entry.2.Title.data
        ∧ occurrences entry.2.Title
              (helpHeading ⟨"Function show information about other functions",
                "Example: HELP <FUNCTION_NAME>", HandlerFn.handlerHelp⟩)
            + (commands.map (fun e => occurrences entry.2.Title (helpLine e))).sum
          = if entry.1 = "HELP" then 2 else 1 := by
  decide

/-- C7 (counterexample): with the registry iterated in the order of the
table, the title of `HELP` occurs twice in the text that `HELP` returns. -/
theorem help_title_occurs_twice :
    ∃ text, handlerHelp registry ["HELP"] "HELP" (World.init ())
        = (Res.ok (text, none), World.init ())
      ∧ occurrences "Function show information about other functions" text = 2 := by
  obtain ⟨text, hrun, hocc⟩ :=
    handlerHelp_listing commands (List.Perm.refl _) "HELP" (World.init ())
  refine ⟨text, hrun, ?_⟩
  have h := title_counts_in_table _ (List.mem_cons_self _ _)
  rw [hocc _ h.1 h.2.1]
  exact h.2.2

/-- C7 (amended): with the registry holding exactly the 24 entries of the
table `commands`, in every iteration order, `HELP` without argument succeeds
and its text contains the title of every registered command other than
`HELP` exactly once, and the title of `HELP` itself exactly twice (once in
the heading and once in the listing). -/
theorem help_lists_every_title {σ : Type} (reg : List (String × Command))
    (hperm : reg.Perm commands) (line : String) (w : World σ) :
    ∃ text, handlerHelp { Commands := reg } ["HELP"] line w = (Res.ok (text, none), w)
      ∧ ∀ entry ∈ commands,
          occurrences entry.2.Title text = if entry.1 = "HELP" then 2 else 1 := by
  obtain ⟨text, hrun, hocc⟩ := handlerHelp_listing reg hperm line w
  refine ⟨text, hrun, ?_⟩
  intro entry hmem
  have h := title_counts_in_table entry hmem
  rw [hocc _ h.1 h.2.1]
  exact h.2.2

/-- C7, witness: the table iterated backwards. -/
theorem help_lists_every_title_witness :
    ∃ text, handlerHelp { Commands := commands.reverse } ["HELP"] "HELP" (World.init ())
        = (Res.ok (text, none), World.init ())
      ∧ ∀ entry ∈ commands,
          occurrences entry.2.Title text = if entry.1 = "HELP" then 2 else 1 :=
  help_lists_every_title commands.reverse (List.reverse_perm commands) "HELP" (World.init ())

/-! ## C8: `HELP` with an argument -/

/-- C8: for every registry and every token list with at least two tokens,
`HELP` returns the empty text with `ErrCommandNotExist` if and only if
`args[1]` is not a key of the registry; when it is a key, `HELP` succeeds and
returns exactly the title, a newline and the description of the descriptor
registered under `args[1]`, and nothing else.  Either way the world is left
as it was. -/
theorem handlerHelp_with_argument {σ : Type} (c : Cmd) (args : List String) (line : String)
    (w : World σ) (hlen : 1 < args.length) :
    ((handlerHelp c args line w).1 = Res.ok ("", some Error.ErrCommandNotExist)
        ↔ ∀ entry ∈ c.Commands, entry.1 ≠ args[1])
      ∧ ((∃ entry ∈ c.Commands, entry.1 = args[1]) →
          ∃ command, c.lookup args[1] = some command
            ∧ handlerHelp c args line w
              = (Res.ok (command.Title ++ "\n" ++ command.Description, none), w))
      ∧ (handlerHelp c args line w).2 = w := by
  rcases args with _ | ⟨a0, _ | ⟨a1, rest⟩⟩
  · simp at hlen
  · simp at hlen
  · have hnone : c.lookup a1 = none ↔ ∀ entry ∈ c.Commands, entry.1 ≠ a1 := by
      simp only [Cmd.lookup, List.lookup_eq_none_iff, bne_iff_ne, ne_eq]
      exact ⟨fun h p hp heq => h p hp heq.symm, fun h p hp heq => h p hp heq.symm⟩
    cases hl : c.lookup a1 with
    | none =>
      have hkey := hnone.mp hl
      refine ⟨?_, ?_, ?_⟩
      · simp [handlerHelp, bind_apply, pure_apply, index, hl]
        exact fun a b hab => hkey (a, b) hab
      · rintro ⟨entry, hmem, heq⟩
        exact absurd heq (hkey entry hmem)
      · simp [handlerHelp, bind_apply, pure_apply, index, hl]
    | some command =>
      have hkey : ¬ ∀ entry ∈ c.Commands, entry.1 ≠ a1 := fun h => by
        rw [hnone.mpr h] at hl; cases hl
      refine ⟨?_, ?_, ?_⟩
      · simp [handlerHelp, bind_apply, pure_apply, index, hl]
        simpa using hkey
      · intro _
        exact ⟨command, hl, by simp [handlerHelp, bind_apply, pure_apply, index, hl]⟩
      · simp [handlerHelp, bind_apply, pure_apply, index, hl]

/-- C8, witness: `HELP SET` and the table of the file. -/
theorem handlerHelp_with_argument_witness :
    ((handlerHelp registry ["HELP", "SET"] "HELP SET" (World.init ())).1
        = Res.ok ("", some Error.ErrCommandNotExist)
        ↔ ∀ entry ∈ registry.Commands, entry.1 ≠ ["HELP", "SET"][1])
      ∧ ((∃ entry ∈ registry.Commands, entry.1 = ["HELP", "SET"][1]) →
          ∃ command, registry.lookup ["HELP", "SET"][1] = some command
            ∧ handlerHelp registry ["HELP", "SET"] "HELP SET" (World.init ())
              = (Res.ok (command.Title ++ "\n" ++ command.Description, none), World.init ()))
      ∧ (handlerHelp registry ["HELP", "SET"] "HELP SET" (World.init ())).2 = World.init () :=
  handlerHelp_with_argument registry ["HELP", "SET"] "HELP SET" (World.init ()) (by decide)

/-! ## C9: `ValidString` -/

/-- What `strings.Trim` with a one-character cutset does: the result sits in
the input between a run of `c` on the left and a run of `c` on the right, and
neither begins nor ends with `c`. -/
theorem trim_decomposition (s : List Char) (c : Char) :
    ∃ l r, s = l ++ trimLeftByte (trimRightByte s c) c ++ r
      ∧ (∀ x ∈ l, x = c) ∧ (∀ x ∈ r, x = c)
      ∧ (trimLeftByte (trimRightByte s c) c).head? ≠ some c
      ∧ (trimLeftByte (trimRightByte s c) c).getLast? ≠ some c := by
  unfold trimLeftByte trimRightByte
  set p : Char → Bool := fun x => x == c with hp
  have hs : s = s.rdropWhile p ++ s.rtakeWhile p := by
    have h := List.takeWhile_append_dropWhile p s.reverse
    have h2 := congrArg List.reverse h
    rw [List.reverse_append, List.reverse_reverse] at h2
    exact h2.symm
  have hu : s.rdropWhile p = (s.rdropWhile p).takeWhile p ++ (s.rdropWhile p).dropWhile p :=
    (List.takeWhile_append_dropWhile p _).symm
  refine ⟨(s.rdropWhile p).takeWhile p, s.rtakeWhile p, ?_, ?_, ?_, ?_, ?_⟩
  · rw [← hu]; exact hs
  · intro x hx
    simpa [hp] using List.mem_takeWhile_imp hx
  · intro x hx
    simpa [hp] using List.mem_rtakeWhile_imp hx
  · intro h
    have := List.head?_dropWhile_not p (s.rdropWhile p)
    rw [h] at this
    simp [hp] at this
  · intro h
    obtain ⟨ys, hys⟩ := List.getLast?_eq_some_iff.mp h
    have hne : s.rdropWhile p ≠ [] := by
      intro hnil
      rw [hnil] at hys
      simp at hys
    have hlast := List.rdropWhile_last_not p s hne
    have hget : (s.rdropWhile p).getLast hne = c := by
      have h3 : (s.rdropWhile p).getLast? = some c := by
        rw [hu, hys, ← List.append_assoc]
        simp
      rw [List.getLast?_eq_getLast _ hne] at h3
      exact Option.some.inj h3
    rw [hget] at hlast
    simp [hp] at hlast

/-- C9 (counterexample): a token wrapped in two layers of double quotes loses
both layers, while one layer stripped would leave the inner one. -/
theorem ValidString_strips_both_layers :
    ValidString "\"\"a\"\"" = ("a", none)
      ∧ stripOneLayer "\"\"a\"\"" = "\"a\""
      ∧ (ValidString "\"\"a\"\"").1 ≠ stripOneLayer "\"\"a\"\"" := by
  decide

/-- C9 (amended): for every token `s`, `ValidString` never fails and removes
every leading and every trailing double quote: the token is a run of double
quotes, the result, and a run of double quotes, and the result neither
begins nor ends with a double quote; a token without a leading and without a
trailing double quote is returned unchanged. -/
theorem ValidString_strips_all_quotes (s : String) :
    (ValidString s).2 = none
      ∧ (∃ l r, s.data = l ++ (ValidString s).1.data ++ r
          ∧ (∀ x ∈ l, x = '"') ∧ (∀ x ∈ r, x = '"'))
      ∧ (ValidString s).1.data.head? ≠ some '"'
      ∧ (ValidString s).1.data.getLast? ≠ some '"'
      ∧ ((ValidString s).1 = s ∨ s.data.head? = some '"' ∨ s.data.getLast? = some '"') := by
  obtain ⟨l, r, hs, hl, hr, hhead, hlast⟩ := trim_decomposition s.data '"'
  refine ⟨rfl, ⟨l, r, hs, hl, hr⟩, hhead, hlast, ?_⟩
  by_cases h1 : s.data.head? = some '"'
  · exact Or.inr (Or.inl h1)
  by_cases h2 : s.data.getLast? = some '"'
  · exact Or.inr (Or.inr h2)
  left
  have hl0 : l = [] := by
    cases l with
    | nil => rfl
    | cons x xs =>
      exfalso
      have hx : x = '"' := hl x (List.mem_cons_self _ _)
      rw [hs, hx] at h1
      simp at h1
  have hr0 : r = [] := by
    rcases List.eq_nil_or_concat r with h | ⟨ys, x, h⟩
    · exact h
    · exfalso
      have hx : x = '"' := hr x (by rw [h]; simp)
      rw [hs, h, hx] at h2
      simp at h2
  rw [hl0, hr0] at hs
  simp only [List.nil_append, List.append_nil] at hs
  show Trim s '"' = s
  unfold Trim
  rw [← hs]

/-! ## C10: `ValidInt` -/

/-- C10: for every token `s`, `ValidInt(s)` returns `(n, nil)` exactly when
`s` is a base-10 integer literal (an optional sign followed by one or more
decimal digits and nothing else) whose value fits the 64-bit signed range and
`n` is that value; for every other token it returns the value 0 together with
a non-nil error. -/
theorem ValidInt_spec (s : String) :
    (∀ n, ValidInt s = (n, none)
        ↔ isIntLiteral s.data = true ∧ fitsInt (literalValue s.data)
            ∧ n = literalValue s.data)
      ∧ ((isIntLiteral s.data = true ∧ fitsInt (literalValue s.data))
          ∨ ((ValidInt s).1 = 0 ∧ (ValidInt s).2 ≠ none)) := by
  have hvalid : ∀ n, ValidInt s = (n, none) ↔ Atoi s = (n, none) := by
    intro n
    unfold ValidInt
    rcases Atoi s with ⟨i, _ | e⟩ <;> simp
  refine ⟨fun n => (hvalid n).trans (Atoi_spec s n), ?_⟩
  by_cases hlit : isIntLiteral s.data = true ∧ fitsInt (literalValue s.data)
  · exact Or.inl hlit
  · right
    have hno : ∀ n, Atoi s ≠ (n, none) := fun n h =>
      hlit ⟨((Atoi_spec s n).mp h).1, ((Atoi_spec s n).mp h).2.1⟩
    unfold ValidInt
    rcases hA : Atoi s with ⟨i, _ | e⟩
    · exact absurd hA (hno i)
    · simp

/-! ## C11: a mutating handler makes exactly one client call -/

theorem ValidString_snd (s : String) : (ValidString s).2 = none := rfl

/-- C11: for each mutating handler, every client and every token list that
passes the handler's arity check and on which every token the handler decodes
is there and decodes (so that the keyword stands for a client call on it):
the handler makes exactly one client call, that one, on the client state it
found; it returns `("OK", nil)` when the client returns no error and
`("", e)` with the client's error `e` unchanged when it returns one. -/
theorem mutating_handler_calls_client_once {σ : Type} (lib : Lib) (cl : Client σ) (c : Cmd)
    (h : MutatingHandler) (args : List String) (line : String) (w : World σ) (call : Call)
    (hcall : h.expectedCall lib args = some call) :
    (runHandler lib cl h.fn c args line w).2.trace = w.trace ++ [call]
      ∧ (runHandler lib cl h.fn c args line w).2.store = (cl.answer call w.store).2
      ∧ ((cl.answer call w.store).1 = none →
          (runHandler lib cl h.fn c args line w).1 = Res.ok ("OK", none))
      ∧ (∀ e, (cl.answer call w.store).1 = some e →
          (runHandler lib cl h.fn c args line w).1 = Res.ok ("", some e)) := by
  cases h
  case Create =>
    rcases args with _ | ⟨a0, _ | ⟨a1, rest⟩⟩ <;>
      simp [MutatingHandler.expectedCall] at hcall
    subst hcall
    simp [MutatingHandler.fn, runHandler, Client.answer, handleInstanceCreate,
        bind_apply, pure_apply, ValidCountArguments, index, ValidName, invoke, print, ttlOf, ValidString_snd]
    split <;> simp_all [pure_apply, bind_apply]
  case Select =>
    rcases args with _ | ⟨a0, _ | ⟨a1, rest⟩⟩ <;>
      simp [MutatingHandler.expectedCall] at hcall
    subst hcall
    simp [MutatingHandler.fn, runHandler, Client.answer, handleInstanceSelect,
        bind_apply, pure_apply, ValidCountArguments, index, ValidName, invoke, print, ttlOf, ValidString_snd]
    split <;> simp_all [pure_apply, bind_apply]
  case Destroy =>
    rcases args with _ | ⟨a0, _ | ⟨a1, rest⟩⟩ <;>
      simp [MutatingHandler.expectedCall] at hcall
    subst hcall
    simp [MutatingHandler.fn, runHandler, Client.answer, handleDestroy,
        bind_apply, pure_apply, ValidCountArguments, index, ValidName, invoke, print, ttlOf, ValidString_snd]
    split <;> simp_all [pure_apply, bind_apply]
  case Set =>
    rcases args with _ | ⟨a0, _ | ⟨a1, _ | ⟨a2, rest⟩⟩⟩ <;>
      simp [MutatingHandler.expectedCall] at hcall
    subst hcall
    cases rest <;>
      simp [MutatingHandler.fn, runHandler, Client.answer, handleInstanceSet,
        bind_apply, pure_apply, ValidCountArguments, index, ValidName, invoke, print, ttlOf, ValidString_snd] <;>
      split <;> simp_all [pure_apply, bind_apply]
  case Del =>
    rcases args with _ | ⟨a0, _ | ⟨a1, rest⟩⟩ <;>
      simp [MutatingHandler.expectedCall] at hcall
    subst hcall
    simp [MutatingHandler.fn, runHandler, Client.answer, handleInstanceDel,
        bind_apply, pure_apply, ValidCountArguments, index, ValidName, invoke, print, ttlOf, ValidString_snd]
    split <;> simp_all [pure_apply, bind_apply]
  case TTLSet =>
    rcases args with _ | ⟨a0, _ | ⟨a1, _ | ⟨a2, rest⟩⟩⟩ <;>
      simp [MutatingHandler.expectedCall] at hcall
    obtain ⟨hdec, hcall⟩ := hcall
    subst hcall
    simp [MutatingHandler.fn, runHandler, Client.answer, handlerSetTTL,
        bind_apply, pure_apply, ValidCountArguments, index, ValidName, invoke, print, ttlOf, ValidString_snd, hdec]
    split <;> simp_all [pure_apply, bind_apply]
  case TTLDel =>
    rcases args with _ | ⟨a0, _ | ⟨a1, rest⟩⟩ <;>
      simp [MutatingHandler.expectedCall] at hcall
    subst hcall
    simp [MutatingHandler.fn, runHandler, Client.answer, handlerDeleteTTL,
        bind_apply, pure_apply, ValidCountArguments, index, ValidName, invoke, print, ttlOf, ValidString_snd]
    split <;> simp_all [pure_apply, bind_apply]
  case ArrSet =>
    rcases args with _ | ⟨a0, _ | ⟨a1, _ | ⟨a2, rest⟩⟩⟩ <;>
      simp [MutatingHandler.expectedCall] at hcall
    obtain ⟨hdec, hcall⟩ := hcall
    subst hcall
    cases rest <;>
      simp [MutatingHandler.fn, runHandler, Client.answer, handleInstanceArraySet,
        bind_apply, pure_apply, ValidCountArguments, index, ValidName, invoke, print, ttlOf, ValidString_snd, hdec] <;>
      split <;> simp_all [pure_apply, bind_apply]
  case HashSet =>
    rcases args with _ | ⟨a0, _ | ⟨a1, _ | ⟨a2, rest⟩⟩⟩ <;>
      simp [MutatingHandler.expectedCall] at hcall
    obtain ⟨hdec, hcall⟩ := hcall
    subst hcall
    cases rest <;>
      simp [MutatingHandler.fn, runHandler, Client.answer, handlerHashSet,
        bind_apply, pure_apply, ValidCountArguments, index, ValidName, invoke, print, ttlOf, ValidString_snd, hdec] <;>
      split <;> simp_all [pure_apply, bind_apply]
  case ArrElAdd =>
    rcases args with _ | ⟨a0, _ | ⟨a1, _ | ⟨a2, rest⟩⟩⟩ <;>
      simp [MutatingHandler.expectedCall] at hcall
    subst hcall
    simp [MutatingHandler.fn, runHandler, Client.answer, handleArrayElementAdd,
        bind_apply, pure_apply, ValidCountArguments, index, ValidName, invoke, print, ttlOf, ValidString_snd]
    split <;> simp_all [pure_apply, bind_apply]
  case ArrElSet =>
    rcases args with _ | ⟨a0, _ | ⟨a1, _ | ⟨a2, _ | ⟨a3, rest⟩⟩⟩⟩ <;>
      simp [MutatingHandler.expectedCall] at hcall
    obtain ⟨hdec, hcall⟩ := hcall
    subst hcall
    simp [MutatingHandler.fn, runHandler, Client.answer, handleArrayElementSet,
        bind_apply, pure_apply, ValidCountArguments, index, ValidName, invoke, print, ttlOf, ValidString_snd, hdec]
    split <;> simp_all [pure_apply, bind_apply]
  case ArrElDel =>
    rcases args with _ | ⟨a0, _ | ⟨a1, _ | ⟨a2, rest⟩⟩⟩ <;>
      simp [MutatingHandler.expectedCall] at hcall
    obtain ⟨hdec, hcall⟩ := hcall
    subst hcall
    simp [MutatingHandler.fn, runHandler, Client.answer, handleArrayElementDel,
        bind_apply, pure_apply, ValidCountArguments, index, ValidName, invoke, print, ttlOf, ValidString_snd, hdec]
    split <;> simp_all [pure_apply, bind_apply]
  case HashElSet =>
    rcases args with _ | ⟨a0, _ | ⟨a1, _ | ⟨a2, _ | ⟨a3, rest⟩⟩⟩⟩ <;>
      simp [MutatingHandler.expectedCall] at hcall
    subst hcall
    simp [MutatingHandler.fn, runHandler, Client.answer, handleHashElementSet,
        bind_apply, pure_apply, ValidCountArguments, index, ValidName, invoke, print, ttlOf, ValidString_snd]
    split <;> simp_all [pure_apply, bind_apply]
  case HashElDel =>
    rcases args with _ | ⟨a0, _ | ⟨a1, _ | ⟨a2, rest⟩⟩⟩ <;>
      simp [MutatingHandler.expectedCall] at hcall
    subst hcall
    simp [MutatingHandler.fn, runHandler, Client.answer, handleHashElementDel,
        bind_apply, pure_apply, ValidCountArguments, index, ValidName, invoke, print, ttlOf, ValidString_snd]
    split <;> simp_all [pure_apply, bind_apply]

/-- C11, witness: `ARR/EL/SET name 1 "v"` over a client that accepts the call. -/
theorem mutating_handler_calls_client_once_witness :
    (runHandler stubLib (stubClient [] none) MutatingHandler.ArrElSet.fn registry
        ["ARR/EL/SET", "name", "1", "\"v\""] "" (World.init ())).2.trace
        = (World.init ()).trace ++ [Call.SetArrayElement "name" 1 "v"]
      ∧ (runHandler stubLib (stubClient [] none) MutatingHandler.ArrElSet.fn registry
        ["ARR/EL/SET", "name", "1", "\"v\""] "" (World.init ())).2.store
        = ((stubClient [] none).answer (Call.SetArrayElement "name" 1 "v")
            (World.init ()).store).2
      ∧ (((stubClient [] none).answer (Call.SetArrayElement "name" 1 "v")
            (World.init ()).store).1 = none →
          (runHandler stubLib (stubClient [] none) MutatingHandler.ArrElSet.fn registry
            ["ARR/EL/SET", "name", "1", "\"v\""] "" (World.init ())).1 = Res.ok ("OK", none))
      ∧ (∀ e, ((stubClient [] none).answer (Call.SetArrayElement "name" 1 "v")
            (World.init ()).store).1 = some e →
          (runHandler stubLib (stubClient [] none) MutatingHandler.ArrElSet.fn registry
            ["ARR/EL/SET", "name", "1", "\"v\""] "" (World.init ())).1
            = Res.ok ("", some e)) :=
  mutating_handler_calls_client_once stubLib (stubClient [] none) registry
    MutatingHandler.ArrElSet ["ARR/EL/SET", "name", "1", "\"v\""] "" (World.init ())
    (Call.SetArrayElement "name" 1 "v") (by decide)

/-! ## C12: `SET` then `GET` -/

/-- The mock store client stores values. -/
theorem mockClient_storesValues : StoresValues mockClient := by
  intro name value ttl s
  simp [mockClient]

/-- C12: over every store client that stores values (`Set` stores, `Get`
returns the stored value), such as the mock backed by a name-to-value map,
for every name and every value token `t`: the `SET` handler on
`["SET", name, t]` returns `OK`, and the `GET` handler on `["GET", name]`
run after it returns without error the value that was set, which is the
token `t` between its leading and its trailing double quotes. -/
theorem set_then_get_round_trip {σ : Type} (cl : Client σ) (hcl : StoresValues cl) (c : Cmd)
    (name t line1 line2 : String) (w : World σ) :
    (handleInstanceSet cl c ["SET", name, t] line1 w).1 = Res.ok ("OK", none)
      ∧ (handleInstanceGet cl c ["GET", name] line2
          (handleInstanceSet cl c ["SET", name, t] line1 w).2).1
        = Res.ok ((ValidString t).1, none)
      ∧ (∃ l r, t.data = l ++ (ValidString t).1.data ++ r
          ∧ (∀ x ∈ l, x = '"') ∧ (∀ x ∈ r, x = '"'))
      ∧ (ValidString t).1.data.head? ≠ some '"'
      ∧ (ValidString t).1.data.getLast? ≠ some '"' := by
  obtain ⟨hset, hget⟩ := hcl name (ValidString t).1 0 w.store
  obtain ⟨l, r, hs, hl, hr, hhead, hlast⟩ := trim_decomposition t.data '"'
  refine ⟨?_, ?_, ⟨l, r, hs, hl, hr⟩, hhead, hlast⟩
  · simp [handleInstanceSet, bind_apply, pure_apply, ValidCountArguments, index, ValidName,
      invoke, ValidString_snd, hset]
  · simp [handleInstanceSet, handleInstanceGet, bind_apply, pure_apply, ValidCountArguments,
      index, ValidName, invoke, ValidString_snd, hset, hget]

/-- C12, witness: `SET name "v"` then `GET name` over the mock returns `v`. -/
theorem set_then_get_round_trip_witness :
    ((handleInstanceSet mockClient registry ["SET", "name", "\"v\""] ""
          (World.init MockStore.empty)).1 = Res.ok ("OK", none)
      ∧ (handleInstanceGet mockClient registry ["GET", "name"] ""
          (handleInstanceSet mockClient registry ["SET", "name", "\"v\""] ""
            (World.init MockStore.empty)).2).1
        = Res.ok ((ValidString "\"v\"").1, none)
      ∧ (∃ l r, "\"v\"".data = l ++ (ValidString "\"v\"").1.data ++ r
          ∧ (∀ x ∈ l, x = '"') ∧ (∀ x ∈ r, x = '"'))
      ∧ (ValidString "\"v\"").1.data.head? ≠ some '"'
      ∧ (ValidString "\"v\"").1.data.getLast? ≠ some '"')
      ∧ (ValidString "\"v\"").1 = "v" :=
  ⟨set_then_get_round_trip mockClient mockClient_storesValues registry "name" "\"v\"" "" ""
      (World.init MockStore.empty),
    by decide⟩

/-! ## C13: a failing handler and standard output -/

/-- C13 (code evaluated at the failing input): `ARR/SET` writes the token
`args[2]` to standard output before it decodes it, and then the decoded
array and the error, whether decoding fails or not: on every token list with
at least three tokens its standard output has grown by these two lines. -/
theorem handleInstanceArraySet_prints {σ : Type} (lib : Lib) (cl : Client σ) (c : Cmd)
    (a0 a1 a2 : String) (rest : List String) (line : String) (w : World σ) :
    (handleInstanceArraySet lib cl c (a0 :: a1 :: a2 :: rest) line w).2.stdout
      = w.stdout ++ (a2 ++ "\n")
          ++ (fmtSlice (ValidArray lib a2).1 ++ " " ++ fmtErr lib (ValidArray lib a2).2
            ++ "\n") := by
  cases hdec : (ValidArray lib a2).2 with
  | some e =>
    simp [handleInstanceArraySet, bind_apply, pure_apply, ValidCountArguments, index,
      ValidName, print, hdec]
  | none =>
    cases rest <;>
      simp [handleInstanceArraySet, bind_apply, pure_apply, ValidCountArguments, index,
        ValidName, print, invoke, hdec] <;>
      split <;> simp [pure_apply, bind_apply]

/-! ## C14: the arity of the indexed element handlers -/

/-- C14 (counterexample): `ARR/EL/GET x 1 extra` has four tokens, and the
handler calls the client and returns what it returns, without error. -/
theorem handleArrayElementGet_accepts_longer_list :
    (runHandler stubLib (stubClient [] none) ElementHandler.ArrElGet.fn registry
        ["ARR/EL/GET", "x", "1", "extra"] "" (World.init ())).1 = Res.ok ("", none)
      ∧ (runHandler stubLib (stubClient [] none) ElementHandler.ArrElGet.fn registry
        ["ARR/EL/GET", "x", "1", "extra"] "" (World.init ())).2.trace
        = [Call.GetArrayElement "x" 1]
      ∧ ["ARR/EL/GET", "x", "1", "extra"].length ≠ ElementHandler.ArrElGet.arity := by
  decide

/-- C14 (amended): each indexed element handler requires at least its arity
(3 tokens for `ARR/EL/GET`, `ARR/EL/DEL`, `HASH/EL/GET`, `HASH/EL/DEL`, 4
for `ARR/EL/SET`, `HASH/EL/SET`): on every shorter token list it fails with
`ErrNotEnoughArguments` and an empty text, without calling the store client
or changing anything; on a token list with more tokens it does exactly what
it does on the first 3 (or 4) of them. -/
theorem element_handler_arity {σ : Type} (lib : Lib) (cl : Client σ) (c : Cmd)
    (h : ElementHandler) (args : List String) (line : String) (w : World σ) :
    (args.length < h.arity →
        runHandler lib cl h.fn c args line w
          = (Res.ok ("", some Error.ErrNotEnoughArguments), w))
      ∧ (args.length = h.arity → ∀ extra : List String,
          runHandler lib cl h.fn c (args ++ extra) line w
            = runHandler lib cl h.fn c args line w) := by
  constructor
  · intro hlen
    cases h <;>
      simp only [ElementHandler.arity] at hlen <;>
      simp [ElementHandler.fn, runHandler, handleArrayElementGet, handleArrayElementSet,
        handleArrayElementDel, handleHashElementGet, handleHashElementSet,
        handleHashElementDel, bind_apply, pure_apply, ValidCountArguments, hlen]
  · intro hlen extra
    cases h <;>
      simp only [ElementHandler.arity] at hlen <;>
      rcases args with _ | ⟨a0, _ | ⟨a1, _ | ⟨a2, _ | ⟨a3, _ | ⟨a4, rest⟩⟩⟩⟩⟩ <;>
      simp at hlen <;>
      simp [ElementHandler.fn, runHandler, handleArrayElementGet, handleArrayElementSet,
        handleArrayElementDel, handleHashElementGet, handleHashElementSet,
        handleHashElementDel, bind_apply, pure_apply, ValidCountArguments, index, ValidName]
    all_goals split <;> simp [bind_apply, pure_apply, index]

/-- C14, witness: `ARR/EL/SET` on three tokens, and on four tokens and more. -/
theorem element_handler_arity_witness :
    runHandler stubLib (stubClient [] none) ElementHandler.ArrElSet.fn registry
        ["ARR/EL/SET", "x", "1"] "" (World.init ())
        = (Res.ok ("", some Error.ErrNotEnoughArguments), World.init ())
      ∧ runHandler stubLib (stubClient [] none) ElementHandler.ArrElSet.fn registry
        (["ARR/EL/SET", "x", "1", "v"] ++ ["more"]) "" (World.init ())
        = runHandler stubLib (stubClient [] none) ElementHandler.ArrElSet.fn registry
          ["ARR/EL/SET", "x", "1", "v"] "" (World.init ()) :=
  ⟨(element_handler_arity stubLib (stubClient [] none) registry ElementHandler.ArrElSet
      ["ARR/EL/SET", "x", "1"] "" (World.init ())).1 (by decide),
    (element_handler_arity stubLib (stubClient [] none) registry ElementHandler.ArrElSet
      ["ARR/EL/SET", "x", "1", "v"] "" (World.init ())).2 (by decide) ["more"]⟩

/-! ## C15: `ValidArray` -/

theorem isSpace_iff (c : Char) :
    isSpace c = true ↔ (c = ' ' ∨ c = '\t' ∨ c = '\r' ∨ c = '\n') := by
  simp [isSpace, or_assoc]

theorem skipSpace_append (ws x : List Char) (h : AllSpace ws) :
    skipSpace (ws ++ x) = skipSpace x := by
  induction ws with
  | nil => rfl
  | cons c cs ih =>
    have hc : isSpace c = true := (isSpace_iff c).mpr (h c (List.mem_cons_self _ _))
    simp only [List.cons_append, skipSpace, hc, if_true]
    exact ih (fun d hd => h d (List.mem_cons_of_mem _ hd))

theorem skipSpace_cons (c : Char) (r : List Char) (h : isSpace c = false) :
    skipSpace (c :: r) = c :: r := by
  simp [skipSpace, h]

/-- The input is a run of white space and what `skipSpace` leaves, which is
empty or begins with another character. -/
theorem skipSpace_split (inp : List Char) :
    ∃ ws, AllSpace ws ∧ inp = ws ++ skipSpace inp
      ∧ (skipSpace inp = [] ∨ ∃ c r, skipSpace inp = c :: r ∧ isSpace c = false) := by
  induction inp with
  | nil => exact ⟨[], by simp [AllSpace], rfl, Or.inl rfl⟩
  | cons c cs ih =>
    cases hc : isSpace c with
    | true =>
      obtain ⟨ws, hws, heq, hrest⟩ := ih
      refine ⟨c :: ws, ?_, ?_, ?_⟩
      · intro d hd
        rcases List.mem_cons.mp hd with rfl | hd
        · exact (isSpace_iff d).mp hc
        · exact hws d hd
      · simp only [skipSpace, hc, if_true, List.cons_append]
        rw [← heq]
      · simpa [skipSpace, hc] using hrest
    | false =>
      refine ⟨[], by simp [AllSpace], by simp [skipSpace, hc], Or.inr ⟨c, cs, ?_, hc⟩⟩
      simp [skipSpace, hc]

theorem isHex_of_spec (h : Char)
    (hh : h.isDigit ∨ h ∈ ['a', 'b', 'c', 'd', 'e', 'f'] ∨ h ∈ ['A', 'B', 'C', 'D', 'E', 'F']) :
    isHex h = true := by
  rcases hh with hd | hl | hu
  · rw [← isDigit_eq] at hd
    simp only [isDigit, decide_eq_true_eq] at hd
    simp [isHex, hd.1, hd.2]
  · simp only [List.mem_cons, List.mem_singleton, List.not_mem_nil, or_false] at hl
    rcases hl with rfl | rfl | rfl | rfl | rfl | rfl <;> decide
  · simp only [List.mem_cons, List.mem_singleton, List.not_mem_nil, or_false] at hu
    rcases hu with rfl | rfl | rfl | rfl | rfl | rfl <;> decide

theorem spec_of_isHex (h : Char) (hh : isHex h = true) :
    h.isDigit ∨ h ∈ ['a', 'b', 'c', 'd', 'e', 'f'] ∨ h ∈ ['A', 'B', 'C', 'D', 'E', 'F'] := by
  simp only [isHex, Bool.or_eq_true, Bool.and_eq_true, decide_eq_true_eq] at hh
  have hc : h = Char.ofNat h.toNat := (Char.ofNat_toNat h).symm
  rcases hh with (hd | hl) | hu
  · left
    rw [← isDigit_eq]
    simp [isDigit, hd.1, hd.2]
  · right; left
    obtain ⟨h1, h2⟩ := hl
    rw [hc]
    interval_cases h.toNat <;> decide
  · right; right
    obtain ⟨h1, h2⟩ := hu
    rw [hc]
    interval_cases h.toNat <;> decide

theorem isEscape_iff (e : Char) :
    isEscape e = true ↔ e ∈ ['"', '\\', '/', 'b', 'f', 'n', 'r', 't'] := by
  simp [isEscape, or_assoc]

/-- Scanning the body of a string literal up to its closing quote. -/
theorem scanString_complete (b rest : List Char) (hb : StringBody b) :
    scanString (b ++ '"' :: rest) = some (b, rest) := by
  induction hb with
  | nil => simp [scanString]
  | plain c b h32 hq hbs _ ih =>
    have hlt : ¬ c.toNat < 32 := by omega
    rw [List.cons_append, scanString.eq_5 _ _ (fun h => hq h)
      (fun _ _ _ _ _ h _ => hbs h) (fun _ _ h _ => hbs h)]
    simp [hlt, hbs, ih]
  | escape e b he _ ih =>
    have hesc := (isEscape_iff e).mpr he
    have hu : e ≠ 'u' := by
      intro h; subst h; simp at he
    rw [List.cons_append, List.cons_append, scanString.eq_4 _ _
      (fun _ _ _ _ _ h _ => hu h)]
    simp [hesc, ih]
  | unicode h1 h2 h3 h4 b hh _ ih =>
    have e1 := isHex_of_spec h1 (hh h1 (by simp))
    have e2 := isHex_of_spec h2 (hh h2 (by simp))
    have e3 := isHex_of_spec h3 (hh h3 (by simp))
    have e4 := isHex_of_spec h4 (hh h4 (by simp))
    simp [scanString, e1, e2, e3, e4, ih]

/-- What the string scanner accepts is the body of a string literal, its
closing quote and the rest. -/
theorem scanString_sound (inp b rest : List Char) (h : scanString inp = some (b, rest)) :
    inp = b ++ '"' :: rest ∧ StringBody b := by
  induction inp using scanString.induct generalizing b with
  | case1 => simp [scanString] at h
  | case2 r =>
    simp [scanString] at h
    obtain ⟨rfl, rfl⟩ := h
    exact ⟨rfl, StringBody.nil⟩
  | case3 h1 h2 h3 h4 r hhex b1 r1 hscan ih =>
    simp [scanString, hhex, hscan] at h
    obtain ⟨rfl, rfl⟩ := h
    obtain ⟨heq, hb⟩ := ih b1 hscan
    simp only [Bool.and_eq_true] at hhex
    refine ⟨by rw [heq]; rfl, StringBody.unicode h1 h2 h3 h4 b1 ?_ hb⟩
    intro x hx
    simp only [List.mem_cons, List.mem_singleton, List.not_mem_nil, or_false] at hx
    rcases hx with rfl | rfl | rfl | rfl
    · exact spec_of_isHex _ hhex.1.1.1
    · exact spec_of_isHex _ hhex.1.1.2
    · exact spec_of_isHex _ hhex.1.2
    · exact spec_of_isHex _ hhex.2
  | case4 h1 h2 h3 h4 r hhex hscan _ =>
    simp [scanString, hhex, hscan] at h
  | case5 h1 h2 h3 h4 r hhex =>
    simp [scanString, hhex] at h
  | case6 e r hne hesc b1 r1 hscan ih =>
    rw [scanString.eq_4 _ _ hne] at h
    simp [hesc, hscan] at h
    obtain ⟨rfl, rfl⟩ := h
    obtain ⟨heq, hb⟩ := ih b1 hscan
    exact ⟨by rw [heq]; rfl, StringBody.escape e b1 ((isEscape_iff e).mp hesc) hb⟩
  | case7 e r hne hesc hscan _ =>
    rw [scanString.eq_4 _ _ hne] at h
    simp [hesc, hscan] at h
  | case8 e r hne hesc =>
    rw [scanString.eq_4 _ _ hne] at h
    simp [hesc] at h
  | case9 c r hq hu he hbad =>
    rw [scanString.eq_5 _ _ hq hu he] at h
    simp [hbad] at h
  | case10 c r hq hu he hgood b1 r1 hscan ih =>
    rw [scanString.eq_5 _ _ hq hu he] at h
    simp only [hgood, if_false, hscan] at h
    simp at h
    obtain ⟨rfl, rfl⟩ := h
    obtain ⟨heq, hb⟩ := ih b1 hscan
    simp only [Bool.or_eq_true, decide_eq_true_eq, beq_iff_eq, not_or] at hgood
    exact ⟨by rw [heq]; rfl,
      StringBody.plain c b1 (by omega) (fun h => hq h) hgood.2 hb⟩
  | case11 c r hq hu he hgood hscan _ =>
    rw [scanString.eq_5 _ _ hq hu he] at h
    simp only [hgood, if_false, hscan] at h
    simp at h

/-- The decoder and the table agree on the value of a hexadecimal digit. -/
theorem hexVal_eq (h : Char)
    (hh : h.isDigit ∨ h ∈ ['a', 'b', 'c', 'd', 'e', 'f'] ∨ h ∈ ['A', 'B', 'C', 'D', 'E', 'F']) :
    hexVal h = hexDigitValue h ∧ hexDigitValue h < 16 := by
  rcases hh with hd | hl | hu
  · rw [← isDigit_eq] at hd
    simp only [isDigit, decide_eq_true_eq] at hd
    have hc : h = Char.ofNat h.toNat := (Char.ofNat_toNat h).symm
    obtain ⟨h1, h2⟩ := hd
    rw [hc]
    interval_cases h.toNat <;> decide
  · simp only [List.mem_cons, List.mem_singleton, List.not_mem_nil, or_false] at hl
    rcases hl with rfl | rfl | rfl | rfl | rfl | rfl <;> decide
  · simp only [List.mem_cons, List.mem_singleton, List.not_mem_nil, or_false] at hu
    rcases hu with rfl | rfl | rfl | rfl | rfl | rfl <;> decide

/-- The decoder and the specification agree on the number of a `\u` escape. -/
theorem getu4_eq (h1 h2 h3 h4 : Char)
    (hh : ∀ h ∈ [h1, h2, h3, h4], h.isDigit ∨ h ∈ ['a', 'b', 'c', 'd', 'e', 'f']
      ∨ h ∈ ['A', 'B', 'C', 'D', 'E', 'F']) :
    getu4 h1 h2 h3 h4 = codeUnit h1 h2 h3 h4 ∧ codeUnit h1 h2 h3 h4 < 0x10000 := by
  obtain ⟨e1, b1⟩ := hexVal_eq h1 (hh h1 (by simp))
  obtain ⟨e2, b2⟩ := hexVal_eq h2 (hh h2 (by simp))
  obtain ⟨e3, b3⟩ := hexVal_eq h3 (hh h3 (by simp))
  obtain ⟨e4, b4⟩ := hexVal_eq h4 (hh h4 (by simp))
  unfold getu4 codeUnit
  rw [e1, e2, e3, e4]
  constructor <;> omega

/-- The decoder and the table agree on the character of a two-character
escape. -/
theorem unescape_eq (e x : Char) (h : (e, x) ∈ escapeTable) :
    unescape e = x ∧ e ≠ 'u' ∧ e ∈ ['"', '\\', '/', 'b', 'f', 'n', 'r', 't'] := by
  simp only [escapeTable, List.mem_cons, List.mem_singleton, List.not_mem_nil, or_false,
    Prod.mk.injEq] at h
  rcases h with ⟨rfl, rfl⟩ | ⟨rfl, rfl⟩ | ⟨rfl, rfl⟩ | ⟨rfl, rfl⟩ | ⟨rfl, rfl⟩ | ⟨rfl, rfl⟩
    | ⟨rfl, rfl⟩ | ⟨rfl, rfl⟩ <;> decide

theorem unquoteFrom_plain (c : Char) (b : List Char) (hc : c ≠ '\\') :
    unquoteFrom 0 (c :: b) = c :: unquoteFrom 0 b := by
  rw [unquoteFrom.eq_5]
  · intro _ _ _ _ _ h _; exact hc h
  · intro _ _ h _; exact hc h

theorem unquoteFrom_escape (e : Char) (b : List Char) (he : e ≠ 'u') :
    unquoteFrom 0 ('\\' :: e :: b) = unescape e :: unquoteFrom 0 b := by
  rw [unquoteFrom.eq_4]
  intro _ _ _ _ _ h _; exact he h

theorem unquoteFrom_six (a1 a2 a3 a4 a5 a6 : Char) (b : List Char) :
    unquoteFrom 6 (a1 :: a2 :: a3 :: a4 :: a5 :: a6 :: b) = unquoteFrom 0 b := by
  simp [unquoteFrom]

theorem StringBody_unicode_inv (l1 l2 l3 l4 : Char) (r : List Char)
    (h : StringBody ('\\' :: 'u' :: l1 :: l2 :: l3 :: l4 :: r)) :
    (∀ h ∈ [l1, l2, l3, l4], h.isDigit ∨ h ∈ ['a', 'b', 'c', 'd', 'e', 'f']
        ∨ h ∈ ['A', 'B', 'C', 'D', 'E', 'F']) ∧ StringBody r := by
  cases h with
  | plain c b _ _ hbs _ => exact absurd rfl hbs
  | escape e b he _ => simp at he
  | unicode _ _ _ _ _ hh hb => exact ⟨hh, hb⟩

theorem nextEscape_some (b : List Char) (n : Nat) (h : nextEscape b = some n) :
    ∃ l1 l2 l3 l4 r, b = '\\' :: 'u' :: l1 :: l2 :: l3 :: l4 :: r ∧ n = getu4 l1 l2 l3 l4 := by
  unfold nextEscape at h
  split at h
  · rename_i g1 g2 g3 g4 r
    simp only [Option.some.injEq] at h
    exact ⟨g1, g2, g3, g4, r, rfl, h.symm⟩
  · simp at h

/-- Joining the two halves of a pair, with shift and or as in the decoder and
with multiplication and addition as in the specification. -/
theorem joinPair_eq (a b : Nat) (hb : b < 0x400) :
    ((a <<< 10) ||| b) + 0x10000 = 0x10000 + a * 0x400 + b := by
  have hlt : b < 2 ^ 10 := by omega
  have h := Nat.mul_add_lt_is_or hlt a
  rw [Nat.shiftLeft_eq, Nat.mul_comm a (2 ^ 10), ← h]
  omega

/-- The decoder on a `\u` escape of a number that is no half of a pair. -/
theorem unquoteFrom_unicode (h1 h2 h3 h4 : Char) (b : List Char)
    (hh : ∀ h ∈ [h1, h2, h3, h4], h.isDigit ∨ h ∈ ['a', 'b', 'c', 'd', 'e', 'f']
      ∨ h ∈ ['A', 'B', 'C', 'D', 'E', 'F'])
    (hhi : ¬ IsHighSurrogate (codeUnit h1 h2 h3 h4))
    (hlo : ¬ IsLowSurrogate (codeUnit h1 h2 h3 h4)) :
    unquoteFrom 0 ('\\' :: 'u' :: h1 :: h2 :: h3 :: h4 :: b)
      = Char.ofNat (codeUnit h1 h2 h3 h4) :: unquoteFrom 0 b := by
  obtain ⟨hg, _⟩ := getu4_eq h1 h2 h3 h4 hh
  unfold IsHighSurrogate at hhi
  unfold IsLowSurrogate at hlo
  rw [unquoteFrom.eq_3]
  simp only [hg]
  rw [if_neg (by omega)]

/-- The decoder on the escape of a high half followed by the escape of a low
half. -/
theorem unquoteFrom_pair (h1 h2 h3 h4 l1 l2 l3 l4 : Char) (b : List Char)
    (hh : ∀ h ∈ [h1, h2, h3, h4, l1, l2, l3, l4], h.isDigit
      ∨ h ∈ ['a', 'b', 'c', 'd', 'e', 'f'] ∨ h ∈ ['A', 'B', 'C', 'D', 'E', 'F'])
    (hhi : IsHighSurrogate (codeUnit h1 h2 h3 h4))
    (hlo : IsLowSurrogate (codeUnit l1 l2 l3 l4)) :
    unquoteFrom 0
        ('\\' :: 'u' :: h1 :: h2 :: h3 :: h4 :: '\\' :: 'u' :: l1 :: l2 :: l3 :: l4 :: b)
      = Char.ofNat (0x10000 + (codeUnit h1 h2 h3 h4 - 0xD800) * 0x400
          + (codeUnit l1 l2 l3 l4 - 0xDC00)) :: unquoteFrom 0 b := by
  obtain ⟨hg, _⟩ := getu4_eq h1 h2 h3 h4 (fun h hm => hh h (by
    simp only [List.mem_cons, List.mem_singleton, List.not_mem_nil, or_false] at hm ⊢
    tauto))
  obtain ⟨hg1, _⟩ := getu4_eq l1 l2 l3 l4 (fun h hm => hh h (by
    simp only [List.mem_cons, List.mem_singleton, List.not_mem_nil, or_false] at hm ⊢
    tauto))
  unfold IsHighSurrogate at hhi
  unfold IsLowSurrogate at hlo
  rw [unquoteFrom.eq_3]
  simp only [hg, nextEscape, hg1]
  rw [if_pos (by omega), if_pos (by omega), joinPair_eq _ _ (by omega), unquoteFrom_six]

/-- The decoder on the escape of a half that is not the high half of a pair
followed by the escape of a low half. -/
theorem unquoteFrom_lone (h1 h2 h3 h4 : Char) (b : List Char)
    (hh : ∀ h ∈ [h1, h2, h3, h4], h.isDigit ∨ h ∈ ['a', 'b', 'c', 'd', 'e', 'f']
      ∨ h ∈ ['A', 'B', 'C', 'D', 'E', 'F'])
    (hb : StringBody b)
    (hs : IsHighSurrogate (codeUnit h1 h2 h3 h4) ∨ IsLowSurrogate (codeUnit h1 h2 h3 h4))
    (hn : ¬ (IsHighSurrogate (codeUnit h1 h2 h3 h4) ∧ BeginsWithLow b)) :
    unquoteFrom 0 ('\\' :: 'u' :: h1 :: h2 :: h3 :: h4 :: b)
      = Char.ofNat 0xFFFD :: unquoteFrom 0 b := by
  obtain ⟨hg, _⟩ := getu4_eq h1 h2 h3 h4 hh
  rw [unquoteFrom.eq_3]
  simp only [hg]
  have hsur : 0xd800 ≤ codeUnit h1 h2 h3 h4 ∧ codeUnit h1 h2 h3 h4 < 0xe000 := by
    unfold IsHighSurrogate IsLowSurrogate at hs
    omega
  rw [if_pos hsur]
  cases hne : nextEscape b with
  | none => rfl
  | some rr1 =>
    obtain ⟨l1, l2, l3, l4, r, rfl, rfl⟩ := nextEscape_some b rr1 hne
    obtain ⟨hl, _⟩ := StringBody_unicode_inv l1 l2 l3 l4 r hb
    obtain ⟨hg1, _⟩ := getu4_eq l1 l2 l3 l4 hl
    simp only [hg1]
    rw [if_neg]
    intro hc
    apply hn
    refine ⟨?_, l1, l2, l3, l4, r, rfl, ?_⟩
    · unfold IsHighSurrogate; omega
    · unfold IsLowSurrogate; omega

/-- The body of a string with a value is a body of the grammar. -/
theorem stringValue_body (b v : List Char) (h : StringValue b v) : StringBody b := by
  induction h with
  | nil => exact StringBody.nil
  | plain c b v h32 hq hbs _ ih => exact StringBody.plain c b h32 hq hbs ih
  | escape e x b v he _ ih => exact StringBody.escape e b (unescape_eq e x he).2.2 ih
  | unicode h1 h2 h3 h4 b v hh _ _ _ ih => exact StringBody.unicode h1 h2 h3 h4 b hh ih
  | pair h1 h2 h3 h4 l1 l2 l3 l4 b v hh _ _ _ ih =>
    refine StringBody.unicode h1 h2 h3 h4 _ (fun h hm => hh h ?_)
      (StringBody.unicode l1 l2 l3 l4 b (fun h hm => hh h ?_) ih)
    · simp only [List.mem_cons, List.mem_singleton, List.not_mem_nil, or_false] at hm ⊢
      tauto
    · simp only [List.mem_cons, List.mem_singleton, List.not_mem_nil, or_false] at hm ⊢
      tauto
  | lone h1 h2 h3 h4 b v hh _ _ _ ih => exact StringBody.unicode h1 h2 h3 h4 b hh ih

/-- The decoder unquotes the body of a string to the string it stands for. -/
theorem stringValue_unquote (b v : List Char) (h : StringValue b v) : unquote b = v := by
  unfold unquote
  induction h with
  | nil => rfl
  | plain c b v _ _ hbs _ ih => rw [unquoteFrom_plain c b hbs, ih]
  | escape e x b v he _ ih =>
    obtain ⟨hx, hu, _⟩ := unescape_eq e x he
    rw [unquoteFrom_escape e b hu, hx, ih]
  | unicode h1 h2 h3 h4 b v hh hhi hlo _ ih =>
    rw [unquoteFrom_unicode h1 h2 h3 h4 b hh hhi hlo, ih]
  | pair h1 h2 h3 h4 l1 l2 l3 l4 b v hh hhi hlo _ ih =>
    rw [unquoteFrom_pair h1 h2 h3 h4 l1 l2 l3 l4 b hh hhi hlo, ih]
  | lone h1 h2 h3 h4 b v hh hs hn hv ih =>
    rw [unquoteFrom_lone h1 h2 h3 h4 b hh (stringValue_body b v hv) hs hn, ih]

theorem escape_mem (e : Char) (he : e ∈ ['"', '\\', '/', 'b', 'f', 'n', 'r', 't']) :
    (e, unescape e) ∈ escapeTable ∧ e ≠ 'u' := by
  simp only [List.mem_cons, List.mem_singleton, List.not_mem_nil, or_false] at he
  rcases he with rfl | rfl | rfl | rfl | rfl | rfl | rfl | rfl <;> decide

theorem stringBody_value_aux (n : Nat) :
    ∀ b : List Char, b.length ≤ n → StringBody b → StringValue b (unquote b) := by
  induction n with
  | zero =>
    intro b hlen hb
    cases b with
    | nil => exact StringValue.nil
    | cons c cs => simp at hlen
  | succ n ih =>
    intro b hlen hb
    unfold unquote at ih ⊢
    cases hb with
    | nil => exact StringValue.nil
    | plain c b h32 hq hbs hb1 =>
      rw [unquoteFrom_plain c b hbs]
      exact StringValue.plain c b _ h32 hq hbs
        (ih b (by simp only [List.length_cons] at hlen; omega) hb1)
    | escape e b he hb1 =>
      obtain ⟨hm, hu⟩ := escape_mem e he
      rw [unquoteFrom_escape e b hu]
      exact StringValue.escape e _ b _ hm
        (ih b (by simp only [List.length_cons] at hlen; omega) hb1)
    | unicode h1 h2 h3 h4 b hh hb1 =>
      have hlen1 : b.length ≤ n := by simp only [List.length_cons] at hlen; omega
      by_cases hs : IsHighSurrogate (codeUnit h1 h2 h3 h4)
          ∨ IsLowSurrogate (codeUnit h1 h2 h3 h4)
      · by_cases hp : IsHighSurrogate (codeUnit h1 h2 h3 h4) ∧ BeginsWithLow b
        · obtain ⟨hhi, l1, l2, l3, l4, r, rfl, hlo⟩ := hp
          obtain ⟨hl, hr⟩ := StringBody_unicode_inv l1 l2 l3 l4 r hb1
          have hall : ∀ h ∈ [h1, h2, h3, h4, l1, l2, l3, l4], h.isDigit
              ∨ h ∈ ['a', 'b', 'c', 'd', 'e', 'f'] ∨ h ∈ ['A', 'B', 'C', 'D', 'E', 'F'] := by
            intro h hm
            simp only [List.mem_cons, List.mem_singleton, List.not_mem_nil, or_false] at hm
            rcases hm with rfl | rfl | rfl | rfl | rfl | rfl | rfl | rfl
            · exact hh _ (by simp)
            · exact hh _ (by simp)
            · exact hh _ (by simp)
            · exact hh _ (by simp)
            · exact hl _ (by simp)
            · exact hl _ (by simp)
            · exact hl _ (by simp)
            · exact hl _ (by simp)
          rw [unquoteFrom_pair h1 h2 h3 h4 l1 l2 l3 l4 r hall hhi hlo]
          exact StringValue.pair h1 h2 h3 h4 l1 l2 l3 l4 r _ hall hhi hlo
            (ih r (by simp only [List.length_cons] at hlen1; omega) hr)
        · rw [unquoteFrom_lone h1 h2 h3 h4 b hh hb1 hs hp]
          exact StringValue.lone h1 h2 h3 h4 b _ hh hs hp (ih b hlen1 hb1)
      · have hhi : ¬ IsHighSurrogate (codeUnit h1 h2 h3 h4) := fun h => hs (Or.inl h)
        have hlo : ¬ IsLowSurrogate (codeUnit h1 h2 h3 h4) := fun h => hs (Or.inr h)
        rw [unquoteFrom_unicode h1 h2 h3 h4 b hh hhi hlo]
        exact StringValue.unicode h1 h2 h3 h4 b _ hh hhi hlo (ih b hlen1 hb1)

/-- Every body of the grammar stands for a string, the one the decoder
unquotes it to. -/
theorem stringBody_value (b : List Char) (hb : StringBody b) : StringValue b (unquote b) :=
  stringBody_value_aux b.length b (Nat.le_refl _) hb

set_option maxHeartbeats 2000000 in
/-- The scan of a value that begins with a quote. -/
theorem parseValue_string (d : Nat) (r : List Char) :
    parseValue d ('"' :: r)
      = match scanString r with
        | some (b, rest) => some (JKind.string b, rest)
        | none => none := by
  rw [parseValue]

/-- The scan of `null`. -/
theorem parseValue_null (d : Nat) (rest : List Char) :
    parseValue d ('n' :: 'u' :: 'l' :: 'l' :: rest) = some (JKind.null, rest) := by
  rw [parseValue]

/-- Scanning an element of the specification: its kind is stored as the
string the element stands for, without a type error. -/
theorem parseValue_element (d : Nat) (e : List Char) (v : String) (rest : List Char)
    (h : Element e v) :
    ∃ kind, parseValue d (e ++ rest) = some (kind, rest) ∧ elemValue kind = v
      ∧ elemFailure kind = none := by
  cases h with
  | string b v hv =>
    refine ⟨JKind.string b, ?_, ?_, rfl⟩
    · have hscan := scanString_complete b rest (stringValue_body b v hv)
      have heq : ('"' :: b ++ ['"']) ++ rest = '"' :: (b ++ '"' :: rest) := by simp
      rw [heq, parseValue_string, hscan]
    · simp only [elemValue]
      rw [stringValue_unquote b v hv]
  | null =>
    exact ⟨JKind.null, parseValue_null d rest, rfl, rfl⟩

set_option maxHeartbeats 2000000 in
/-- A scanned value that is stored without a type error is an element of the
specification. -/
theorem parseValue_sound (d : Nat) (inp : List Char) (kind : JKind) (rest : List Char)
    (h : parseValue d inp = some (kind, rest)) (hk : elemFailure kind = none) :
    ∃ e, inp = e ++ rest ∧ Element e (elemValue kind) := by
  unfold parseValue at h
  split at h
  · -- a string
    split at h
    · rename_i r b rest1 hscan
      simp only [Option.some.injEq, Prod.mk.injEq] at h
      obtain ⟨rfl, rfl⟩ := h
      obtain ⟨heq, hb⟩ := scanString_sound _ _ _ hscan
      exact ⟨'"' :: b ++ ['"'], by rw [heq]; simp,
        Element.string b (unquote b) (stringBody_value b hb)⟩
    · simp at h
  · simp only [Option.some.injEq, Prod.mk.injEq] at h
    obtain ⟨rfl, rfl⟩ := h
    exact ⟨['n', 'u', 'l', 'l'], rfl, Element.null⟩
  · simp only [Option.some.injEq, Prod.mk.injEq] at h
    obtain ⟨rfl, rfl⟩ := h
    simp [elemFailure] at hk
  · simp only [Option.some.injEq, Prod.mk.injEq] at h
    obtain ⟨rfl, rfl⟩ := h
    simp [elemFailure] at hk
  · split at h
    · simp at h
    · split at h
      · simp only [Option.some.injEq, Prod.mk.injEq] at h
        obtain ⟨rfl, rfl⟩ := h
        simp [elemFailure] at hk
      · simp at h
  · split at h
    · simp at h
    · split at h
      · simp only [Option.some.injEq, Prod.mk.injEq] at h
        obtain ⟨rfl, rfl⟩ := h
        simp [elemFailure] at hk
      · split at h
        · simp only [Option.some.injEq, Prod.mk.injEq] at h
          obtain ⟨rfl, rfl⟩ := h
          simp [elemFailure] at hk
        · simp at h
  · split at h
    · split at h
      · simp only [Option.some.injEq, Prod.mk.injEq] at h
        obtain ⟨rfl, rfl⟩ := h
        simp [elemFailure] at hk
      · simp at h
    · simp at h
  · simp at h

set_option maxHeartbeats 2000000 in
/-- Only an input that begins with `[` scans as an array, and only `null`
scans as null. -/
theorem parseValue_top (d : Nat) (inp : List Char) (kind : JKind) (rest : List Char)
    (h : parseValue d inp = some (kind, rest)) (hk : topFailure kind = none) :
    (∃ r, inp = '[' :: r) ∨ (kind = JKind.null ∧ inp = 'n' :: 'u' :: 'l' :: 'l' :: rest) := by
  unfold parseValue at h
  split at h
  · split at h
    · simp only [Option.some.injEq, Prod.mk.injEq] at h
      obtain ⟨rfl, rfl⟩ := h
      simp [topFailure] at hk
    · simp at h
  · simp only [Option.some.injEq, Prod.mk.injEq] at h
    obtain ⟨rfl, rfl⟩ := h
    exact Or.inr ⟨rfl, rfl⟩
  · simp only [Option.some.injEq, Prod.mk.injEq] at h
    obtain ⟨rfl, rfl⟩ := h
    simp [topFailure] at hk
  · simp only [Option.some.injEq, Prod.mk.injEq] at h
    obtain ⟨rfl, rfl⟩ := h
    simp [topFailure] at hk
  · exact Or.inl ⟨_, rfl⟩
  · split at h
    · simp at h
    · split at h
      · simp only [Option.some.injEq, Prod.mk.injEq] at h
        obtain ⟨rfl, rfl⟩ := h
        simp [topFailure] at hk
      · split at h
        · simp only [Option.some.injEq, Prod.mk.injEq] at h
          obtain ⟨rfl, rfl⟩ := h
          simp [topFailure] at hk
        · simp at h
  · split at h
    · split at h
      · simp only [Option.some.injEq, Prod.mk.injEq] at h
        obtain ⟨rfl, rfl⟩ := h
        simp [topFailure] at hk
      · simp at h
    · simp at h
  · simp at h

theorem Element_head (e : List Char) (v : String) (h : Element e v) :
    ∃ c r, e = c :: r ∧ isSpace c = false := by
  cases h with
  | string b v _ => exact ⟨'"', b ++ ['"'], rfl, by decide⟩
  | null => exact ⟨'n', ['u', 'l', 'l'], rfl, by decide⟩

theorem Elements_head (inner : List Char) (vals : List String) (h : Elements inner vals) :
    ∃ c r, inner = c :: r ∧ isSpace c = false := by
  cases h with
  | last e v ws he _ =>
    obtain ⟨c, r, rfl, hc⟩ := Element_head e v he
    exact ⟨c, r ++ ws, rfl, hc⟩
  | cons e v ws1 ws2 rest vs he _ _ _ =>
    obtain ⟨c, r, rfl, hc⟩ := Element_head e v he
    exact ⟨c, r ++ ws1 ++ ',' :: ws2 ++ rest, by simp, hc⟩

/-- The element loop accepts the elements of the specification up to the
closing bracket, and stores them as the strings they stand for. -/
theorem parseElems_complete (pv : List Char → Option (JKind × List Char))
    (hpv : ∀ e v rest, Element e v →
      ∃ kind, pv (e ++ rest) = some (kind, rest) ∧ elemValue kind = v
        ∧ elemFailure kind = none)
    (inner : List Char) (vals : List String) (h : Elements inner vals) :
    ∀ (k : Nat) (rest : List Char), inner.length < k →
      ∃ kinds, parseElems pv k (inner ++ ']' :: rest) = some (kinds, rest)
        ∧ kinds.map elemValue = vals ∧ kinds.findSome? elemFailure = none := by
  induction h with
  | last e v ws he hws =>
    intro k rest hk
    obtain ⟨k1, rfl⟩ : ∃ k1, k = k1 + 1 := ⟨k - 1, by omega⟩
    obtain ⟨kind, hkind, hval, hfail⟩ := he |> hpv e v (ws ++ ']' :: rest)
    refine ⟨[kind], ?_, by simp [hval], by simp [hfail]⟩
    rw [List.append_assoc, parseElems, hkind]
    simp only
    rw [skipSpace_append _ _ hws, skipSpace_cons _ _ (by decide)]
    rfl
  | cons e v ws1 ws2 rest1 vs he hws1 hws2 hrest ih =>
    intro k rest hk
    obtain ⟨k1, rfl⟩ : ∃ k1, k = k1 + 1 := ⟨k - 1, by omega⟩
    obtain ⟨kind, hkind, hval, hfail⟩ :=
      hpv e v (ws1 ++ ',' :: (ws2 ++ (rest1 ++ ']' :: rest))) he
    obtain ⟨c, r, hcr, hc⟩ := Elements_head rest1 vs hrest
    have hlen : rest1.length < k1 := by
      simp only [List.length_append, List.length_cons] at hk
      omega
    obtain ⟨kinds, hkinds, hvals, hfails⟩ := ih k1 rest hlen
    refine ⟨kind :: kinds, ?_, by simp [hval, hvals], by simp [hfail, hfails]⟩
    have heq : (e ++ ws1 ++ ',' :: ws2 ++ rest1) ++ ']' :: rest
        = e ++ (ws1 ++ ',' :: (ws2 ++ (rest1 ++ ']' :: rest))) := by simp
    rw [heq, parseElems, hkind]
    simp only
    rw [skipSpace_append _ _ hws1, skipSpace_cons _ _ (by decide)]
    simp only
    have hskip : skipSpace (ws2 ++ (rest1 ++ ']' :: rest)) = rest1 ++ ']' :: rest := by
      rw [skipSpace_append _ _ hws2, hcr, List.cons_append, skipSpace_cons _ _ hc]
    rw [hskip, hkinds]

/-- What the element loop accepts without a type error is a run of elements
of the specification and the closing bracket. -/
theorem parseElems_sound (pv : List Char → Option (JKind × List Char))
    (hpv : ∀ inp kind rest, pv inp = some (kind, rest) → elemFailure kind = none →
      ∃ e, inp = e ++ rest ∧ Element e (elemValue kind)) :
    ∀ (k : Nat) (inp : List Char) (kinds : List JKind) (rest : List Char),
      parseElems pv k inp = some (kinds, rest) → kinds.findSome? elemFailure = none →
      ∃ inner, inp = inner ++ ']' :: rest ∧ Elements inner (kinds.map elemValue) := by
  intro k
  induction k with
  | zero =>
    intro inp kinds rest h _
    simp [parseElems] at h
  | succ k ih =>
    intro inp kinds rest h hfail
    rw [parseElems] at h
    cases hp : pv inp with
    | none => simp [hp] at h
    | some vr =>
      obtain ⟨v, r1⟩ := vr
      simp only [hp] at h
      obtain ⟨ws, hws, hr1, _⟩ := skipSpace_split r1
      split at h
      · rename_i r2 hsk
        cases hrec : parseElems pv k (skipSpace r2) with
        | none => simp [hrec] at h
        | some vsr =>
          obtain ⟨vs, r3⟩ := vsr
          simp only [hrec, Option.some.injEq, Prod.mk.injEq] at h
          obtain ⟨rfl, rfl⟩ := h
          have hv : elemFailure v = none := by
            cases hf : elemFailure v with
            | none => rfl
            | some f => simp [List.findSome?, hf] at hfail
          have hvs : vs.findSome? elemFailure = none := by
            simpa [List.findSome?, hv] using hfail
          obtain ⟨e, he, hel⟩ := hpv inp v r1 hp hv
          obtain ⟨inner, hinner, hels⟩ := ih (skipSpace r2) vs r3 hrec hvs
          obtain ⟨ws2, hws2, hr2, _⟩ := skipSpace_split r2
          refine ⟨e ++ ws ++ ',' :: ws2 ++ inner, ?_, ?_⟩
          · rw [he, hr1, hsk, hr2, hinner]
            simp
          · exact Elements.cons e _ ws ws2 inner _ hel hws hws2 hels
      · rename_i r2 hsk
        simp only [Option.some.injEq, Prod.mk.injEq] at h
        obtain ⟨rfl, rfl⟩ := h
        have hv : elemFailure v = none := by
          cases hf : elemFailure v with
          | none => rfl
          | some f => simp [List.findSome?, hf] at hfail
        obtain ⟨e, he, hel⟩ := hpv inp v r1 hp hv
        refine ⟨e ++ ws, ?_, Elements.last e _ ws hel hws⟩
        rw [he, hr1, hsk]
        simp
      · simp at h

theorem skipSpace_allSpace (ws : List Char) (h : AllSpace ws) : skipSpace ws = [] := by
  have := skipSpace_append ws [] h
  simpa [skipSpace] using this

theorem allSpace_of_skipSpace (ws : List Char) (h : skipSpace ws = []) : AllSpace ws := by
  obtain ⟨ws1, hws1, heq, _⟩ := skipSpace_split ws
  rw [h, List.append_nil] at heq
  rw [heq]
  exact hws1

theorem Elements_first (inner : List Char) (vals : List String) (h : Elements inner vals) :
    ∃ c r, inner = c :: r ∧ (c = '"' ∨ c = 'n') := by
  have he : ∀ e v, Element e v → ∃ c r, e = c :: r ∧ (c = '"' ∨ c = 'n') := by
    intro e v hel
    cases hel with
    | string b v _ => exact ⟨'"', b ++ ['"'], rfl, Or.inl rfl⟩
    | null => exact ⟨'n', ['u', 'l', 'l'], rfl, Or.inr rfl⟩
  cases h with
  | last e v ws hel _ =>
    obtain ⟨c, r, rfl, hc⟩ := he e v hel
    exact ⟨c, r ++ ws, rfl, hc⟩
  | cons e v ws1 ws2 rest vs hel _ _ _ =>
    obtain ⟨c, r, rfl, hc⟩ := he e v hel
    exact ⟨c, r ++ ws1 ++ ',' :: ws2 ++ rest, by simp, hc⟩

/-- The decoder on the literal `null`: no elements and no error. -/
theorem decodeStrings_null (s : String) (h : IsNullLiteral s.data) :
    decodeStrings s = ([], none) := by
  obtain ⟨ws0, ws1, hws0, hws1, hs⟩ := h
  have hskip : skipSpace s.data = 'n' :: 'u' :: 'l' :: 'l' :: ws1 := by
    rw [hs, List.append_assoc, skipSpace_append _ _ hws0]
    exact skipSpace_cons _ _ (by decide)
  unfold decodeStrings
  rw [hskip]
  split
  · rename_i r heq
    exact absurd (List.cons.inj heq).1 (by decide)
  · simp only [parseValue_null, skipSpace_allSpace ws1 hws1]
    rfl

/-- The scan of the inside of an array literal of the specification. -/
theorem parseArrayBody_complete (ws1 inner ws2 : List Char) (vals : List String)
    (hws1 : AllSpace ws1) (hinner : (inner = [] ∧ vals = []) ∨ Elements inner vals) :
    ∃ kinds, parseArrayBody (parseValue 9999) (ws1 ++ (inner ++ ']' :: ws2))
        = some (kinds, ws2) ∧ kinds.map elemValue = vals
        ∧ kinds.findSome? elemFailure = none := by
  unfold parseArrayBody
  rw [skipSpace_append _ _ hws1]
  rcases hinner with ⟨rfl, rfl⟩ | hel
  · refine ⟨[], ?_, rfl, rfl⟩
    rw [List.nil_append, skipSpace_cons _ _ (by decide)]
    rfl
  · obtain ⟨c, r, hcr, hc⟩ := Elements_first inner vals hel
    have hns : isSpace c = false := by rcases hc with rfl | rfl <;> decide
    have hnb : c ≠ ']' := by rcases hc with rfl | rfl <;> decide
    obtain ⟨kinds, hk, hv, hf⟩ := parseElems_complete (parseValue 9999)
      (fun e v rest he => parseValue_element 9999 e v rest he) inner vals hel
      ((inner ++ ']' :: ws2).length + 1) ws2 (by simp; omega)
    refine ⟨kinds, ?_, hv, hf⟩
    have hx : skipSpace (inner ++ ']' :: ws2) = c :: (r ++ ']' :: ws2) := by
      rw [hcr, List.cons_append, skipSpace_cons _ _ hns]
    have hx2 : c :: (r ++ ']' :: ws2) = inner ++ ']' :: ws2 := by rw [hcr]; rfl
    rw [hx]
    split
    · rename_i rest heq
      exact absurd (List.cons.inj heq).1 hnb
    · rw [hx2]
      exact hk

/-- The decoder on an array literal of strings and `null`s: the strings they
stand for, in order, and no error. -/
theorem decodeStrings_array (s : String) (vals : List String)
    (h : IsArrayLiteral s.data vals) : decodeStrings s = (vals, none) := by
  obtain ⟨ws0, ws1, inner, ws2, hws0, hws1, hws2, hs, hinner⟩ := h
  simp only [List.append_assoc, List.cons_append] at hs
  have hskip : skipSpace s.data = '[' :: (ws1 ++ (inner ++ ']' :: ws2)) := by
    rw [hs, skipSpace_append _ _ hws0]
    exact skipSpace_cons _ _ (by decide)
  obtain ⟨kinds, hk, hv, hf⟩ := parseArrayBody_complete ws1 inner ws2 vals hws1 hinner
  unfold decodeStrings
  rw [hskip]
  simp only [hk, skipSpace_allSpace ws2 hws2, hv, hf]
  rfl

/-- What the inside of an array scans as, when no element is a type error,
is white space, elements of the specification and the closing bracket. -/
theorem parseArrayBody_sound (r : List Char) (kinds : List JKind) (rest : List Char)
    (h : parseArrayBody (parseValue 9999) r = some (kinds, rest))
    (hf : kinds.findSome? elemFailure = none) :
    ∃ ws1 inner, AllSpace ws1 ∧ r = ws1 ++ (inner ++ ']' :: rest)
      ∧ ((inner = [] ∧ kinds.map elemValue = []) ∨ Elements inner (kinds.map elemValue)) := by
  obtain ⟨ws1, hws1, hr, _⟩ := skipSpace_split r
  unfold parseArrayBody at h
  split at h
  · rename_i rest1 hsk
    simp only [Option.some.injEq, Prod.mk.injEq] at h
    obtain ⟨rfl, rfl⟩ := h
    refine ⟨ws1, [], hws1, ?_, Or.inl ⟨rfl, rfl⟩⟩
    rw [List.nil_append, ← hsk]
    exact hr
  · obtain ⟨inner, hinner, hels⟩ := parseElems_sound (parseValue 9999)
      (fun inp kind rest1 hp hk => parseValue_sound 9999 inp kind rest1 hp hk)
      _ _ kinds rest h hf
    refine ⟨ws1, inner, hws1, ?_, Or.inr hels⟩
    rw [← hinner]
    exact hr

/-- When the decoder returns no error, the token is the literal `null` or an
array literal of strings and `null`s, and the result is what it stands for. -/
theorem decodeStrings_sound (s : String) (h : (decodeStrings s).2 = none) :
    (IsNullLiteral s.data ∧ (decodeStrings s).1 = [])
      ∨ ∃ vals, IsArrayLiteral s.data vals ∧ (decodeStrings s).1 = vals := by
  obtain ⟨ws0, hws0, hs, _⟩ := skipSpace_split s.data
  unfold decodeStrings at h ⊢
  split at h
  · rename_i r hsk
    right
    cases hb : parseArrayBody (parseValue 9999) r with
    | none => simp [hb] at h
    | some kr =>
      obtain ⟨kinds, rest⟩ := kr
      simp only [hb] at h ⊢
      by_cases hrest : skipSpace rest = []
      · simp only [hrest, ne_eq, not_true_eq_false, if_false] at h ⊢
        obtain ⟨ws1, inner, hws1, hr, hinner⟩ := parseArrayBody_sound r kinds rest hb h
        refine ⟨kinds.map elemValue, ⟨ws0, ws1, inner, rest, hws0, hws1,
          allSpace_of_skipSpace rest hrest, ?_, hinner⟩, rfl⟩
        rw [hs, hsk, hr]
        simp
      · simp [hrest] at h
  · rename_i inp hnot
    left
    cases hp : parseValue 10000 (skipSpace s.data) with
    | none => simp [hp] at h
    | some kr =>
      obtain ⟨kind, rest⟩ := kr
      simp only [hp] at h
      by_cases hrest : skipSpace rest = []
      · simp only [hrest, ne_eq, not_true_eq_false, if_false] at h
        rcases parseValue_top 10000 _ kind rest hp h with ⟨r, hr⟩ | ⟨hk, hinp⟩
        · exact absurd hr (hnot r)
        · refine ⟨⟨ws0, rest, hws0, allSpace_of_skipSpace rest hrest, ?_⟩, ?_⟩
          · rw [hs, hinp]
            simp
          · simp only [hp]
            split <;> rfl
      · simp [hrest] at h

/-- C15 (counterexample): `ValidArray` succeeds on the token `null`, which is
not an array literal, and returns the sequence with no elements; and it
succeeds on an array with a `null` element, for which it stores the empty
string. -/
theorem ValidArray_accepts_null :
    ValidArray (jsonLib stubLib stubJsonText) "null" = ([], none)
      ∧ '[' ∉ "null".data
      ∧ ValidArray (jsonLib stubLib stubJsonText) "[\"a\",null]" = (["a", ""], none) := by
  decide

/-- C15 (amended): for every token `s`, `ValidArray(s)` succeeds exactly when
`s` is the JSON literal `null`, and then it returns the sequence with no
elements, or a JSON array literal whose elements are all JSON strings or
`null`, and then it returns, in order, the strings that the string literals
stand for, with the empty string for each `null`; on every other token it
returns a non-nil error.  Consequently `ARR/SET` on
`["ARR/SET", name, "[\"a\",\"b\"]"]` passes the sequence `[a, b]` to
`Client.SetArray`, and over the 0-based mock `ARR/EL/GET name 1` then returns
`b`. -/
theorem ValidArray_succeeds_iff (base : Lib) (text : JsonFailure → String) (s : String) :
    ((ValidArray (jsonLib base text) s).2 = none
        ↔ IsNullLiteral s.data ∨ ∃ vals, IsArrayLiteral s.data vals)
      ∧ (IsNullLiteral s.data → ValidArray (jsonLib base text) s = ([], none))
      ∧ (∀ vals, IsArrayLiteral s.data vals → ValidArray (jsonLib base text) s = (vals, none))
      ∧ (∀ (σ : Type) (cl : Client σ) (c : Cmd) (name line : String) (w : World σ),
          (handleInstanceArraySet (jsonLib base text) cl c
              ["ARR/SET", name, "[\"a\",\"b\"]"] line w).2.trace
            = w.trace ++ [Call.SetArray name ["a", "b"] 0])
      ∧ (∀ (c : Cmd) (name line1 line2 : String),
          (handleArrayElementGet mockClient c ["ARR/EL/GET", name, "1"] line2
              (handleInstanceArraySet (jsonLib base text) mockClient c
                ["ARR/SET", name, "[\"a\",\"b\"]"] line1 (World.init MockStore.empty)).2).1
            = Res.ok ("b", none)) := by
  have hdef : ∀ t, ValidArray (jsonLib base text) t
      = ((decodeStrings t).1, (decodeStrings t).2.map (fun f => Error.Other (text f))) := by
    intro t; rfl
  have hnull : IsNullLiteral s.data → ValidArray (jsonLib base text) s = ([], none) := by
    intro h
    rw [hdef, decodeStrings_null s h]
    rfl
  have harr : ∀ vals, IsArrayLiteral s.data vals →
      ValidArray (jsonLib base text) s = (vals, none) := by
    intro vals h
    rw [hdef, decodeStrings_array s vals h]
    rfl
  have hab : ValidArray (jsonLib base text) "[\"a\",\"b\"]" = (["a", "b"], none) := by
    have h : decodeStrings "[\"a\",\"b\"]" = (["a", "b"], none) := by decide
    rw [hdef, h]
    rfl
  refine ⟨⟨?_, ?_⟩, hnull, harr, ?_, ?_⟩
  · intro h
    have h2 : (decodeStrings s).2 = none := by
      rw [hdef] at h
      simpa using h
    rcases decodeStrings_sound s h2 with ⟨hn, _⟩ | ⟨vals, hv, _⟩
    · exact Or.inl hn
    · exact Or.inr ⟨vals, hv⟩
  · rintro (hn | ⟨vals, hv⟩)
    · rw [hnull hn]
    · rw [harr vals hv]
  · intro σ cl c name line w
    simp [handleInstanceArraySet, bind_apply, pure_apply, ValidCountArguments, index,
      ValidName, invoke, print, hab]
    split <;> simp [pure_apply, bind_apply]
  · intro c name line1 line2
    have hint : ValidInt "1" = (1, none) := by decide
    simp [handleInstanceArraySet, handleArrayElementGet, bind_apply, pure_apply,
      ValidCountArguments, index, ValidName, invoke, print, hab, hint, mockClient,
      World.init, MockStore.empty]

theorem stringValue_a : StringValue ['a'] ['a'] :=
  StringValue.plain 'a' [] [] (by decide) (by decide) (by decide) StringValue.nil

theorem stringValue_b : StringValue ['b'] ['b'] :=
  StringValue.plain 'b' [] [] (by decide) (by decide) (by decide) StringValue.nil

theorem allSpace_nil : AllSpace [] := by
  intro c hc
  cases hc

theorem allSpace_blank : AllSpace [' '] := by
  intro c hc
  simp only [List.mem_singleton] at hc
  exact Or.inl hc

/-- The token `["a", "b"]` is an array literal of the strings `a` and `b`. -/
theorem isArrayLiteral_a_b : IsArrayLiteral "[\"a\", \"b\"]".data ["a", "b"] :=
  ⟨[], [], ['"', 'a', '"', ',', ' ', '"', 'b', '"'], [], allSpace_nil, allSpace_nil,
    allSpace_nil, rfl,
    Or.inr (Elements.cons ['"', 'a', '"'] "a" [] [' '] ['"', 'b', '"'] ["b"]
      (Element.string ['a'] ['a'] stringValue_a) allSpace_nil allSpace_blank
      (Elements.last ['"', 'b', '"'] "b" [] (Element.string ['b'] ['b'] stringValue_b)
        allSpace_nil))⟩

/-- The body `\n\u0041\ud83d\ude00` stands for a line feed, `A` and the
character U+1F600. -/
theorem stringValue_escapes :
    StringValue
      ['\\', 'n', '\\', 'u', '0', '0', '4', '1',
        '\\', 'u', 'd', '8', '3', 'd', '\\', 'u', 'd', 'e', '0', '0']
      ['\n', 'A', Char.ofNat 0x1F600] :=
  StringValue.escape 'n' '\n' _ _ (by decide)
    (StringValue.unicode '0' '0' '4' '1' _ _ (by decide)
      (by unfold IsHighSurrogate; decide) (by unfold IsLowSurrogate; decide)
      (StringValue.pair 'd' '8' '3' 'd' 'd' 'e' '0' '0' [] [] (by decide)
        (by unfold IsHighSurrogate; decide) (by unfold IsLowSurrogate; decide)
        StringValue.nil))

/-- The token `["\n\u0041\ud83d\ude00",null]` is an array literal of the
string of a line feed, `A` and U+1F600, and of the empty string. -/
theorem isArrayLiteral_escapes :
    IsArrayLiteral "[\"\\n\\u0041\\ud83d\\ude00\",null]".data
      [String.mk ['\n', 'A', Char.ofNat 0x1F600], ""] :=
  ⟨[], [], '"' :: ['\\', 'n', '\\', 'u', '0', '0', '4', '1',
        '\\', 'u', 'd', '8', '3', 'd', '\\', 'u', 'd', 'e', '0', '0'] ++ ['"']
      ++ [] ++ ',' :: [] ++ ['n', 'u', 'l', 'l'], [],
    allSpace_nil, allSpace_nil, allSpace_nil, rfl,
    Or.inr (Elements.cons _ _ [] [] ['n', 'u', 'l', 'l'] [""]
      (Element.string _ _ stringValue_escapes) allSpace_nil allSpace_nil
      (Elements.last ['n', 'u', 'l', 'l'] "" [] Element.null allSpace_nil))⟩

/-- C15, witness: the token `["a", "b"]`, and the token
`["\n\u0041\ud83d\ude00",null]` with escapes, a surrogate pair and a `null`
element. -/
theorem ValidArray_succeeds_iff_witness :
    ValidArray (jsonLib stubLib stubJsonText) "[\"a\", \"b\"]" = (["a", "b"], none)
      ∧ ValidArray (jsonLib stubLib stubJsonText) "[\"\\n\\u0041\\ud83d\\ude00\",null]"
        = ([String.mk ['\n', 'A', Char.ofNat 0x1F600], ""], none) :=
  ⟨(ValidArray_succeeds_iff stubLib stubJsonText "[\"a\", \"b\"]").2.2.1 ["a", "b"]
      isArrayLiteral_a_b,
    (ValidArray_succeeds_iff stubLib stubJsonText
      "[\"\\n\\u0041\\ud83d\\ude00\",null]").2.2.1 _ isArrayLiteral_escapes⟩

/-! ## C16: one iteration of the REPL loop -/

/-- The format `HelpInformation` has no verb. -/
theorem HelpInformation_no_verb : '%' ∉ HelpInformation.data := by decide

/-- C16: what one iteration of the loop writes for the outcome
`(result, err)` of `Cmd.Run`: the banner `HelpInformation`, whatever the
message of the error, when `err` is `cmd.ErrCommandNotExist`;
`ERROR: <message>` and a newline for every other error; the result text and
a newline when there is no error.  In each case the body returns, and the
loop goes on with the next read. -/
theorem report_outcome {σ : Type} (lib : Lib) (result : String) (w : World σ) :
    report lib (result, some Error.ErrCommandNotExist) w
        = (Res.ok (), { w with stdout := w.stdout ++ HelpInformation })
      ∧ (∀ e, e ≠ Error.ErrCommandNotExist →
          report lib (result, some e) w
            = (Res.ok (), { w with stdout := w.stdout ++ ("ERROR: " ++ e.message lib ++ "\n") }))
      ∧ report lib (result, none) w
        = (Res.ok (), { w with stdout := w.stdout ++ (result ++ "\n") })
      ∧ (∀ (sh : Shell σ) (cli : String) (reads : List (String × Option Error))
          (err : Option Error) (w0 w1 : World σ),
          sh.Run cli { w0 with stdout := w0.stdout ++ (sh.CurrentInstanceName w0.store ++ "> ") }
            = (Res.ok (result, err), w1) →
          mainLoop lib sh ((cli, none) :: reads) w0
            = mainLoop lib sh reads (report lib (result, err) w1).2) := by
  refine ⟨?_, ?_, ?_, ?_⟩
  · simp [report, print]
  · intro e he
    simp [report, print, Ne.symm he]
  · simp [report, print]
  · intro sh cli reads err w0 w1 hrun
    have hrep : ∀ o : Result, ∀ w2 : World σ, (report lib o w2).1 = Res.ok () := by
      intro o w2
      obtain ⟨t, e⟩ := o
      cases e with
      | none => rfl
      | some e =>
        simp only [report]
        split <;> rfl
    have h1 := hrep (result, err) w1
    simp only [mainLoop, loopBody, bind_apply, print, hrun]
    generalize report lib (result, err) w1 = r at h1
    obtain ⟨r1, r2⟩ := r
    simp only at h1
    subst h1
    rfl

/-- C16, witness: an unknown command, another error and a result, each
followed by a further read. -/
theorem report_outcome_witness :
    (report stubLib ("", some Error.ErrCommandNotExist) (World.init ())
        = (Res.ok (), { World.init () with stdout := (World.init ()).stdout ++ HelpInformation })
      ∧ (∀ e, e ≠ Error.ErrCommandNotExist →
          report stubLib ("", some e) (World.init ())
            = (Res.ok (), { World.init () with
                stdout := (World.init ()).stdout ++ ("ERROR: " ++ e.message stubLib ++ "\n") }))
      ∧ report stubLib ("", none) (World.init ())
        = (Res.ok (), { World.init () with stdout := (World.init ()).stdout ++ ("" ++ "\n") })
      ∧ (∀ (sh : Shell Unit) (cli : String) (reads : List (String × Option Error))
          (err : Option Error) (w0 w1 : World Unit),
          sh.Run cli { w0 with stdout := w0.stdout ++ (sh.CurrentInstanceName w0.store ++ "> ") }
            = (Res.ok ("", err), w1) →
          mainLoop stubLib sh ((cli, none) :: reads) w0
            = mainLoop stubLib sh reads (report stubLib ("", err) w1).2))
      ∧ (mainLoop stubLib (stubShell ("", some Error.ErrNotEnoughArguments))
          [("NOPE\n", none), ("LIST\n", none)] (World.init ())).2.stdout
        = "> ERROR: Not enough arguments\n> ERROR: Not enough arguments\n" :=
  ⟨report_outcome stubLib "" (World.init ()), by decide⟩

/-! ## C17: the scalar read handlers -/

/-- C17: for `GET`, `ARR/EL/GET` and `HASH/EL/GET`, every client and every
token list that passes arity and decoding: the handler makes exactly one
client call, the read of its keyword with `args[1]` as the name and the
decoded `args[2]` as index or key, and when the client returns a string
without error the handler returns that string as it is, without error. -/
theorem read_handler_returns_client_string {σ : Type} (lib : Lib) (cl : Client σ) (c : Cmd)
    (h : ReadHandler) (args : List String) (line : String) (w : World σ) (call : Call)
    (hcall : h.expectedCall args = some call) :
    (runHandler lib cl h.fn c args line w).2.trace = w.trace ++ [call]
      ∧ (runHandler lib cl h.fn c args line w).2.store = (cl.answer call w.store).2
      ∧ (∀ v, cl.readString call w.store = (v, none) →
          (runHandler lib cl h.fn c args line w).1 = Res.ok (v, none)) := by
  cases h
  case Get =>
    rcases args with _ | ⟨a0, _ | ⟨a1, rest⟩⟩ <;>
      simp [ReadHandler.expectedCall] at hcall
    subst hcall
    simp [ReadHandler.fn, runHandler, Client.answer, Client.readString, handleInstanceGet,
      bind_apply, pure_apply, ValidCountArguments, index, ValidName, invoke]
    generalize cl.Get a1 w.store = r
    obtain ⟨⟨v, e⟩, s1⟩ := r
    cases e <;> simp [pure_apply, bind_apply]
  case ArrElGet =>
    rcases args with _ | ⟨a0, _ | ⟨a1, _ | ⟨a2, rest⟩⟩⟩ <;>
      simp [ReadHandler.expectedCall] at hcall
    obtain ⟨hdec, hcall⟩ := hcall
    subst hcall
    simp [ReadHandler.fn, runHandler, Client.answer, Client.readString, handleArrayElementGet,
      bind_apply, pure_apply, ValidCountArguments, index, ValidName, invoke, hdec]
  case HashElGet =>
    rcases args with _ | ⟨a0, _ | ⟨a1, _ | ⟨a2, rest⟩⟩⟩ <;>
      simp [ReadHandler.expectedCall] at hcall
    subst hcall
    simp [ReadHandler.fn, runHandler, Client.answer, Client.readString,
      handleHashElementGet, bind_apply, pure_apply, ValidCountArguments, index, ValidName,
      invoke]
    generalize cl.GetHashElement a1 a2 w.store = r
    obtain ⟨⟨v, e⟩, s1⟩ := r
    cases e <;> simp [pure_apply, bind_apply]

/-- C17, witness: `GET name` over the mock holding `v` under `name`. -/
theorem read_handler_returns_client_string_witness :
    (runHandler stubLib mockClient ReadHandler.Get.fn registry ["GET", "name"] ""
        (World.init (MockStore.mk [("name", "v")] []))).2.trace
        = (World.init (MockStore.mk [("name", "v")] [])).trace ++ [Call.Get "name"]
      ∧ (runHandler stubLib mockClient ReadHandler.Get.fn registry ["GET", "name"] ""
        (World.init (MockStore.mk [("name", "v")] []))).2.store
        = (mockClient.answer (Call.Get "name")
            (World.init (MockStore.mk [("name", "v")] [])).store).2
      ∧ (∀ v, mockClient.readString (Call.Get "name")
            (World.init (MockStore.mk [("name", "v")] [])).store = (v, none) →
          (runHandler stubLib mockClient ReadHandler.Get.fn registry ["GET", "name"] ""
            (World.init (MockStore.mk [("name", "v")] []))).1 = Res.ok (v, none)) :=
  read_handler_returns_client_string stubLib mockClient registry ReadHandler.Get
    ["GET", "name"] "" (World.init (MockStore.mk [("name", "v")] []))
    (Call.Get "name") (by decide)

/-! ## C18: `ValidString` is idempotent and its output has no quote at either end -/

/-- The output of `ValidString` neither begins nor ends with a double quote. -/
theorem ValidString_quote_free (s : String) :
    (ValidString s).1.data.head? ≠ some '"' ∧ (ValidString s).1.data.getLast? ≠ some '"' := by
  obtain ⟨_, _, _, _, _, hhead, hlast⟩ := trim_decomposition s.data '"'
  exact ⟨hhead, hlast⟩

/-- Trimming a text that neither begins nor ends with `c` changes nothing. -/
theorem trim_of_quote_free (t : List Char) (c : Char) (hhead : t.head? ≠ some c)
    (hlast : t.getLast? ≠ some c) : trimLeftByte (trimRightByte t c) c = t := by
  unfold trimLeftByte trimRightByte
  have hr : t.rdropWhile (fun x => x == c) = t := by
    rw [List.rdropWhile_eq_self_iff]
    intro hne hp
    apply hlast
    rw [List.getLast?_eq_getLast _ hne]
    simpa using hp
  rw [hr]
  cases t with
  | nil => rfl
  | cons x xs =>
    have hx : x ≠ c := by
      intro h
      apply hhead
      simp [h]
    have hb : (x == c) = false := by simpa using hx
    simp [List.dropWhile, hb]

/-- The calls `SET` makes from an empty trace: none, or one whose value is an
output of `ValidString`. -/
theorem value_handler_trace {σ : Type} (lib : Lib) (cl : Client σ) (c : Cmd) (fn : HandlerFn)
    (hfn : fn ∈ valueHandlers) (args : List String) (line : String) (s0 : σ) :
    (runHandler lib cl fn c args line (World.init s0)).2.trace = []
      ∨ ∃ call tok, (runHandler lib cl fn c args line (World.init s0)).2.trace = [call]
          ∧ call.value? = some (ValidString tok).1 := by
  simp only [valueHandlers, List.mem_cons, List.mem_singleton, List.not_mem_nil, or_false]
    at hfn
  rcases hfn with rfl | rfl | rfl | rfl
  · rcases args with _ | ⟨a0, _ | ⟨a1, _ | ⟨a2, _ | ⟨a3, rest⟩⟩⟩⟩
    · left; simp [runHandler, handleInstanceSet, bind_apply, pure_apply, ValidCountArguments,
        World.init]
    · left; simp [runHandler, handleInstanceSet, bind_apply, pure_apply, ValidCountArguments,
        World.init]
    · left; simp [runHandler, handleInstanceSet, bind_apply, pure_apply, ValidCountArguments,
        World.init]
    · right
      refine ⟨Call.Set a1 (ValidString a2).1 0, a2, ?_, rfl⟩
      simp [runHandler, handleInstanceSet, bind_apply, pure_apply, ValidCountArguments,
        index, ValidName, invoke, ValidString_snd, World.init]
      split <;> simp [pure_apply, bind_apply]
    · right
      refine ⟨Call.Set a1 (ValidString a2).1 (Atoi a3).1, a2, ?_, rfl⟩
      simp [runHandler, handleInstanceSet, bind_apply, pure_apply, ValidCountArguments,
        index, ValidName, invoke, ValidString_snd, World.init]
      split <;> simp [pure_apply, bind_apply]
  · rcases args with _ | ⟨a0, _ | ⟨a1, _ | ⟨a2, rest⟩⟩⟩
    · left; simp [runHandler, handleArrayElementAdd, bind_apply, pure_apply,
        ValidCountArguments, World.init]
    · left; simp [runHandler, handleArrayElementAdd, bind_apply, pure_apply,
        ValidCountArguments, World.init]
    · left; simp [runHandler, handleArrayElementAdd, bind_apply, pure_apply,
        ValidCountArguments, index, ValidName, World.init]
    · right
      refine ⟨Call.AddArrayElement a1 (ValidString a2).1, a2, ?_, rfl⟩
      simp [runHandler, handleArrayElementAdd, bind_apply, pure_apply, ValidCountArguments,
        index, ValidName, invoke, ValidString_snd, World.init]
      split <;> simp [pure_apply, bind_apply]
  · rcases args with _ | ⟨a0, _ | ⟨a1, _ | ⟨a2, _ | ⟨a3, rest⟩⟩⟩⟩
    · left; simp [runHandler, handleArrayElementSet, bind_apply, pure_apply,
        ValidCountArguments, World.init]
    · left; simp [runHandler, handleArrayElementSet, bind_apply, pure_apply,
        ValidCountArguments, World.init]
    · left; simp [runHandler, handleArrayElementSet, bind_apply, pure_apply,
        ValidCountArguments, World.init]
    · left; simp [runHandler, handleArrayElementSet, bind_apply, pure_apply,
        ValidCountArguments, World.init]
    · cases hdec : (ValidInt a2).2 with
      | some e =>
        left
        simp [runHandler, handleArrayElementSet, bind_apply, pure_apply,
          ValidCountArguments, index, ValidName, hdec, World.init]
      | none =>
        right
        refine ⟨Call.SetArrayElement a1 (ValidInt a2).1 (ValidString a3).1, a3, ?_, rfl⟩
        simp [runHandler, handleArrayElementSet, bind_apply, pure_apply,
          ValidCountArguments, index, ValidName, invoke, ValidString_snd, hdec, World.init]
        split <;> simp [pure_apply, bind_apply]
  · rcases args with _ | ⟨a0, _ | ⟨a1, _ | ⟨a2, _ | ⟨a3, rest⟩⟩⟩⟩
    · left; simp [runHandler, handleHashElementSet, bind_apply, pure_apply,
        ValidCountArguments, World.init]
    · left; simp [runHandler, handleHashElementSet, bind_apply, pure_apply,
        ValidCountArguments, World.init]
    · left; simp [runHandler, handleHashElementSet, bind_apply, pure_apply,
        ValidCountArguments, World.init]
    · left; simp [runHandler, handleHashElementSet, bind_apply, pure_apply,
        ValidCountArguments, World.init]
    · right
      refine ⟨Call.SetHashElement a1 a2 (ValidString a3).1, a3, ?_, rfl⟩
      simp [runHandler, handleHashElementSet, bind_apply, pure_apply, ValidCountArguments,
        index, ValidName, invoke, ValidString_snd, World.init]
      split <;> simp [pure_apply, bind_apply]

/-- C18: `ValidString` is idempotent, and for every token its result neither
begins nor ends with a double quote; hence the text `ECHO` returns, and every
value that `SET`, `ARR/EL/ADD`, `ARR/EL/SET` and `HASH/EL/SET` hand to the
store client, on any token list and over any client, neither begins nor ends
with a double quote. -/
theorem ValidString_idempotent_quote_free {σ : Type} (lib : Lib) (cl : Client σ) (c : Cmd)
    (s : String) (args : List String) (line : String) (w : World σ) (s0 : σ) :
    ValidString (ValidString s).1 = ValidString s
      ∧ (ValidString s).1.data.head? ≠ some '"'
      ∧ (ValidString s).1.data.getLast? ≠ some '"'
      ∧ (∀ text err, (handleEcho c args line w).1 = Res.ok (text, err) →
          text.data.head? ≠ some '"' ∧ text.data.getLast? ≠ some '"')
      ∧ (∀ fn ∈ valueHandlers,
          ∀ call ∈ (runHandler lib cl fn c args line (World.init s0)).2.trace,
          ∀ v, call.value? = some v →
            v.data.head? ≠ some '"' ∧ v.data.getLast? ≠ some '"') := by
  obtain ⟨hhead, hlast⟩ := ValidString_quote_free s
  refine ⟨?_, hhead, hlast, ?_, ?_⟩
  · show (Trim (Trim s '"') '"', (none : Option Error)) = (Trim s '"', none)
    have h := trim_of_quote_free (Trim s '"').data '"' hhead hlast
    simp only [Trim] at h ⊢
    rw [h]
  · intro text err hrun
    rcases args with _ | ⟨a0, _ | ⟨a1, rest⟩⟩
    · simp [handleEcho, bind_apply, pure_apply, ValidCountArguments] at hrun
      rw [← hrun.1]
      simp
    · simp [handleEcho, bind_apply, pure_apply, ValidCountArguments] at hrun
      rw [← hrun.1]
      simp
    · simp [handleEcho, bind_apply, pure_apply, ValidCountArguments, index] at hrun
      have hq := ValidString_quote_free a1
      rw [hrun] at hq
      exact hq
  · intro fn hfn call hmem v hv
    rcases value_handler_trace lib cl c fn hfn args line s0 with h0 | ⟨call1, tok, h1, hval⟩
    · rw [h0] at hmem
      simp at hmem
    · rw [h1] at hmem
      simp at hmem
      subst hmem
      rw [hval] at hv
      have hq := ValidString_quote_free tok
      rw [Option.some.inj hv] at hq
      exact hq

/-- C18, witness: `ECHO ""hi""` and `SET name ""v""` over the stub client. -/
theorem ValidString_idempotent_quote_free_witness :
    (ValidString (ValidString "\"\"hi\"\"").1 = ValidString "\"\"hi\"\""
      ∧ (ValidString "\"\"hi\"\"").1.data.head? ≠ some '"'
      ∧ (ValidString "\"\"hi\"\"").1.data.getLast? ≠ some '"'
      ∧ (∀ text err, (handleEcho registry ["ECHO", "\"\"hi\"\""] "" (World.init ())).1
            = Res.ok (text, err) →
          text.data.head? ≠ some '"' ∧ text.data.getLast? ≠ some '"')
      ∧ (∀ fn ∈ valueHandlers,
          ∀ call ∈ (runHandler stubLib (stubClient [] none) fn registry
              ["ECHO", "\"\"hi\"\""] "" (World.init ())).2.trace,
          ∀ v, call.value? = some v →
            v.data.head? ≠ some '"' ∧ v.data.getLast? ≠ some '"'))
      ∧ (handleEcho registry ["ECHO", "\"\"hi\"\""] "" (World.init ())).1
        = Res.ok ("hi", none)
      ∧ (runHandler stubLib (stubClient [] none) HandlerFn.handleInstanceSet registry
          ["SET", "name", "\"\"v\"\""] "" (World.init ())).2.trace
        = [Call.Set "name" "v" 0] :=
  ⟨ValidString_idempotent_quote_free stubLib (stubClient [] none) registry "\"\"hi\"\""
      ["ECHO", "\"\"hi\"\""] "" (World.init ()) (),
    by decide, by decide⟩

end OllCli
